import Mathlib

/-!
# Verification of the goodchanges change-impact analyzer

A shallow embedding of the core of `gooddata/gooddata-goodchanges`, a Go
tool that computes which e2e test targets of a Rush-style monorepo are
affected by a change.  The embedding follows the Go sources:

* `internal/analyzer/astdiff.go`  — per-symbol AST diffing,
* `analyzer.go` (newest revision) — `AnalyzeLibraryPackage`, taint
  seeding, BFS propagation, entrypoint projection, `FindAffectedFiles`,
* `rush.go`                       — workspace model, `TopologicalSort`,
* `git.go`                        — `MergeBase`,
* `lockfile.go`                   — pnpm lockfile parsing,
* `main.go`                       — the orchestrator pipeline.

The TypeScript parser, the filesystem, git subprocesses and the
`doublestar` glob library are out of scope for the Go code itself and are
modelled as components of an explicit environment record.  Go maps are
modelled as duplicate-key-free association lists, with name sets kept
canonically sorted (a Go map has no observable iteration order; these
lists are one faithful representative of it).
-/

namespace GoodChanges

/-! ## String utilities (ports of the `strings` package functions used) -/

/-- One character of Go whitespace as treated by `normalizeWhitespace`. -/
def isWS (c : Char) : Bool := c == ' ' || c == '\t' || c == '\n' || c == '\r'

/-- Collapse runs of whitespace into single spaces (the builder loop of
`normalizeWhitespace` in astdiff.go). -/
def collapseWS : List Char → Bool → List Char
  | [], _ => []
  | c :: cs, inSpace =>
    if isWS c then
      if inSpace then collapseWS cs true else ' ' :: collapseWS cs true
    else c :: collapseWS cs false

/-- Drop leading spaces. After collapsing, the only whitespace left is `' '`. -/
def dropLeadSpaces : List Char → List Char
  | [] => []
  | c :: cs => if c == ' ' then dropLeadSpaces cs else c :: cs

/-- `strings.TrimSpace` on an already collapsed character list. -/
def trimSpaces (l : List Char) : List Char :=
  (dropLeadSpaces (dropLeadSpaces l.reverse).reverse)

/-- Port of `normalizeWhitespace` (astdiff.go): collapse all whitespace
runs to single spaces and trim both ends. -/
def normalizeWhitespace (s : String) : String :=
  ⟨trimSpaces (collapseWS s.data false)⟩

/-- Port of `strings.Contains` on character lists. -/
def containsSub : List Char → List Char → Bool
  | [], sub => sub.isEmpty
  | h :: t, sub => sub.isPrefixOf (h :: t) || containsSub t sub

/-- Port of `strings.Contains(s, sub)`. -/
def goContains (s sub : String) : Bool := containsSub s.data sub.data

/-- Port of `strings.HasPrefix` (kernel-computable). -/
def goHasPrefix (s pre : String) : Bool := pre.data.isPrefixOf s.data

/-- Port of `strings.HasSuffix` (kernel-computable). -/
def goEndsWith (s suf : String) : Bool := suf.data.isSuffixOf s.data

/-- Port of `strings.TrimPrefix(s, pre)`. -/
def goTrimPrefix (s pre : String) : String :=
  if goHasPrefix s pre then ⟨s.data.drop pre.data.length⟩ else s

/-- Drop the last `k` characters. -/
def goDropRight (s : String) (k : Nat) : String :=
  ⟨s.data.take (s.data.length - k)⟩

/-- ASCII lower-casing of one character (the paths and specifiers in
scope are ASCII, where `strings.ToLower` acts exactly like this). -/
def charToLower (c : Char) : Char :=
  let n := c.toNat
  if 65 ≤ n ∧ n ≤ 90 then Char.ofNat (n + 32) else c

/-- Port of `strings.ToLower` for ASCII strings. -/
def goToLower (s : String) : String := ⟨s.data.map charToLower⟩

/-- Split a character list at every occurrence of `c`
(`strings.Split` / `String.splitOn` for a one-character separator). -/
def splitCharAux (c : Char) : List Char → List Char → List String
  | [], cur => [⟨cur.reverse⟩]
  | x :: xs, cur =>
    if x == c then ⟨cur.reverse⟩ :: splitCharAux c xs []
    else splitCharAux c xs (x :: cur)

def splitChar (c : Char) (s : String) : List String := splitCharAux c s.data []

/-- Port of `filepath.Dir` restricted to clean slash-separated relative
paths (the only shape fed to it by the analyzer). -/
def goDir (p : String) : String :=
  match (splitChar '/' p).dropLast with
  | [] => "."
  | ds => String.intercalate "/" ds

/-- Modelled from the spec: `stripTSExtension` (the helper lives in the
missing `resolve.go`); §4.F.1 keys analyses by "path with extension
stripped". -/
def stripTSExtension (p : String) : String :=
  if goEndsWith p ".tsx" then goDropRight p 4
  else if goEndsWith p ".ts" then goDropRight p 3
  else if goEndsWith p ".jsx" then goDropRight p 4
  else if goEndsWith p ".js" then goDropRight p 3
  else p

/-- Lower-cased extension of a path, port of
`strings.ToLower(filepath.Ext(path))` for the ASCII paths in scope. -/
def goExt (p : String) : String :=
  match (splitChar '/' p).getLast? with
  | none => ""
  | some base =>
    match (splitChar '.' base).length with
    | 0 => ""
    | 1 => ""
    | _ => "." ++ goToLower ((splitChar '.' base).getLastD "")

/-! ## Key-sorted association maps (model of Go maps) -/

/-- A kernel-computable strict lexicographic order on characters. -/
def charLt (a b : Char) : Bool := a.toNat < b.toNat

/-- A kernel-computable strict lexicographic order on character lists. -/
def strLtB : List Char → List Char → Bool
  | [], [] => false
  | [], _ :: _ => true
  | _ :: _, [] => false
  | a :: as, b :: bs => charLt a b || (a == b && strLtB as bs)

/-- A kernel-computable strict lexicographic order on strings, used to
keep the association-list models of Go maps canonically sorted. -/
def strLt (a b : String) : Bool := strLtB a.data b.data

/-- A sorted, duplicate-free list of strings: the model of a Go
`map[string]bool` used as a set. -/
abbrev NameSet := List String

/-- Ordered, deduplicating insertion. -/
def nsInsert (n : String) : NameSet → NameSet
  | [] => [n]
  | m :: rest =>
    if strLt n m then n :: m :: rest
    else if n = m then m :: rest
    else m :: nsInsert n rest

def nsInsertMany (ns : List String) (s : NameSet) : NameSet :=
  ns.foldl (fun acc n => nsInsert n acc) s

def nsOfList (ns : List String) : NameSet := nsInsertMany ns []

/-- A duplicate-key-free association list: the model of a Go
`map[string]β`.  Lookup returns the first matching binding; update
rewrites it in place or appends a new one. -/
abbrev CMap (β : Type) := List (String × β)

def cmGet {β : Type} : CMap β → String → Option β
  | [], _ => none
  | (k, v) :: rest, key => if key = k then some v else cmGet rest key

def cmGetD {β : Type} (m : CMap β) (key : String) (d : β) : β :=
  (cmGet m key).getD d

/-- Insert or update a binding. -/
def cmUpd {β : Type} (key : String) (f : Option β → β) : CMap β → CMap β
  | [] => [(key, f none)]
  | (k, v) :: rest =>
    if key = k then (k, f (some v)) :: rest
    else (k, v) :: cmUpd key f rest

/-- Add an integer to a counter entry (default 0): `m[k] += d` on a Go
`map[string]int`. -/
def cmAddInt (key : String) (d : Int) (m : CMap Int) : CMap Int :=
  cmUpd key (fun v => v.getD 0 + d) m

/-! ## Taint maps: `map[string]map[string]bool` from file stems to
tainted symbol-name sets. -/

abbrev Taint := CMap NameSet

/-- Does the taint map record `name` for `stem`? -/
def tHas (t : Taint) (stem name : String) : Bool :=
  match cmGet t stem with
  | some ns => ns.contains name
  | none => false

/-- The set recorded for a stem (empty when absent): Go map access
returning the nil map. -/
def tGet (t : Taint) (stem : String) : NameSet :=
  cmGetD t stem []

/-- `tainted[stem][n] = true` for all names. -/
def tAdd (t : Taint) (stem : String) (names : List String) : Taint :=
  cmUpd stem (fun old => nsInsertMany names (old.getD [])) t

/-- Pointwise inclusion of taint maps. -/
def tLE (t₁ t₂ : Taint) : Prop :=
  ∀ stem name, tHas t₁ stem name = true → tHas t₂ stem name = true

end GoodChanges

namespace GoodChanges

/-! ## The tsparse data model (tsparse.go)

The TypeScript parser itself is out of scope (spec §1): a `FileAnalysis`
is the record it produces.  A `SymbolDecl` carries `body`, the text that
`ExtractTextForLines` returns for its line span, `inStmtMap`, whether
`buildStmtMap` indexes its declaring statement (true exactly when the
statement has an identifier name; false e.g. for an anonymous
`export default function`), and `erased`, the text `extractRuntimeText`
produces for that statement (its type-erased projection). -/

structure TsImport where
  names : List String
  source : String
deriving DecidableEq

structure TsExport where
  name : String
  localName : String
  source : String
  isTypeOnly : Bool
  isStar : Bool
deriving DecidableEq

structure SymbolDecl where
  name : String
  isTypeOnly : Bool
  body : String
  inStmtMap : Bool
  erased : String
deriving DecidableEq

structure FileAnalysis where
  text : String
  imports : List TsImport
  exports : List TsExport
  symbols : List SymbolDecl
deriving DecidableEq

/-- `buildStmtMap` composed with `extractRuntimeText` (astdiff.go): maps a
statement's identifier name to its type-erased text.  Statements are
visited in file order, later ones overwrite. -/
def buildStmtRuntime (a : FileAnalysis) : CMap String :=
  a.symbols.foldl
    (fun m s => if s.inStmtMap then cmUpd s.name (fun _ => s.erased) m else m) []

/-! ## The AST differ (`findAffectedSymbolsByASTDiff`, astdiff.go) -/

/-- The `oldSymbolTexts` map: old symbol name → whitespace-normalized body. -/
def buildOldSymbolTexts (old : FileAnalysis) : CMap String :=
  old.symbols.foldl
    (fun m s => cmUpd s.name (fun _ => normalizeWhitespace s.body) m) []

/-- The `oldSymbolRuntimeTexts` map: for non-type-only old symbols whose
statement is indexed, the type-erased statement text. -/
def buildOldRuntimeTexts (old : FileAnalysis) : CMap String :=
  old.symbols.foldl
    (fun m s =>
      if s.isTypeOnly then m
      else
        match cmGet (buildStmtRuntime old) s.name with
        | some r => cmUpd s.name (fun _ => r) m
        | none => m) []

/-- One step of the per-symbol comparison loop of
`findAffectedSymbolsByASTDiff`. -/
def classifyStep (oldTexts oldRuntime : CMap String) (newA : FileAnalysis)
    (includeTypes : Bool) (acc : List String) (sym : SymbolDecl) : List String :=
  let newBodyNorm := normalizeWhitespace sym.body
  match cmGet oldTexts sym.name with
  | none =>
    -- new symbol — affected, unless type-only with types disabled
    if sym.isTypeOnly ∧ includeTypes = false then acc else acc ++ [sym.name]
  | some oldBodyNorm =>
    if newBodyNorm = oldBodyNorm then acc
    else if sym.isTypeOnly then
      if includeTypes then acc ++ [sym.name] else acc
    else
      let oldR := cmGetD oldRuntime sym.name ""
      let newR := cmGetD (buildStmtRuntime newA) sym.name ""
      if oldR ≠ "" ∧ newR ≠ "" ∧ oldR = newR then
        if includeTypes then acc ++ [sym.name] else acc
      else acc ++ [sym.name]

/-- The per-symbol comparison loop of `findAffectedSymbolsByASTDiff`. -/
def classifySymbols (oldTexts oldRuntime : CMap String) (newA : FileAnalysis)
    (includeTypes : Bool) : List String :=
  newA.symbols.foldl (classifyStep oldTexts oldRuntime newA includeTypes) []

/-- The initial `affectedSet` / `affectedTypeOnly` maps of the intra-file
propagation block. -/
def initAffected (newA : FileAnalysis) (affected : List String) :
    NameSet × CMap Bool :=
  affected.foldl
    (fun p name =>
      match newA.symbols.find? (fun s => s.name == name) with
      | some s => (nsInsert name p.1, cmUpd name (fun _ => s.isTypeOnly) p.2)
      | none => (nsInsert name p.1, p.2))
    ([], [])

/-- The intra-file reference graph: symbol → names of other symbols whose
name occurs in its body text. -/
def buildDependsOn (newA : FileAnalysis) : CMap NameSet :=
  newA.symbols.foldl
    (fun m sym =>
      let deps := newA.symbols.foldl
        (fun d other =>
          if other.name ≠ sym.name ∧ goContains sym.body other.name then
            nsInsert other.name d
          else d) []
      cmUpd sym.name (fun _ => deps) m) []

/-- One pass of the `for changed` propagation loop. -/
def diffPropagatePass (symbols : List SymbolDecl) (dependsOn : CMap NameSet) :
    NameSet × CMap Bool × Bool → NameSet × CMap Bool × Bool :=
  fun st =>
    symbols.foldl
      (fun st sym =>
        let (affSet, affTO, _changed) := st
        if affSet.contains sym.name then st
        else
          let deps := cmGetD dependsOn sym.name []
          if deps.any (fun dep =>
              affSet.contains dep ∧
              ¬(cmGetD affTO dep false ∧ sym.isTypeOnly = false)) then
            (nsInsert sym.name affSet, cmUpd sym.name (fun _ => sym.isTypeOnly) affTO, true)
          else st)
      st

/-- The `for changed` loop, fueled: every changing pass strictly grows the
affected set, so `symbols.length + 1` passes always reach the fixpoint
that the unbounded Go loop terminates at. -/
def diffPropagateLoop (fuel : Nat) (symbols : List SymbolDecl)
    (dependsOn : CMap NameSet) (affSet : NameSet) (affTO : CMap Bool) :
    NameSet × CMap Bool :=
  match fuel with
  | 0 => (affSet, affTO)
  | fuel + 1 =>
    let (affSet2, affTO2, changed) := diffPropagatePass symbols dependsOn (affSet, affTO, false)
    if changed then diffPropagateLoop fuel symbols dependsOn affSet2 affTO2
    else (affSet2, affTO2)

/-- Port of `findAffectedSymbolsByASTDiff` (astdiff.go).  `oldContent` is
passed by the Go code but never read. -/
def findAffectedSymbolsByASTDiff (oldAnalysis : Option FileAnalysis)
    (newAnalysis : FileAnalysis) (_oldContent : String) (includeTypes : Bool) :
    List String :=
  let oldTexts :=
    match oldAnalysis with
    | some o => buildOldSymbolTexts o
    | none => []
  let oldRuntime :=
    match oldAnalysis with
    | some o => buildOldRuntimeTexts o
    | none => []
  let affected := classifySymbols oldTexts oldRuntime newAnalysis includeTypes
  if affected.isEmpty then affected
  else
    let (affSet0, affTO0) := initAffected newAnalysis affected
    let dependsOn := buildDependsOn newAnalysis
    let (affSet, affTO) :=
      diffPropagateLoop (newAnalysis.symbols.length + 1) newAnalysis.symbols
        dependsOn affSet0 affTO0
    newAnalysis.symbols.foldl
      (fun acc sym =>
        if affSet.contains sym.name then
          if cmGetD affTO sym.name false ∧ includeTypes = false then acc
          else acc ++ [sym.name]
        else acc)
      []

end GoodChanges

namespace GoodChanges

/-! ## Claim predicates and concrete instances for the AST differ -/

/-- The hypothesis of claim C2, formalized: the two versions of a file
differ only in type-only syntax (type annotations, `as`/`satisfies`,
`<T>` assertions, type-parameter lists, interface/type-alias bodies).
In the embedding this means: no runtime symbol was added, and every
runtime symbol present in both versions has the same type-erased
statement text (`extractRuntimeText` output) and the same statement
shape; type-only (interface/type-alias) symbols may change freely. -/
def TypeOnlyDiff (oldA newA : FileAnalysis) : Prop :=
  (∀ s ∈ newA.symbols, s.isTypeOnly = true ∨ ∃ t ∈ oldA.symbols, t.name = s.name) ∧
  (∀ s ∈ newA.symbols, s.isTypeOnly = false →
    ∀ t ∈ oldA.symbols, t.name = s.name →
      t.isTypeOnly = false ∧ t.erased = s.erased ∧ t.inStmtMap = s.inStmtMap)

/-- Old version of the C2 counterexample file: an anonymous
`export default function` whose parameter annotation is the only thing
that changes.  `tsparse.extractDeclarations` names the symbol
`"default"`, but `buildStmtMap` skips the statement (its `Name()` is not
an identifier), so `inStmtMap = false`. -/
def C2old : FileAnalysis :=
  { text := "export default function (x: number) \x7b return 1; \x7d"
    imports := []
    exports := []
    symbols := [{ name := "default", isTypeOnly := false
                  body := "export default function (x: number) \x7b return 1; \x7d"
                  inStmtMap := false
                  erased := "export default function (x) \x7b return 1; \x7d" }] }

/-- New version of the C2 counterexample file: only the type annotation
`: number` became `: string`; the type-erased text is unchanged. -/
def C2new : FileAnalysis :=
  { text := "export default function (x: string) \x7b return 1; \x7d"
    imports := []
    exports := []
    symbols := [{ name := "default", isTypeOnly := false
                  body := "export default function (x: string) \x7b return 1; \x7d"
                  inStmtMap := false
                  erased := "export default function (x) \x7b return 1; \x7d" }] }

/-- Old version of the C6 witness file: the change is comment-only, the
single symbol body is untouched. -/
def C6old : FileAnalysis :=
  { text := "// old comment\nconst f = 1;"
    imports := []
    exports := []
    symbols := [{ name := "f", isTypeOnly := false, body := "const f = 1;"
                  inStmtMap := true, erased := "const f = 1;" }] }

/-- New version of the C6 witness file. -/
def C6new : FileAnalysis :=
  { text := "// a new comment\nconst f = 1;"
    imports := []
    exports := []
    symbols := [{ name := "f", isTypeOnly := false, body := "const f = 1;"
                  inStmtMap := true, erased := "const f = 1;" }] }

/-- Old version of the C2 witness file: `as A` becomes `as B`; the
statement is a named variable statement, so it is indexed and its
runtime projection is available in both versions. -/
def C2wOld : FileAnalysis :=
  { text := "export const x = f() as A;"
    imports := []
    exports := []
    symbols := [{ name := "x", isTypeOnly := false
                  body := "export const x = f() as A;"
                  inStmtMap := true, erased := "export const x = f();" }] }

/-- New version of the C2 witness file. -/
def C2wNew : FileAnalysis :=
  { text := "export const x = f() as B;"
    imports := []
    exports := []
    symbols := [{ name := "x", isTypeOnly := false
                  body := "export const x = f() as B;"
                  inStmtMap := true, erased := "export const x = f();" }] }

end GoodChanges

namespace GoodChanges

/-! ## The package analyzer (`AnalyzeLibraryPackage`, analyzer.go)

The filesystem walk, git subprocess, TypeScript parser, import-path
probing (`resolve.go`, missing from the sources) and the doublestar glob
matcher are modelled as an explicit environment `FsEnv`; every other
step is a direct port of the Go code. -/

structure Entrypoint where
  exportPath : String
  sourceFile : String
deriving DecidableEq

structure AffectedExport where
  entrypointPath : String
  exportNames : List String
deriving DecidableEq

structure ImportEdge where
  fromStem : String
  localNames : List String
  origNames : List String
  isSideEffect : Bool
deriving DecidableEq

/-- The environment: filesystem, git, parser and glob matcher.
`glob folder` models `globSourceFiles(folder)` followed by `ParseFile`
on each hit (parse failures omitted); `gitShow commit path` models
`git.ShowFile` (empty string when the file did not exist);
`parseContent` models `tsparse.ParseContent`; `resolve fileDir source
projectFolder` models `resolveImportSource` (the probing helper of the
missing resolve.go; "" when unresolved); `globMatch pattern path` models
`doublestar.Match`; `styleGlob` models `globStyleFiles`; `readFile`
models `os.ReadFile`. -/
structure FsEnv where
  glob : String → List (String × FileAnalysis)
  styleGlob : String → List String
  readFile : String → Option String
  gitShow : String → String → String
  parseContent : String → String → FileAnalysis
  resolve : String → String → String → String
  globMatch : String → String → Bool

/-- `CSSTaintPrefix` (analyzer.go). -/
def CSSTaintPrefix : String := "__css__:"

/-- Port of `isStyleImport`. -/
def isStyleImport (source : String) : Bool :=
  let lower := goToLower source
  goEndsWith lower ".css" || goEndsWith lower ".scss" ||
    goContains lower "/styles/" || goContains lower "/styles"

/-- Port of `isCSSModule`. -/
def isCSSModule (source : String) : Bool :=
  let lower := goToLower source
  goEndsWith lower ".module.scss" || goEndsWith lower ".module.css"

/-- Port of `matchesCSSTaint`. -/
def matchesCSSTaint (importSource : String) (upstreamTaint : CMap NameSet) : Bool :=
  if !isStyleImport importSource then false
  else upstreamTaint.any (fun kv =>
    goHasPrefix kv.1 CSSTaintPrefix &&
      (let pkgName := goTrimPrefix kv.1 CSSTaintPrefix
       goHasPrefix importSource (pkgName ++ "/") || importSource == pkgName))

/-- Port of `isFromTaintedDep`. -/
def isFromTaintedDep (importSource : String) (taintedDeps : NameSet) : Bool :=
  taintedDeps.any (fun depName =>
    importSource == depName || goHasPrefix importSource (depName ++ "/"))

/-- Port of `findTaintedSymbolsByUsage`: symbols whose body text contains
one of the (namespace-prefix-stripped) tainted names. -/
def findTaintedSymbolsByUsage (analysis : FileAnalysis) (taintedNames : List String) :
    List String :=
  if taintedNames.isEmpty then []
  else
    let taintSet := nsOfList (taintedNames.map
      (fun n => if goHasPrefix n "*:" then goTrimPrefix n "*:" else n))
    analysis.symbols.foldl
      (fun res sym =>
        if taintSet.any (fun tn => goContains sym.body tn) then res ++ [sym.name]
        else res)
      []

/-- `filepath.Clean (filepath.Join dir p)` for relative slash paths. -/
def cleanSegs : List String → List String → List String
  | acc, [] => acc.reverse
  | acc, s :: rest =>
    if s = "" ∨ s = "." then cleanSegs acc rest
    else if s = ".." then
      match acc with
      | [] => cleanSegs [".."] rest
      | a :: as => if a = ".." then cleanSegs (".." :: a :: as) rest else cleanSegs as rest
    else cleanSegs (s :: acc) rest

def goJoinClean (dir p : String) : String :=
  match cleanSegs [] ((splitChar '/' dir) ++ (splitChar '/' p)) with
  | [] => "."
  | l => String.intercalate "/" l

/-- Ensure a (possibly empty) entry exists: `if tainted[stem] == nil`. -/
def tEnsure (t : Taint) (stem : String) : Taint :=
  cmUpd stem (fun o => o.getD []) t

/-- The import edges of one file: relative imports, then synthetic
re-export edges (skipped when an edge to the same stem already exists). -/
def buildImportEdges (env : FsEnv) (projectFolder stem : String)
    (analysis : FileAnalysis) : List ImportEdge :=
  let fileDir := goDir (stem ++ ".ts")
  let fromImports := analysis.imports.foldl
    (fun es imp =>
      if !goHasPrefix imp.source "." then es
      else
        let resolvedStem := env.resolve fileDir imp.source projectFolder
        if resolvedStem = "" then es
        else
          let localNames := imp.names
          let origNames := imp.names.map (fun n => if goHasPrefix n "*:" then "*" else n)
          es ++ [{ fromStem := resolvedStem, localNames := localNames,
                   origNames := origNames, isSideEffect := imp.names.isEmpty }])
    []
  analysis.exports.foldl
    (fun es exp =>
      if exp.source = "" ∨ !goHasPrefix exp.source "." then es
      else
        let resolvedStem := env.resolve fileDir exp.source projectFolder
        if resolvedStem = "" then es
        else if es.any (fun e => e.fromStem == resolvedStem) then es
        else if exp.isStar then
          es ++ [{ fromStem := resolvedStem, localNames := ["*:__reexport__"],
                   origNames := ["*"], isSideEffect := false }]
        else
          es ++ [{ fromStem := resolvedStem, localNames := [exp.localName],
                   origNames := [exp.localName], isSideEffect := false }])
    fromImports

/-- The intra-package import graph (step 2 of §4.F). -/
def buildImportGraph (env : FsEnv) (projectFolder : String)
    (fileAnalyses : CMap FileAnalysis) : CMap (List ImportEdge) :=
  fileAnalyses.foldl
    (fun m kv => cmUpd kv.1 (fun _ => buildImportEdges env projectFolder kv.1 kv.2) m)
    []

/-- Seed taint from the AST diff of changed project files (step 3). -/
def seedFromDiff (env : FsEnv) (projectFolder mergeBase : String)
    (fileAnalyses : CMap FileAnalysis) (includeTypes : Bool)
    (projectChangedFiles : List String) (t : Taint) : Taint :=
  projectChangedFiles.foldl
    (fun t changedFile =>
      let relToProject := goTrimPrefix changedFile (projectFolder ++ "/")
      let ext := goExt relToProject
      if !(ext == ".ts" || ext == ".tsx" || ext == ".js" || ext == ".jsx") then t
      else
        let stem := stripTSExtension relToProject
        match cmGet fileAnalyses stem with
        | none => t
        | some newAnalysis =>
          let oldContent := env.gitShow mergeBase changedFile
          let oldAnalysis :=
            if oldContent = "" then none
            else some (env.parseContent oldContent changedFile)
          let affected := findAffectedSymbolsByASTDiff oldAnalysis newAnalysis oldContent includeTypes
          if affected.isEmpty then t else tAdd t stem affected)
    t

/-- One import of the changed-styles seeding (step 4). -/
def styleStep (changedStyleFiles : NameSet) (stem : String)
    (analysis : FileAnalysis) (t : Taint) (imp : TsImport) : Taint :=
  if !goHasPrefix imp.source "." then t
  else if !isStyleImport imp.source then t
  else
    let fileDir := goDir (stem ++ ".ts")
    let resolved := goJoinClean fileDir imp.source
    if !changedStyleFiles.contains resolved then t
    else
      let t := tEnsure t stem
      if isCSSModule imp.source ∧ !imp.names.isEmpty then
        tAdd t stem (findTaintedSymbolsByUsage analysis imp.names)
      else
        tAdd t stem (analysis.symbols.map (fun s => s.name))

/-- Seed taint from changed CSS/SCSS files of the package (step 4). -/
def seedFromStyles (fileAnalyses : CMap FileAnalysis)
    (changedStyleFiles : NameSet) (t : Taint) : Taint :=
  fileAnalyses.foldl
    (fun t kv => kv.2.imports.foldl (styleStep changedStyleFiles kv.1 kv.2) t)
    t

/-- One import of the upstream-taint seeding (step 5). -/
def upStep (includeCSS : Bool) (upstreamTaint : CMap NameSet) (stem : String)
    (analysis : FileAnalysis) (t : Taint) (imp : TsImport) : Taint :=
  if goHasPrefix imp.source "." then t
  else
    match cmGet upstreamTaint imp.source with
    | none =>
      if includeCSS && matchesCSSTaint imp.source upstreamTaint then
        tAdd (tEnsure t stem) stem (analysis.symbols.map (fun s => s.name))
      else t
    | some affectedNames =>
      if affectedNames.isEmpty then
        if includeCSS && matchesCSSTaint imp.source upstreamTaint then
          tAdd (tEnsure t stem) stem (analysis.symbols.map (fun s => s.name))
        else t
      else if imp.names.isEmpty then
        tAdd (tEnsure t stem) stem (analysis.symbols.map (fun s => s.name))
      else
        let taintedLocalNames := imp.names.filter
          (fun n => goHasPrefix n "*:" || affectedNames.contains n)
        if taintedLocalNames.isEmpty then t
        else
          let usageTainted := findTaintedSymbolsByUsage analysis taintedLocalNames
          let usageTainted := analysis.exports.foldl
            (fun u exp =>
              if exp.source = "" then
                u ++ (taintedLocalNames.filter
                  (fun tln => exp.localName =
                    (if goHasPrefix tln "*:" then goTrimPrefix tln "*:" else tln))).map
                  (fun _ => exp.name)
              else u)
            usageTainted
          if usageTainted.isEmpty then t
          else tAdd (tEnsure t stem) stem usageTainted

/-- Seed taint from upstream workspace dependencies (step 5). -/
def seedFromUpstream (includeCSS : Bool) (upstreamTaint : CMap NameSet)
    (fileAnalyses : CMap FileAnalysis) (t : Taint) : Taint :=
  fileAnalyses.foldl
    (fun t kv => kv.2.imports.foldl (upStep includeCSS upstreamTaint kv.1 kv.2) t)
    t

/-- One import of the tainted-external-deps seeding (step 6). -/
def extImpStep (taintedExternalDeps : NameSet) (stem : String)
    (analysis : FileAnalysis) (t : Taint) (imp : TsImport) : Taint :=
  if goHasPrefix imp.source "." then t
  else if !isFromTaintedDep imp.source taintedExternalDeps then t
  else
    let t := tEnsure t stem
    if imp.names.isEmpty then
      tAdd t stem (analysis.symbols.map (fun s => s.name))
    else
      let t := tAdd t stem (findTaintedSymbolsByUsage analysis imp.names)
      analysis.exports.foldl
        (fun t exp =>
          if exp.source = "" then
            imp.names.foldl
              (fun t name =>
                let cleanName :=
                  if goHasPrefix name "*:" then goTrimPrefix name "*:" else name
                if exp.localName = cleanName then tAdd t stem [exp.name] else t)
              t
          else t)
        t

/-- One re-export of the tainted-external-deps seeding (step 6). -/
def extExpStep (taintedExternalDeps : NameSet) (stem : String)
    (t : Taint) (exp : TsExport) : Taint :=
  if exp.source = "" ∨ goHasPrefix exp.source "." then t
  else if !isFromTaintedDep exp.source taintedExternalDeps then t
  else
    let t := tEnsure t stem
    if exp.isStar then tAdd t stem ["*"] else tAdd t stem [exp.name]

/-- Seed taint from tainted external dependencies (step 6). -/
def seedFromExternal (taintedExternalDeps : NameSet)
    (fileAnalyses : CMap FileAnalysis) (t : Taint) : Taint :=
  fileAnalyses.foldl
    (fun t kv =>
      let t := kv.2.imports.foldl (extImpStep taintedExternalDeps kv.1 kv.2) t
      kv.2.exports.foldl (extExpStep taintedExternalDeps kv.1) t)
    t

/-- The reverse import graph. -/
def buildReverseImports (importGraph : CMap (List ImportEdge)) : CMap (List String) :=
  importGraph.foldl
    (fun m kv =>
      kv.2.foldl (fun m e => cmUpd e.fromStem (fun o => o.getD [] ++ [kv.1]) m) m)
    []

/-- One pass of the intra-file closure inside the BFS (lines 752-777). -/
def intraClosurePass (symbols : List SymbolDecl) :
    NameSet × Bool → NameSet × Bool :=
  fun st =>
    symbols.foldl
      (fun (st : NameSet × Bool) sym =>
        if st.1.contains sym.name then st
        else if st.1.any (fun tn => goContains sym.body tn) then
          (nsInsert sym.name st.1, true)
        else st)
      st

/-- The fueled intra-file closure loop; `symbols.length + 1` passes always
reach the fixpoint of the unbounded Go loop. -/
def intraClosure (fuel : Nat) (symbols : List SymbolDecl) (s : NameSet) : NameSet :=
  match fuel with
  | 0 => s
  | fuel + 1 =>
    let p := intraClosurePass symbols (s, false)
    if p.2 then intraClosure fuel symbols p.1 else p.1

/-- The taint an importer receives from the currently visited stem:
side-effect rule, named-import usage rule, and re-export rules
(lines 679-748 of analyzer.go). -/
def bfsNewlyTainted (env : FsEnv) (projectFolder : String)
    (importGraph : CMap (List ImportEdge)) (currentStem : String)
    (currentTainted : NameSet) (importerStem : String)
    (importerAnalysis : FileAnalysis) : Bool × List String :=
  let edges := cmGetD importGraph importerStem []
  let hasSideEffectImport := edges.any
    (fun e => e.fromStem == currentStem && e.isSideEffect)
  let taintedLocalNames := edges.foldl
    (fun acc e =>
      if e.fromStem ≠ currentStem ∨ e.isSideEffect then acc
      else
        acc ++ (e.origNames.zip e.localNames).foldl
          (fun acc2 p =>
            if p.1 = "*" then
              if !currentTainted.isEmpty then acc2 ++ [p.2] else acc2
            else if currentTainted.contains p.1 || currentTainted.contains "*" then
              acc2 ++ [p.2]
            else acc2)
          [])
    []
  if !hasSideEffectImport ∧ taintedLocalNames.isEmpty then (false, [])
  else
    let newly1 :=
      if hasSideEffectImport ∧ !currentTainted.isEmpty then
        importerAnalysis.symbols.map (fun s => s.name)
      else []
    let newly2 :=
      if !taintedLocalNames.isEmpty then
        findTaintedSymbolsByUsage importerAnalysis taintedLocalNames
      else []
    let importerDir := goDir (importerStem ++ ".ts")
    let newly3 := importerAnalysis.exports.foldl
      (fun acc exp =>
        if exp.source = "" then
          acc ++ (taintedLocalNames.filter
            (fun tln => exp.localName =
              (if goHasPrefix tln "*:" then goTrimPrefix tln "*:" else tln))).map
            (fun _ => exp.name)
        else
          let reExpStem := env.resolve importerDir exp.source projectFolder
          if reExpStem = currentStem then
            if exp.isStar then acc ++ currentTainted
            else if currentTainted.contains exp.localName || currentTainted.contains "*" then
              acc ++ [exp.name]
            else acc
          else acc)
      []
    (true, newly1 ++ newly2 ++ newly3)

/-- Process one reverse importer of the visited stem: compute its new
taint, close it intra-file, record it, and re-enqueue the importer when
its taint strictly grew. -/
def bfsProcessImporter (env : FsEnv) (projectFolder : String)
    (importGraph : CMap (List ImportEdge)) (fileAnalyses : CMap FileAnalysis)
    (currentStem : String) (currentTainted : NameSet)
    (acc : Taint × List String) (importerStem : String) : Taint × List String :=
  match cmGet fileAnalyses importerStem with
  | none => acc
  | some importerAnalysis =>
    match bfsNewlyTainted env projectFolder importGraph currentStem currentTainted
        importerStem importerAnalysis with
    | (false, _) => acc
    | (true, newly) =>
      if newly.isEmpty then acc
      else
        let closure := intraClosure (importerAnalysis.symbols.length + 1)
          importerAnalysis.symbols (nsOfList newly)
        let addedNew := closure.any (fun n => !tHas acc.1 importerStem n)
        let t2 := tAdd acc.1 importerStem closure
        (t2, if addedNew then acc.2 ++ [importerStem] else acc.2)

/-- The fueled BFS worklist (lines 665-801).  `currentTainted` is read
once per visit, as in the Go code. -/
def bfsLoop (env : FsEnv) (projectFolder : String)
    (importGraph : CMap (List ImportEdge)) (reverseImports : CMap (List String))
    (fileAnalyses : CMap FileAnalysis) : Nat → List String → Taint → Taint
  | 0, _, t => t
  | _ + 1, [], t => t
  | fuel + 1, currentStem :: rest, t =>
    let currentTainted := tGet t currentStem
    let importers := cmGetD reverseImports currentStem []
    let step := importers.foldl
      (bfsProcessImporter env projectFolder importGraph fileAnalyses currentStem
        currentTainted)
      (t, [])
    bfsLoop env projectFolder importGraph reverseImports fileAnalyses fuel
      (rest ++ step.2) step.1

/-- An upper bound on the number of distinct symbol names any file can
accumulate, used to pick a fuel that lets the worklist reach its
fixpoint. -/
def analysisNameBound (a : FileAnalysis) : Nat :=
  a.symbols.length + a.exports.length +
    (a.imports.map (fun i => i.names.length)).sum + 2

/-- Fuel sufficient for the BFS worklist: every re-enqueue is paired with
a strict growth of a per-file name set, all of which `capacity` bounds. -/
def bfsFuel (fileAnalyses : CMap FileAnalysis) (queueLen : Nat) : Nat :=
  let capacity := (fileAnalyses.map (fun kv => analysisNameBound kv.2)).sum + 1
  queueLen + 2 * capacity * (fileAnalyses.length + 1) + 1

/-- One step of the `seen`-map deduplication of the result. -/
def dedupStep (p : NameSet × List String) (n : String) : NameSet × List String :=
  if n = "*" then p
  else if p.1.contains n then p
  else (nsInsert n p.1, p.2 ++ [n])

/-- The `seen`-map deduplication of the result, dropping the internal
`"*"` marker (lines 879-895). -/
def dedupNames (names : List String) : List String :=
  (names.foldl dedupStep ([], [])).2

/-- One export of the entrypoint projection loop (step 8). -/
def projStep (env : FsEnv) (projectFolder : String) (includeTypes : Bool)
    (taintedExternalDeps : NameSet) (tainted : Taint) (epStem epDir : String)
    (acc : List String) (exp : TsExport) : List String :=
  if exp.isTypeOnly ∧ includeTypes = false then acc
  else if exp.source = "" then
    if tHas tainted epStem exp.localName || tHas tainted epStem "*" then
      acc ++ [exp.name]
    else acc
  else if !goHasPrefix exp.source "." then
    if !taintedExternalDeps.isEmpty ∧
        isFromTaintedDep exp.source taintedExternalDeps = true ∧
        exp.isStar = false then
      acc ++ [exp.name]
    else acc
  else
    let resolvedStem := env.resolve epDir exp.source projectFolder
    if resolvedStem = "" then acc
    else
      match cmGet tainted resolvedStem with
      | none => acc
      | some srcTainted =>
        if exp.isStar then acc ++ srcTainted
        else if srcTainted.contains exp.localName || srcTainted.contains "*" then
          acc ++ [exp.name]
        else acc

/-- Entrypoint projection (step 8): the affected exports of one
entrypoint, `none` when nothing is affected. -/
def projectEntrypoint (env : FsEnv) (projectFolder : String) (includeTypes : Bool)
    (taintedExternalDeps : NameSet) (fileAnalyses : CMap FileAnalysis)
    (tainted : Taint) (ep : Entrypoint) : Option AffectedExport :=
  let epStem := stripTSExtension ep.sourceFile
  match cmGet fileAnalyses epStem with
  | none => none
  | some epAnalysis =>
    let epDir := goDir ep.sourceFile
    let affectedNames := epAnalysis.exports.foldl
      (projStep env projectFolder includeTypes taintedExternalDeps tainted epStem epDir)
      []
    if affectedNames.isEmpty then none
    else some { entrypointPath := ep.exportPath, exportNames := dedupNames affectedNames }

/-- The file-stem-keyed analyses of a package (step 1). -/
def fileAnalysesOf (env : FsEnv) (projectFolder : String) : CMap FileAnalysis :=
  (env.glob projectFolder).foldl
    (fun m pa => cmUpd (stripTSExtension pa.1) (fun _ => pa.2) m) []

/-- The changed files lying inside the project. -/
def projectChangedFilesOf (projectFolder : String) (changedFiles : List String) :
    List String :=
  changedFiles.filter (fun f => goHasPrefix f (projectFolder ++ "/"))

/-- The changed `.css`/`.scss` files of the project, project-relative. -/
def changedStyleFilesOf (projectFolder : String) (projectChangedFiles : List String) :
    NameSet :=
  projectChangedFiles.foldl
    (fun s f =>
      let relToProject := goTrimPrefix f (projectFolder ++ "/")
      let ext := goExt relToProject
      if ext == ".scss" || ext == ".css" then nsInsert relToProject s else s)
    []

/-- The initial taint map: the four seeding phases of
`AnalyzeLibraryPackage` in order (steps 3-6). -/
def alpSeeds (env : FsEnv) (projectFolder mergeBase : String)
    (changedFiles : List String) (includeTypes includeCSS : Bool)
    (upstreamTaint : CMap NameSet) (taintedExternalDeps : NameSet) : Taint :=
  let projectChangedFiles := projectChangedFilesOf projectFolder changedFiles
  let fileAnalyses := fileAnalysesOf env projectFolder
  let changedStyleFiles := changedStyleFilesOf projectFolder projectChangedFiles
  let t1 := seedFromDiff env projectFolder mergeBase fileAnalyses includeTypes
    projectChangedFiles []
  let t2 :=
    if changedStyleFiles.isEmpty then t1
    else seedFromStyles fileAnalyses changedStyleFiles t1
  let t3 :=
    if upstreamTaint.isEmpty then t2
    else seedFromUpstream includeCSS upstreamTaint fileAnalyses t2
  if taintedExternalDeps.isEmpty then t3
  else seedFromExternal taintedExternalDeps fileAnalyses t3

/-- The taint map after BFS propagation (step 7), starting from the
seeds. -/
def alpTaint (env : FsEnv) (projectFolder : String) (t4 : Taint) : Taint :=
  let fileAnalyses := fileAnalysesOf env projectFolder
  let importGraph := buildImportGraph env projectFolder fileAnalyses
  let reverseImports := buildReverseImports importGraph
  let queue := t4.map (fun kv => kv.1)
  bfsLoop env projectFolder importGraph reverseImports fileAnalyses
    (bfsFuel fileAnalyses queue.length) queue t4

/-- Port of `AnalyzeLibraryPackage` (analyzer.go, newest revision): build
the intra-package graph, seed taint from the AST diff, changed styles,
upstream taint and tainted external deps, run the BFS, and project the
final taint onto the entrypoints.  `includeCSS` models the package-level
`IncludeCSS` flag. -/
def AnalyzeLibraryPackage (env : FsEnv) (projectFolder : String)
    (entrypoints : List Entrypoint) (mergeBase : String) (changedFiles : List String)
    (includeTypes includeCSS : Bool) (upstreamTaint : CMap NameSet)
    (taintedExternalDeps : NameSet) : List AffectedExport :=
  let fileAnalyses := fileAnalysesOf env projectFolder
  let t4 := alpSeeds env projectFolder mergeBase changedFiles includeTypes includeCSS
    upstreamTaint taintedExternalDeps
  if t4.isEmpty then []
  else
    let tainted := alpTaint env projectFolder t4
    entrypoints.foldl
      (fun res ep =>
        match projectEntrypoint env projectFolder includeTypes taintedExternalDeps
            fileAnalyses tainted ep with
        | some ae => res ++ [ae]
        | none => res)
      []

end GoodChanges

namespace GoodChanges

/-! ## Concrete packages for the C1 and C10 claims -/

/-- The entrypoint file of the C1 counterexample package `D`: its only
statement is `export * from "U"`, a non-relative star re-export of the
upstream workspace library `U` (tsparse records it as a star export with
source `"U"` and produces no import). -/
def C1entry : FileAnalysis :=
  { text := "export * from \x22U\x22;"
    imports := []
    exports := [{ name := "*", localName := "*", source := "U",
                  isTypeOnly := false, isStar := true }]
    symbols := [] }

/-- Environment of the C1 counterexample: one source file, no changed
files, no git history needed. -/
def C1env : FsEnv :=
  { glob := fun _ => [("src/index.ts", C1entry)]
    styleGlob := fun _ => []
    readFile := fun _ => none
    gitShow := fun _ _ => ""
    parseContent := fun _ _ => ⟨"", [], [], []⟩
    resolve := fun _ _ _ => ""
    globMatch := fun _ _ => false }

/-- The upstream-taint map of the C1 claims: `U` has affected exports
`X` and `Y`. -/
def C1upstream : CMap NameSet := [("U", ["X", "Y"])]

/-- The entrypoint file of the C1 witness package: it imports `X` and
`Y` from `U` and locally re-exports them. -/
def C1wEntry : FileAnalysis :=
  { text := "import \x7b X, Y \x7d from \x22U\x22; export \x7b X, Y \x7d;"
    imports := [{ names := ["X", "Y"], source := "U" }]
    exports := [{ name := "X", localName := "X", source := "",
                  isTypeOnly := false, isStar := false },
                { name := "Y", localName := "Y", source := "",
                  isTypeOnly := false, isStar := false }]
    symbols := [] }

/-- Environment of the C1 witness. -/
def C1wEnv : FsEnv :=
  { glob := fun _ => [("src/index.ts", C1wEntry)]
    styleGlob := fun _ => []
    readFile := fun _ => none
    gitShow := fun _ _ => ""
    parseContent := fun _ _ => ⟨"", [], [], []⟩
    resolve := fun _ _ _ => ""
    globMatch := fun _ _ => false }

/-- Entrypoint file of the C10 counterexample package: a barrel that
star re-exports the local file `./a`. -/
def C10entry : FileAnalysis :=
  { text := "export * from \x22./a\x22;"
    imports := []
    exports := [{ name := "*", localName := "*", source := "./a",
                  isTypeOnly := false, isStar := true }]
    symbols := [] }

/-- The file `src/a.ts` of the C10 counterexample package: it star
re-exports the external dependency `dep`. -/
def C10depFile : FileAnalysis :=
  { text := "export * from \x22dep\x22;"
    imports := []
    exports := [{ name := "*", localName := "*", source := "dep",
                  isTypeOnly := false, isStar := true }]
    symbols := [] }

/-- Environment of the C10 counterexample: two files; `./a` resolves to
the stem `src/a` from the directory `src`. -/
def C10env : FsEnv :=
  { glob := fun _ => [("src/index.ts", C10entry), ("src/a.ts", C10depFile)]
    styleGlob := fun _ => []
    readFile := fun _ => none
    gitShow := fun _ _ => ""
    parseContent := fun _ _ => ⟨"", [], [], []⟩
    resolve := fun dir src _ => if dir = "src" ∧ src = "./a" then "src/a" else ""
    globMatch := fun _ _ => false }

end GoodChanges


namespace GoodChanges

/-! ## The rush dependency model and `TopologicalSort` (rush.go)

A `ProjInfo` models the dependency fields of rush.go's `ProjectInfo`:
`DependsOn` lists the workspace packages a project depends on (one entry
per `workspace:` dependency, so a package named in both `dependencies`
and `devDependencies` appears twice), `DependedOnBy` the reverse edges
`BuildProjectMap` adds.  The Go maps `map[string]*ProjectInfo` and the
`packages` set become a `CMap` and a list of names; list order models
the (arbitrary) Go map iteration order. -/

structure ProjInfo where
  dependsOn : List String
  dependedOnBy : List String
  deriving Repr, DecidableEq

/-- Lookup of `info.DependsOn`, with Go's nil-pointer guard (a missing
project contributes no edges) folded in. -/
def depsOf (pm : CMap ProjInfo) (p : String) : List String :=
  match cmGet pm p with
  | some info => info.dependsOn
  | none => []

/-- Lookup of `info.DependedOnBy`, with the nil guard folded in. -/
def revDepsOf (pm : CMap ProjInfo) (p : String) : List String :=
  match cmGet pm p with
  | some info => info.dependedOnBy
  | none => []

/-- The in-degree initialisation of `TopologicalSort`: zero for every
package, then one increment per dependency inside the set. -/
def initInDegree (pm : CMap ProjInfo) (packages : List String) : CMap Int :=
  let d0 : CMap Int := packages.foldl (fun d p => cmUpd p (fun _ => 0) d) []
  packages.foldl (fun d p =>
    (depsOf pm p).foldl (fun d dep =>
      if packages.contains dep then cmAddInt p 1 d else d) d) d0

/-- The body of the level-emission loop run for one package `p`:
`delete(remaining, p)`, then decrement the in-degree of each still
remaining dependent. -/
def topoRemove (pm : CMap ProjInfo) (st : List String × CMap Int) (p : String) :
    List String × CMap Int :=
  let remaining := st.1.filter (fun q => q ≠ p)
  (remaining,
   (revDepsOf pm p).foldl
     (fun d dependent =>
       if remaining.contains dependent then cmAddInt dependent (-1) d else d)
     st.2)

/-- The next level: the zero in-degree packages, or — when there are
none (a cycle) — the whole remaining set, dumped to avoid an infinite
loop. -/
def topoLevel (remaining : List String) (inDegree : CMap Int) : List String :=
  let level0 := remaining.filter (fun p => cmGetD inDegree p 0 == 0)
  if level0.isEmpty then remaining else level0

/-- The `for len(remaining) > 0` loop of `TopologicalSort`, fueled; each
round removes at least one package, so `|packages|` rounds suffice. -/
def topoLoop (pm : CMap ProjInfo) :
    Nat → List String → CMap Int → List (List String) → List (List String)
  | 0, _, _, levels => levels
  | fuel + 1, remaining, inDegree, levels =>
    if remaining.isEmpty then levels
    else
      let level := topoLevel remaining inDegree
      let st := level.foldl (topoRemove pm) (remaining, inDegree)
      topoLoop pm fuel st.1 st.2 (levels ++ [level])

/-- `TopologicalSort` (part_005 lines 284-336; part_004 lines 156-208 is
identical): packages grouped by level, dependencies first. -/
def TopologicalSort (pm : CMap ProjInfo) (packages : List String) :
    List (List String) :=
  topoLoop pm packages.length packages (initInDegree pm packages) []

/-- The number of dependencies (with multiplicity) of `p` that lie in
`rem` — the quantity the stored in-degrees track. -/
def countIn (pm : CMap ProjInfo) (p : String) (rem : List String) : Int :=
  (((depsOf pm p).filter (fun dep => rem.contains dep)).length : Int)

/-- The dependency relation restricted to a package set. -/
def depRel (pm : CMap ProjInfo) (packages : List String) (x y : String) : Prop :=
  x ∈ packages ∧ y ∈ packages ∧ y ∈ depsOf pm x

/-- Levels are topologically ordered: every in-set dependency of a level
member appears in a strictly earlier level. -/
def levelsOk (pm : CMap ProjInfo) (packages : List String)
    (levels : List (List String)) : Prop :=
  ∀ pre lvl post, levels = pre ++ lvl :: post →
    ∀ p ∈ lvl, ∀ dep ∈ depsOf pm p, dep ∈ packages → dep ∈ pre.flatten

/-- Concrete two-package workspace: `b` depends on `a`. -/
def C7pm : CMap ProjInfo :=
  [("a", ⟨[], ["b"]⟩), ("b", ⟨["a"], []⟩)]

def C7pkgs : List String := ["a", "b"]

end GoodChanges



namespace GoodChanges

/-! ## Git merge-base resolution (git.go, part_002) and the
COMPARE_COMMIT dispatch (main.go)

A `GitEnv` records the outcomes of the git commands `MergeBase` issues
(`Cmd` trims the output; `none` models a command error): `merge-base A
B`, `rev-parse HEAD`, the `log --ancestry-path HEAD..branch --merges
--first-parent --reverse --pretty=%H` walk, and `rev-parse commit^1`. -/

structure GitEnv where
  mergeBase : String → String → Option String
  revParseHEAD : Option String
  ancestryMergeLog : String → String → Option String
  revParseFirstParent : String → Option String

/-- The first line of a command output: `strings.SplitN(s, "\n", 2)[0]`. -/
def firstLine (s : String) : String := (splitChar '\x0a' s).headD ""

/-- Port of `MergeBase` (part_002 lines 22-58): the plain merge-base,
except that when it equals HEAD (HEAD already merged into the branch)
the walk over the branch's first-parent ancestry path locates the first
merge commit and the result is the merge-base of HEAD with that merge's
first parent; every failure of the walk falls back to the plain base.
The older src/internal/git/git.go lines 18-21 is the plain first
command only. -/
def MergeBase (env : GitEnv) (branch : String) : Option String :=
  match env.mergeBase "HEAD" branch with
  | none => none
  | some base =>
    match env.revParseHEAD with
    | none => some base
    | some head =>
      if base = head then
        match env.ancestryMergeLog head branch with
        | none => some base
        | some mergeList =>
          if mergeList = "" then some base
          else
            match env.revParseFirstParent (firstLine mergeList) with
            | none => some base
            | some firstParent =>
              match env.mergeBase head firstParent with
              | none => some base
              | some realBase => some realBase
      else some base

/-- The comparison-commit dispatch of main.go lines 47-61: an explicit
COMPARE_COMMIT wins; otherwise the merge-base against COMPARE_BRANCH
(default `origin/master`). -/
def resolveCompareCommit (compareCommit compareBranch : String)
    (env : GitEnv) : Option String :=
  if compareCommit ≠ "" then some compareCommit
  else
    MergeBase env (if compareBranch = "" then "origin/master" else compareBranch)

/-- Concrete git history for the C8 witness: HEAD `h` is already merged
into `origin/master`; the ancestry walk reports merges `m1`, `m2`;
`m1^1 = p`; the merge-base of `h` and `p` is `rb`. -/
def C8env : GitEnv :=
  { mergeBase := fun a b =>
      if a = "HEAD" ∧ b = "origin/master" then some "h"
      else if a = "h" ∧ b = "p" then some "rb"
      else none
    revParseHEAD := some "h"
    ancestryMergeLog := fun h b =>
      if h = "h" ∧ b = "origin/master" then some "m1\nm2" else none
    revParseFirstParent := fun c => if c = "m1" then some "p" else none }

end GoodChanges


namespace GoodChanges

/-! ## Lockfile version parsing (lockfile.go lines 178-198) and the
v0.15.0 lockfileVersion wildcard

`ParseLockfileVersion` walks the YAML document produced by
`yaml.Unmarshal`: a parse error, a non-document root, an empty document
or a non-mapping first child yield `""`; otherwise the top-level mapping
is scanned pairwise for the `lockfileVersion` key.  A `YamlNode` models
`yaml.Node` (kind, scalar value, children); the unmarshal step itself is
out of scope, so the function takes the parsed tree (`none` = parse
error). -/

inductive YKind where
  | document
  | mapping
  | scalar
  | other
  deriving Repr, DecidableEq

inductive YamlNode where
  | mk (kind : YKind) (value : String) (content : List YamlNode)
  deriving Repr

def YamlNode.kind : YamlNode → YKind
  | .mk k _ _ => k

def YamlNode.value : YamlNode → String
  | .mk _ v _ => v

def YamlNode.content : YamlNode → List YamlNode
  | .mk _ _ c => c

/-- The `for i := 0; i < len-1; i += 2` key scan over a mapping's
children. -/
def scanPairs : List YamlNode → String
  | k :: v :: rest =>
    if k.value = "lockfileVersion" then v.value else scanPairs rest
  | _ => ""

/-- Port of `ParseLockfileVersion` (lockfile.go lines 180-198). -/
def ParseLockfileVersion (parsed : Option YamlNode) : String :=
  match parsed with
  | none => ""
  | some doc =>
    match doc.kind, doc.content with
    | YKind.document, mapping :: _ =>
      if mapping.kind = YKind.mapping then scanPairs mapping.content else ""
    | _, _ => ""

/-- Port of `CollectEntrypointExports` (part_003 lines 91-111): all
export names of a parsed entrypoint file, deduplicated, skipping the
`"*"` star-export marker; a parse failure yields `nil`.  The loop is the
same `seen`-map deduplication as the entrypoint projection. -/
def CollectEntrypointExports (fa : Option FileAnalysis) : List String :=
  match fa with
  | none => []
  | some analysis => dedupNames (analysis.exports.map (fun e => e.name))

/-- Modelled from the spec (the v0.15.0 caller is absent from src/):
when the scalar `lockfileVersion` differs between the merge base and
HEAD, every library of the subspace — given here with its parsed
entrypoint file — has all of its collected entrypoint export names added
to the upstream taint map under its package specifier; when the scalar
is unchanged this mechanism contributes nothing. -/
def lockfileVersionTaint (baseDoc headDoc : Option YamlNode)
    (libs : List (String × Option FileAnalysis)) : Taint :=
  if ParseLockfileVersion baseDoc = ParseLockfileVersion headDoc then []
  else libs.foldl (fun t lib => tAdd t lib.1 (CollectEntrypointExports lib.2)) []

/-- Base-side pnpm-lock.yaml of the C4 witness: `lockfileVersion: 6.0`. -/
def C4base : Option YamlNode :=
  some (.mk .document ""
    [.mk .mapping "" [.mk .scalar "lockfileVersion" [], .mk .scalar "6.0" []]])

/-- Head-side pnpm-lock.yaml of the C4 witness: `lockfileVersion: 9.0`. -/
def C4head : Option YamlNode :=
  some (.mk .document ""
    [.mk .mapping "" [.mk .scalar "lockfileVersion" [], .mk .scalar "9.0" []]])

/-- Entrypoint analysis of the C4 witness library: one export `X`. -/
def C4A : FileAnalysis :=
  { text := "export const X = 1;"
    imports := []
    exports := [{ name := "X", localName := "X", source := "",
                  isTypeOnly := false, isStar := false }]
    symbols := [] }

end GoodChanges


namespace GoodChanges

/-! ## Fine-grained file selection (part_003 `FindAffectedFiles`,
lines 1088-1268) and the virtual-target changeDir filter

`ChangeDir` is rush.go part_005 lines 110-119.  `FindAffectedFiles`
is ported phase by phase: the glob- and ignore-filtered file map, the
three seeding passes (AST-diffed changed files, tainted upstream
imports, tainted external deps), the reverse import/re-export graph,
and the BFS closure; the result set is collected sorted (the `NameSet`
is the sorted key set of the Go `affected` map).  `isIgnored` stands
for `ignoreCfg.IsIgnored`; `env.globMatch` for `doublestar.Match`;
fuel bounds the BFS, which pops at most the seeds plus one pop per
graph edge. -/

structure ChangeDir where
  glob : String
  filter : Option String
  type : Option String
  deriving Repr, DecidableEq

def ChangeDir.IsFineGrained (cd : ChangeDir) : Bool :=
  match cd.type with
  | some t => t == "fine-grained"
  | none => false

def faFileMap (env : FsEnv) (globPattern projectFolder : String)
    (isIgnored : String → Bool) : CMap FileAnalysis :=
  (env.glob projectFolder).foldl
    (fun m pa =>
      if env.globMatch globPattern pa.1 && !isIgnored pa.1 then
        cmUpd pa.1 (fun _ => pa.2) m
      else m) []

def faSeedDiff (env : FsEnv) (projectFolder mergeBase : String)
    (fileMap : CMap FileAnalysis) (includeTypes : Bool)
    (changedFiles : List String) (aff : NameSet) : NameSet :=
  changedFiles.foldl
    (fun aff f =>
      if !goHasPrefix f (projectFolder ++ "/") then aff
      else
        let rel := goTrimPrefix f (projectFolder ++ "/")
        match cmGet fileMap rel with
        | none => aff
        | some fi =>
          let oldContent := env.gitShow mergeBase f
          let oldAnalysis : Option FileAnalysis :=
            if oldContent = "" then none else some (env.parseContent oldContent f)
          let changedSymbols :=
            findAffectedSymbolsByASTDiff oldAnalysis fi oldContent includeTypes
          if changedSymbols.length ≠ 0 ∨ oldAnalysis = none then nsInsert rel aff
          else aff) aff

def faImportTainted (includeCSS : Bool) (upstreamTaint : CMap NameSet)
    (imp : TsImport) : Bool :=
  if goHasPrefix imp.source "." then false
  else
    match cmGet upstreamTaint imp.source with
    | none => includeCSS && matchesCSSTaint imp.source upstreamTaint
    | some affectedNames =>
      if affectedNames.isEmpty then
        includeCSS && matchesCSSTaint imp.source upstreamTaint
      else if imp.names.isEmpty then true
      else imp.names.any (fun name =>
        goHasPrefix name "*:" || affectedNames.contains name)

def faSeedUpstream (includeCSS : Bool) (upstreamTaint : CMap NameSet)
    (fileMap : CMap FileAnalysis) (aff : NameSet) : NameSet :=
  fileMap.foldl
    (fun aff kv =>
      if aff.contains kv.1 then aff
      else if kv.2.imports.any (faImportTainted includeCSS upstreamTaint) then
        nsInsert kv.1 aff
      else aff) aff

def faSeedExternal (taintedExternalDeps : NameSet)
    (fileMap : CMap FileAnalysis) (aff : NameSet) : NameSet :=
  if taintedExternalDeps.isEmpty then aff
  else
    fileMap.foldl
      (fun aff kv =>
        if aff.contains kv.1 then aff
        else if kv.2.imports.any (fun imp =>
            !goHasPrefix imp.source "." &&
              isFromTaintedDep imp.source taintedExternalDeps) then
          nsInsert kv.1 aff
        else aff) aff

def faFindCandidate (fileMap : CMap FileAnalysis) (resolved : String) :
    Option String :=
  (fileMap.map Prod.fst).find? (fun candidate =>
    stripTSExtension candidate == resolved)

def faAddEdge (fileMap : CMap FileAnalysis) (resolved rel : String)
    (ri : CMap (List String)) : CMap (List String) :=
  match faFindCandidate fileMap resolved with
  | none => ri
  | some candidate => cmUpd candidate (fun old => old.getD [] ++ [rel]) ri

def faReverseImports (env : FsEnv) (projectFolder : String)
    (fileMap : CMap FileAnalysis) : CMap (List String) :=
  fileMap.foldl
    (fun ri kv =>
      let fileDir := goDir kv.1
      let ri1 := kv.2.imports.foldl
        (fun ri imp =>
          if !goHasPrefix imp.source "." then ri
          else
            let resolved := env.resolve fileDir imp.source projectFolder
            if resolved = "" then ri
            else faAddEdge fileMap resolved kv.1 ri) ri
      kv.2.exports.foldl
        (fun ri exp =>
          if exp.source = "" ∨ !goHasPrefix exp.source "." then ri
          else
            let resolved := env.resolve fileDir exp.source projectFolder
            if resolved = "" then ri
            else
              if (cmGetD ri resolved []).contains kv.1 then ri
              else faAddEdge fileMap resolved kv.1 ri) ri1) []

def faBfs (ri : CMap (List String)) : Nat → NameSet → List String → NameSet
  | 0, aff, _ => aff
  | _ + 1, aff, [] => aff
  | fuel + 1, aff, current :: queue =>
    let step := (cmGetD ri current []).foldl
      (fun (st : NameSet × List String) importer =>
        if st.1.contains importer then st
        else (nsInsert importer st.1, st.2 ++ [importer]))
      (aff, queue)
    faBfs ri fuel step.1 step.2

def FindAffectedFiles (env : FsEnv) (globPattern : String)
    (upstreamTaint : CMap NameSet) (changedFiles : List String)
    (projectFolder : String) (isIgnored : String → Bool)
    (taintedExternalDeps : NameSet) (mergeBase : String)
    (includeTypes includeCSS : Bool) : List String :=
  let fileMap := faFileMap env globPattern projectFolder isIgnored
  let a1 := faSeedDiff env projectFolder mergeBase fileMap includeTypes
    changedFiles []
  let a2 := faSeedUpstream includeCSS upstreamTaint fileMap a1
  let a3 := faSeedExternal taintedExternalDeps fileMap a2
  if a3.isEmpty then []
  else
    let ri := faReverseImports env projectFolder fileMap
    let edgeCount := ri.foldl (fun n kv => n + kv.2.length) 0
    faBfs ri (a3.length + edgeCount + 1) a3 a3

/-- Modelled from the spec (the v0.10.0 filter application site is
absent from src/): a fine-grained changeDir entry contributes the
affected files of its glob, narrowed to the output-filter glob when one
is configured; a normal entry contributes no detections list. -/
def changeDirDetections (env : FsEnv) (cd : ChangeDir)
    (upstreamTaint : CMap NameSet) (changedFiles : List String)
    (projectFolder : String) (isIgnored : String → Bool)
    (taintedExternalDeps : NameSet) (mergeBase : String)
    (includeTypes includeCSS : Bool) : Option (List String) :=
  if cd.IsFineGrained then
    some (match cd.filter with
      | none =>
        FindAffectedFiles env cd.glob upstreamTaint changedFiles projectFolder
          isIgnored taintedExternalDeps mergeBase includeTypes includeCSS
      | some fl =>
        (FindAffectedFiles env cd.glob upstreamTaint changedFiles projectFolder
          isIgnored taintedExternalDeps mergeBase includeTypes
          includeCSS).filter (fun f => env.globMatch fl f))
  else none

/-- The helper file of the C5 witness project. -/
def C5helper : FileAnalysis :=
  { text := "export const h = 1;"
    imports := []
    exports := [{ name := "h", localName := "h", source := "",
                  isTypeOnly := false, isStar := false }]
    symbols := [{ name := "h", isTypeOnly := false, body := "export const h = 1;",
                  inStmtMap := true, erased := "export const h = 1;" }] }

/-- A test file importing the helper. -/
def C5a : FileAnalysis :=
  { text := "import \x7b h \x7d from \x22./helper\x22;"
    imports := [{ names := ["h"], source := "./helper" }]
    exports := []
    symbols := [] }

/-- A non-test file importing the helper. -/
def C5b : FileAnalysis :=
  { text := "import \x7b h \x7d from \x22./helper\x22;"
    imports := [{ names := ["h"], source := "./helper" }]
    exports := []
    symbols := [] }

/-- Environment of the C5 witness: three scenario files; the helper is
newly added (no base-revision content); the two glob patterns of the
changeDir behave as prefix and suffix matchers. -/
def C5env : FsEnv :=
  { glob := fun _ => [("scenarios/helper.ts", C5helper),
                      ("scenarios/a.test.ts", C5a),
                      ("scenarios/b.ts", C5b)]
    styleGlob := fun _ => []
    readFile := fun _ => none
    gitShow := fun _ _ => ""
    parseContent := fun _ _ => ⟨"", [], [], []⟩
    resolve := fun dir src _ =>
      if dir = "scenarios" ∧ src = "./helper" then "scenarios/helper" else ""
    globMatch := fun pat f =>
      if pat = "scenarios/**/*" then goHasPrefix f "scenarios/"
      else if pat = "scenarios/**/*.test.ts" then goEndsWith f ".test.ts"
      else false }

/-- The fine-grained changeDir entry of the C5 witness, with an output
filter selecting test files. -/
def C5cd : ChangeDir :=
  { glob := "scenarios/**/*"
    filter := some "scenarios/**/*.test.ts"
    type := some "fine-grained" }

end GoodChanges


namespace GoodChanges

/-! ## The orchestrator (src/main.go lines 36-397)

The pipeline ports main.go over a `MainEnv` of filesystem- and
config-derived data: the rush project list, the dependency map
(`ProjInfo` as before), per-package folder, `IsLibrary` and
`FindEntrypoints` results, `.goodchangesrc.json` configs (`MainCfg`
models the single-target config shape main.go consumes: `Type`, `App`,
`TargetName`, `ChangeDirs` with `Path`; that revision of the config
types is absent from src/), `cfg.IsIgnored` per folder, the analyzer
`FsEnv`, `parseScssUses`, and the older four-argument
`FindAffectedFiles` used for virtual targets (absent from src/, so
environment-provided).  `INCLUDE_CSS` is unset throughout, so the CSS
propagation block between the level loop and target evaluation is
skipped.  Go map iteration order and goroutine completion order inside
a level are explicit parameters: `sched` permutes each level's
processing order, `msched` the order results are drained from the
channel; canonical `NameSet`/`CMap` order models the remaining map
iterations, whose results are sets.  `runPipeline` returns the final
sorted target list (whose deterministic JSON marshalling is the one
stdout line of a silent run) and the list of modelled BASIC progress
lines (level headers, per-package headers, per-package merge headers),
which depend on the schedules.  `FindChangedProjects` and
`FindTransitiveDependents` are part_004 lines 109-151;
`HasTaintedImports` is part_003 lines 117-183; `matchesTargetFilter`
is main.go lines 436-458 (its star-wildcard regex as a fueled
first-match glob); `sortStrings` is `sort.Strings`.  `nsSorted`,
`cmEq` and `taintWF` support the determinism analysis: `cmEq` is the
observable content of a Go map, `taintWF` the canonical form the
pipeline maintains for the shared taint map. -/

structure Project where
  packageName : String
  projectFolder : String
  deriving Repr, DecidableEq

structure MainChangeDir where
  path : String
  isFineGrained : Bool
  deriving Repr, DecidableEq

structure MainCfg where
  type : String
  app : Option String
  targetName : Option String
  changeDirs : List MainChangeDir
  deriving Repr, DecidableEq

structure TargetResult where
  name : String
  detections : List String
  deriving Repr, DecidableEq

structure MainEnv where
  projects : List Project
  pm : CMap ProjInfo
  folderOf : String → String
  isLibrary : String → Bool
  entrypoints : String → List Entrypoint
  targetCfg : String → Option MainCfg
  isIgnored : String → String → Bool
  fs : FsEnv
  scssUses : String → String → List String
  findAffectedOld : String → Taint → List String → String → List String

def isIgnoredNil : String → Bool := fun rel => rel == ".goodchangesrc.json"

def insertSorted (x : String) : List String → List String
  | [] => [x]
  | y :: ys => if strLt x y then x :: y :: ys else y :: insertSorted x ys

def sortStrings (l : List String) : List String := l.foldr insertSorted []

def globStarFuel : Nat → List Char → List Char → Bool
  | 0, _, _ => false
  | _ + 1, [], [] => true
  | _ + 1, [], _ :: _ => false
  | fuel + 1, p :: ps, s =>
    if p = '*' then
      globStarFuel fuel ps s ||
        (match s with
         | [] => false
         | _ :: srest => globStarFuel fuel (p :: ps) srest)
    else
      match s with
      | [] => false
      | c :: cs => p == c && globStarFuel fuel ps cs

def matchesTargetFilter (name : String) (patterns : List String) : Bool :=
  patterns.any (fun p0 =>
    let p : List Char := trimSpaces p0.data
    if p.isEmpty then false
    else globStarFuel (p.length + name.data.length + 1) p name.data)

def HasTaintedImports (env : MainEnv) (folder : String)
    (upstreamTaint : Taint) (ignoredB : String → Bool)
    (includeCSS : Bool) : Bool :=
  if upstreamTaint.isEmpty then false
  else
    ((env.fs.glob folder).any (fun pa =>
      if ignoredB pa.1 then false
      else pa.2.imports.any (faImportTainted includeCSS upstreamTaint)))
    ||
    (includeCSS &&
      (env.fs.styleGlob folder).any (fun scssFile =>
        if ignoredB scssFile then false
        else (env.scssUses folder scssFile).any
          (fun useSpec => matchesCSSTaint useSpec upstreamTaint)))

def FindChangedProjects (projects : List Project) (changedFiles : List String) :
    NameSet :=
  changedFiles.foldl
    (fun result file =>
      if file = "" then result
      else
        match projects.find?
            (fun rp => goHasPrefix file (rp.projectFolder ++ "/")) with
        | none => result
        | some rp =>
          if result.contains rp.packageName then result
          else nsInsert rp.packageName result)
    []

def ftdLoop (pm : CMap ProjInfo) : Nat → NameSet → List String → NameSet
  | 0, visited, _ => visited
  | _ + 1, visited, [] => visited
  | fuel + 1, visited, current :: queue =>
    let st := (revDepsOf pm current).foldl
      (fun (st : NameSet × List String) dep =>
        if st.1.contains dep then st
        else (nsInsert dep st.1, st.2 ++ [dep]))
      (visited, queue)
    ftdLoop pm fuel st.1 st.2

def FindTransitiveDependents (pm : CMap ProjInfo) (seeds : List String) :
    NameSet :=
  let visited := seeds.foldl (fun v s => nsInsert s v) []
  let fuel := seeds.length +
    pm.foldl (fun n kv => n + kv.2.dependedOnBy.length) 0 + 1
  ftdLoop pm fuel visited seeds

def pkgUpstreamFor (pm : CMap ProjInfo) (alltaint : Taint) (pkgName : String) :
    Taint :=
  (depsOf pm pkgName).foldl
    (fun put dep =>
      alltaint.foldl
        (fun put kv =>
          if goHasPrefix kv.1 dep then
            cmUpd kv.1 (fun old => nsInsertMany kv.2 (old.getD [])) put
          else put)
        put)
    []

def analyzePkgMain (env : MainEnv) (mergeBase : String)
    (changedFiles : List String) (includeTypes : Bool)
    (depChanged : CMap NameSet) (alltaint : Taint) (pkgName : String) :
    List AffectedExport :=
  match cmGet env.pm pkgName with
  | none => []
  | some _ =>
    let folder := env.folderOf pkgName
    if !env.isLibrary pkgName then []
    else
      let eps := env.entrypoints pkgName
      if eps.isEmpty then []
      else
        AnalyzeLibraryPackage env.fs folder eps mergeBase changedFiles
          includeTypes false (pkgUpstreamFor env.pm alltaint pkgName)
          (cmGetD depChanged folder [])

def levelHeader (idx : Nat) (level : List String) : String :=
  "--- Level " ++ toString idx ++ " (" ++ toString level.length
    ++ " packages) ---"

def pkgHeader (pkgName folder : String) : String :=
  "=== " ++ pkgName ++ " (" ++ folder ++ ") ==="

def mergeHeader (pkgName : String) : String :=
  "  Affected exports for " ++ pkgName ++ ":"

def specOf (pkgName : String) (ae : AffectedExport) : String :=
  if ae.entrypointPath = "." then pkgName
  else pkgName ++ goTrimPrefix ae.entrypointPath "."

def mergeResult (t : Taint) (res : String × List AffectedExport) : Taint :=
  res.2.foldl (fun t ae => tAdd t (specOf res.1 ae) ae.exportNames) t

def processLevel (env : MainEnv) (mergeBase : String)
    (changedFiles : List String) (includeTypes : Bool)
    (depChanged : CMap NameSet)
    (sched : List String → List String)
    (msched : List (String × List AffectedExport) →
      List (String × List AffectedExport))
    (alltaint : Taint) (level : List String) : Taint × List String :=
  let procOrder := sched level
  let headers := procOrder.filterMap (fun pkgName =>
    match cmGet env.pm pkgName with
    | some _ => some (pkgHeader pkgName (env.folderOf pkgName))
    | none => none)
  let results := procOrder.filterMap (fun pkgName =>
    let aff := analyzePkgMain env mergeBase changedFiles includeTypes
      depChanged alltaint pkgName
    if aff.isEmpty then none else some (pkgName, aff))
  let merged := (msched results).foldl mergeResult alltaint
  (merged, headers ++ (msched results).map (fun res => mergeHeader res.1))

def runLevels (env : MainEnv) (mergeBase : String)
    (changedFiles : List String) (includeTypes : Bool)
    (depChanged : CMap NameSet)
    (sched : Nat → List String → List String)
    (msched : Nat → List (String × List AffectedExport) →
      List (String × List AffectedExport)) :
    List (List String) → Nat → Taint → List String → Taint × List String
  | [], _, t, logs => (t, logs)
  | level :: rest, idx, t, logs =>
    let st := processLevel env mergeBase changedFiles includeTypes depChanged
      (sched idx) (msched idx) t level
    runLevels env mergeBase changedFiles includeTypes depChanged sched msched
      rest (idx + 1) st.1 (logs ++ [levelHeader idx level] ++ st.2)

def evalTarget (env : MainEnv) (changedFiles : List String)
    (changedProjects : NameSet) (depChanged : CMap NameSet)
    (targetPatterns : List String) (alltaint : Taint) (rp : Project) :
    Option TargetResult :=
  match env.targetCfg rp.projectFolder with
  | none => none
  | some cfg =>
    if cfg.type = "target" then
      if targetPatterns.length ≠ 0 ∧
          !matchesTargetFilter rp.packageName targetPatterns then none
      else
        match cmGet env.pm rp.packageName with
        | none => none
        | some _ =>
          if changedFiles.any (fun f =>
              goHasPrefix f (rp.projectFolder ++ "/") &&
                !env.isIgnored rp.projectFolder
                  (goTrimPrefix f (rp.projectFolder ++ "/"))) then
            some ⟨rp.packageName, []⟩
          else if !(cmGetD depChanged rp.projectFolder []).isEmpty then
            some ⟨rp.packageName, []⟩
          else if HasTaintedImports env rp.projectFolder alltaint
              (env.isIgnored rp.projectFolder) false then
            some ⟨rp.packageName, []⟩
          else
            match cfg.app with
            | none => none
            | some app =>
              match cmGet env.pm app with
              | none => none
              | some _ =>
                if changedProjects.contains app then
                  some ⟨rp.packageName, []⟩
                else if !(cmGetD depChanged (env.folderOf app) []).isEmpty then
                  some ⟨rp.packageName, []⟩
                else if HasTaintedImports env (env.folderOf app) alltaint
                    isIgnoredNil false then
                  some ⟨rp.packageName, []⟩
                else none
    else if cfg.type = "virtual-target" then
      match cfg.targetName with
      | none => none
      | some tn =>
        if targetPatterns.length ≠ 0 ∧
            !matchesTargetFilter tn targetPatterns then none
        else
          let st := cfg.changeDirs.foldl
            (fun (st : Bool × List String) cd =>
              if st.1 then st
              else if cd.isFineGrained then
                let detected := env.findAffectedOld cd.path alltaint
                  changedFiles rp.projectFolder
                (false, if detected.isEmpty then st.2 else st.2 ++ detected)
              else
                let fullDir := goJoinClean rp.projectFolder cd.path
                let trig := changedFiles.any
                    (fun f => goHasPrefix f (fullDir ++ "/")) ||
                  HasTaintedImports env fullDir alltaint isIgnoredNil false
                (trig, st.2))
            (false, [])
          if st.1 then some ⟨tn, []⟩
          else if !st.2.isEmpty then some ⟨tn, sortStrings st.2⟩
          else none
    else none

def runPipeline (env : MainEnv) (mergeBase : String)
    (changedFiles : List String) (includeTypes : Bool)
    (depChanged : CMap NameSet) (targetPatterns : List String)
    (sched : Nat → List String → List String)
    (msched : Nat → List (String × List AffectedExport) →
      List (String × List AffectedExport)) :
    List TargetResult × List String :=
  let changedProjects0 := FindChangedProjects env.projects changedFiles
  let changedProjects := depChanged.foldl
    (fun cp kv =>
      match env.projects.find? (fun rp => rp.projectFolder = kv.1) with
      | none => cp
      | some rp =>
        if cp.contains rp.packageName then cp
        else nsInsert rp.packageName cp)
    changedProjects0
  let affectedSet := FindTransitiveDependents env.pm changedProjects
  let levels := TopologicalSort env.pm affectedSet
  let st := runLevels env mergeBase changedFiles includeTypes depChanged
    sched msched levels 0 [] []
  let e2e := env.projects.foldl
    (fun m rp =>
      match evalTarget env changedFiles changedProjects depChanged
          targetPatterns st.1 rp with
      | none => m
      | some tr => cmUpd tr.name (fun _ => tr) m)
    ([] : CMap TargetResult)
  let sortedNames := sortStrings (e2e.map Prod.fst)
  (sortedNames.filterMap (fun n => cmGet e2e n), st.2)

def C3pm : CMap ProjInfo :=
  [("U", ⟨["V"], ["V", "A"]⟩),
   ("V", ⟨["U"], ["U"]⟩),
   ("A", ⟨["U"], ["L"]⟩),
   ("L", ⟨["A"], ["T"]⟩),
   ("T", ⟨["L"], []⟩)]

def C3projects : List Project :=
  [⟨"U", "u"⟩, ⟨"V", "v"⟩, ⟨"A", "a"⟩, ⟨"L", "l"⟩, ⟨"T", "t"⟩]

def C3uEntry : FileAnalysis :=
  { text := "export const uX = 1;"
    imports := []
    exports := [{ name := "uX", localName := "uX", source := "",
                  isTypeOnly := false, isStar := false }]
    symbols := [{ name := "uX", isTypeOnly := false,
                  body := "export const uX = 1;", inStmtMap := true,
                  erased := "export const uX = 1;" }] }

def C3vEntryNew : FileAnalysis :=
  { text := "export const vX = 2;"
    imports := []
    exports := [{ name := "vX", localName := "vX", source := "",
                  isTypeOnly := false, isStar := false }]
    symbols := [{ name := "vX", isTypeOnly := false,
                  body := "export const vX = 2;", inStmtMap := true,
                  erased := "export const vX = 2;" }] }

def C3vEntryOld : FileAnalysis :=
  { text := "export const vX = 1;"
    imports := []
    exports := [{ name := "vX", localName := "vX", source := "",
                  isTypeOnly := false, isStar := false }]
    symbols := [{ name := "vX", isTypeOnly := false,
                  body := "export const vX = 1;", inStmtMap := true,
                  erased := "export const vX = 1;" }] }

def C3aEntryNew : FileAnalysis :=
  { text := "export const aX = 2;"
    imports := []
    exports := [{ name := "aX", localName := "aX", source := "",
                  isTypeOnly := false, isStar := false }]
    symbols := [{ name := "aX", isTypeOnly := false,
                  body := "export const aX = 2;", inStmtMap := true,
                  erased := "export const aX = 2;" }] }

def C3aEntryOld : FileAnalysis :=
  { text := "export const aX = 1;"
    imports := []
    exports := [{ name := "aX", localName := "aX", source := "",
                  isTypeOnly := false, isStar := false }]
    symbols := [{ name := "aX", isTypeOnly := false,
                  body := "export const aX = 1;", inStmtMap := true,
                  erased := "export const aX = 1;" }] }

def C3lEntry : FileAnalysis :=
  { text := "import \x7b aX \x7d from \x22A\x22; export const lX = aX;"
    imports := [{ names := ["aX"], source := "A" }]
    exports := [{ name := "lX", localName := "lX", source := "",
                  isTypeOnly := false, isStar := false }]
    symbols := [{ name := "lX", isTypeOnly := false,
                  body := "export const lX = aX;", inStmtMap := true,
                  erased := "export const lX = aX;" }] }

def C3tEntry : FileAnalysis :=
  { text := "import \x7b lX \x7d from \x22L\x22;"
    imports := [{ names := ["lX"], source := "L" }]
    exports := []
    symbols := [] }

def C3fs : FsEnv :=
  { glob := fun folder =>
      if folder = "u" then [("src/index.ts", C3uEntry)]
      else if folder = "v" then [("src/index.ts", C3vEntryNew)]
      else if folder = "a" then [("src/index.ts", C3aEntryNew)]
      else if folder = "l" then [("src/index.ts", C3lEntry)]
      else if folder = "t" then [("src/app.ts", C3tEntry)]
      else []
    styleGlob := fun _ => []
    readFile := fun _ => none
    gitShow := fun _ f =>
      if f = "a/src/index.ts" then "export const aX = 1;"
      else if f = "v/src/index.ts" then "export const vX = 1;"
      else ""
    parseContent := fun content _ =>
      if content = "export const aX = 1;" then C3aEntryOld
      else if content = "export const vX = 1;" then C3vEntryOld
      else ⟨"", [], [], []⟩
    resolve := fun _ _ _ => ""
    globMatch := fun _ _ => false }

def C3env : MainEnv :=
  { projects := C3projects
    pm := C3pm
    folderOf := fun pkg =>
      if pkg = "U" then "u" else if pkg = "V" then "v"
      else if pkg = "A" then "a" else if pkg = "L" then "l"
      else if pkg = "T" then "t" else ""
    isLibrary := fun pkg => pkg ≠ "T"
    entrypoints := fun pkg =>
      if pkg = "T" then [] else [⟨".", "src/index.ts"⟩]
    targetCfg := fun folder =>
      if folder = "t" then some ⟨"target", none, none, []⟩ else none
    isIgnored := fun _ _ => false
    fs := C3fs
    scssUses := fun _ _ => []
    findAffectedOld := fun _ _ _ _ => [] }

def idSched : Nat → List String → List String := fun _ l => l

def idMSched : Nat → List (String × List AffectedExport) →
    List (String × List AffectedExport) := fun _ l => l

def nsSorted (s : NameSet) : Prop :=
  List.Pairwise (fun a b => strLt a b = true) s

def cmEq {β : Type} (t₁ t₂ : CMap β) : Prop :=
  ∀ k, cmGet t₁ k = cmGet t₂ k

def taintWF (t : Taint) : Prop :=
  (t.map Prod.fst).Nodup ∧ ∀ kv ∈ t, nsSorted kv.2

def revSched : Nat → List String → List String := fun _ l => l.reverse

def C9pm : CMap ProjInfo :=
  [("A", ⟨[], []⟩), ("B", ⟨[], []⟩), ("T", ⟨[], []⟩)]

def C9projects : List Project :=
  [⟨"A", "pa"⟩, ⟨"B", "pb"⟩, ⟨"T", "pt"⟩]

def C9aNew : FileAnalysis :=
  { text := "export const aX = 2;"
    imports := []
    exports := [{ name := "aX", localName := "aX", source := "",
                  isTypeOnly := false, isStar := false }]
    symbols := [{ name := "aX", isTypeOnly := false,
                  body := "export const aX = 2;", inStmtMap := true,
                  erased := "export const aX = 2;" }] }

def C9aOld : FileAnalysis :=
  { text := "export const aX = 1;"
    imports := []
    exports := [{ name := "aX", localName := "aX", source := "",
                  isTypeOnly := false, isStar := false }]
    symbols := [{ name := "aX", isTypeOnly := false,
                  body := "export const aX = 1;", inStmtMap := true,
                  erased := "export const aX = 1;" }] }

def C9bNew : FileAnalysis :=
  { text := "export const bX = 2;"
    imports := []
    exports := [{ name := "bX", localName := "bX", source := "",
                  isTypeOnly := false, isStar := false }]
    symbols := [{ name := "bX", isTypeOnly := false,
                  body := "export const bX = 2;", inStmtMap := true,
                  erased := "export const bX = 2;" }] }

def C9bOld : FileAnalysis :=
  { text := "export const bX = 1;"
    imports := []
    exports := [{ name := "bX", localName := "bX", source := "",
                  isTypeOnly := false, isStar := false }]
    symbols := [{ name := "bX", isTypeOnly := false,
                  body := "export const bX = 1;", inStmtMap := true,
                  erased := "export const bX = 1;" }] }

def C9tEntry : FileAnalysis :=
  { text := "import \x7b aX \x7d from \x22A\x22;"
    imports := [{ names := ["aX"], source := "A" }]
    exports := []
    symbols := [] }

def C9fs : FsEnv :=
  { glob := fun folder =>
      if folder = "pa" then [("src/index.ts", C9aNew)]
      else if folder = "pb" then [("src/index.ts", C9bNew)]
      else if folder = "pt" then [("src/app.ts", C9tEntry)]
      else []
    styleGlob := fun _ => []
    readFile := fun _ => none
    gitShow := fun _ f =>
      if f = "pa/src/index.ts" then "export const aX = 1;"
      else if f = "pb/src/index.ts" then "export const bX = 1;"
      else ""
    parseContent := fun content _ =>
      if content = "export const aX = 1;" then C9aOld
      else if content = "export const bX = 1;" then C9bOld
      else ⟨"", [], [], []⟩
    resolve := fun _ _ _ => ""
    globMatch := fun _ _ => false }

def C9env : MainEnv :=
  { projects := C9projects
    pm := C9pm
    folderOf := fun pkg =>
      if pkg = "A" then "pa" else if pkg = "B" then "pb"
      else if pkg = "T" then "pt" else ""
    isLibrary := fun pkg => pkg ≠ "T"
    entrypoints := fun pkg =>
      if pkg = "T" then [] else [⟨".", "src/index.ts"⟩]
    targetCfg := fun folder =>
      if folder = "pt" then some ⟨"target", none, none, []⟩ else none
    isIgnored := fun _ _ => false
    fs := C9fs
    scssUses := fun _ _ => []
    findAffectedOld := fun _ _ _ _ => [] }

def C9cf : List String := ["pa/src/index.ts", "pb/src/index.ts"]

end GoodChanges

-- ===================== THEOREMS =====================

namespace GoodChanges

/-! ## Theorems about the AST differ (claims C2 and C6) -/

/-- A symbol whose normalized body is unchanged is skipped by the
classification loop. -/
theorem classifyStep_of_eq (oldTexts oldRuntime : CMap String) (newA : FileAnalysis)
    (it : Bool) (acc : List String) (sym : SymbolDecl)
    (h : cmGet oldTexts sym.name = some (normalizeWhitespace sym.body)) :
    classifyStep oldTexts oldRuntime newA it acc sym = acc := by
  simp [classifyStep, h]

/-- A fold whose every step is the identity returns its accumulator. -/
theorem classify_foldl_eq (oldTexts oldRuntime : CMap String) (newA : FileAnalysis)
    (it : Bool) (l : List SymbolDecl)
    (h : ∀ sym ∈ l, ∀ acc, classifyStep oldTexts oldRuntime newA it acc sym = acc) :
    ∀ acc, l.foldl (classifyStep oldTexts oldRuntime newA it) acc = acc := by
  induction l with
  | nil => intro acc; rfl
  | cons s t ih =>
    intro acc
    rw [List.foldl_cons, h s (by simp)]
    exact ih (fun sym hs acc2 => h sym (by simp [hs]) acc2) acc

/-- When the classification loop finds nothing, the differ returns the
empty list (the intra-file propagation block is skipped and the
fallback only logs). -/
theorem diff_result_of_classify_nil (oldA : FileAnalysis) (newA : FileAnalysis)
    (oldContent : String) (it : Bool)
    (h : classifySymbols (buildOldSymbolTexts oldA) (buildOldRuntimeTexts oldA) newA it = []) :
    findAffectedSymbolsByASTDiff (some oldA) newA oldContent it = [] := by
  unfold findAffectedSymbolsByASTDiff
  simp [h]

/-- C6: whitespace/comment-only changes produce no taint.  For every pair
of old and new analyses of the same file whose whitespace-normalized
texts differ, if every symbol of the new version is present in the old
version with identical normalized body text (in particular no symbol was
added), then `findAffectedSymbolsByASTDiff` reports no affected
symbols. -/
theorem C6_no_symbol_change_no_taint (oldA newA : FileAnalysis) (oldContent : String)
    (includeTypes : Bool)
    (_hdiff : normalizeWhitespace oldA.text ≠ normalizeWhitespace newA.text)
    (hsym : ∀ sym ∈ newA.symbols,
      cmGet (buildOldSymbolTexts oldA) sym.name = some (normalizeWhitespace sym.body)) :
    findAffectedSymbolsByASTDiff (some oldA) newA oldContent includeTypes = [] := by
  apply diff_result_of_classify_nil
  unfold classifySymbols
  exact classify_foldl_eq _ _ _ _ _
    (fun sym hs acc => classifyStep_of_eq _ _ _ _ _ _ (hsym sym hs)) []

/-- C6 witness: a concrete comment-only change (the file text differs,
the single symbol body does not) yields the empty result. -/
theorem C6_witness :
    normalizeWhitespace C6old.text ≠ normalizeWhitespace C6new.text ∧
    findAffectedSymbolsByASTDiff (some C6old) C6new C6old.text false = [] :=
  ⟨by decide, C6_no_symbol_change_no_taint C6old C6new C6old.text false (by decide) (by decide)⟩

/-- A symbol is skipped by the classification loop with types disabled
when: if added it is type-only, and if present in the old version it
either kept its normalized body or has non-empty, equal runtime
projections recorded on both sides. -/
theorem classifyStep_skip_c2 (oldTexts oldRuntime : CMap String) (newA : FileAnalysis)
    (acc : List String) (sym : SymbolDecl)
    (hadd : cmGet oldTexts sym.name = none → sym.isTypeOnly = true)
    (hrt : sym.isTypeOnly = false → cmGet oldTexts sym.name ≠ none →
      normalizeWhitespace sym.body = cmGetD oldTexts sym.name "" ∨
      (cmGetD oldRuntime sym.name "" ≠ "" ∧
       cmGetD (buildStmtRuntime newA) sym.name "" ≠ "" ∧
       cmGetD oldRuntime sym.name "" = cmGetD (buildStmtRuntime newA) sym.name "")) :
    classifyStep oldTexts oldRuntime newA false acc sym = acc := by
  unfold classifyStep
  cases hget : cmGet oldTexts sym.name with
  | none => simp [hadd hget]
  | some ob =>
    by_cases hty : sym.isTypeOnly = true
    · by_cases hb : normalizeWhitespace sym.body = ob
      · simp [hb]
      · simp [hb, hty]
    · have hty2 : sym.isTypeOnly = false := by
        cases h : sym.isTypeOnly
        · rfl
        · exact absurd h hty
      rcases hrt hty2 (by simp [hget]) with h | ⟨h1, h2, h3⟩
      · have hb : normalizeWhitespace sym.body = ob := by
          simpa [cmGetD, hget] using h
        simp [hb]
      · by_cases hb : normalizeWhitespace sym.body = ob
        · simp [hb]
        · simp only [cmGetD] at h1 h2 h3
          simp [hb, hty2, cmGetD, h1, h2, h3]

/-- C2 (amended): type-only isolation holds for symbols whose runtime
projection is available.  With `includeTypes = false`, if every added
symbol is type-only and every runtime symbol present in both versions
either kept its normalized body text or has non-empty and equal
type-erased projections recorded in the statement maps of both versions,
then `findAffectedSymbolsByASTDiff` returns the empty list. -/
theorem C2_type_only_isolation_amended (oldA newA : FileAnalysis) (oldContent : String)
    (hadd : ∀ s ∈ newA.symbols,
      cmGet (buildOldSymbolTexts oldA) s.name = none → s.isTypeOnly = true)
    (hrt : ∀ s ∈ newA.symbols, s.isTypeOnly = false →
      cmGet (buildOldSymbolTexts oldA) s.name ≠ none →
      normalizeWhitespace s.body = cmGetD (buildOldSymbolTexts oldA) s.name "" ∨
      (cmGetD (buildOldRuntimeTexts oldA) s.name "" ≠ "" ∧
       cmGetD (buildStmtRuntime newA) s.name "" ≠ "" ∧
       cmGetD (buildOldRuntimeTexts oldA) s.name "" = cmGetD (buildStmtRuntime newA) s.name "")) :
    findAffectedSymbolsByASTDiff (some oldA) newA oldContent false = [] := by
  apply diff_result_of_classify_nil
  unfold classifySymbols
  exact classify_foldl_eq _ _ _ _ _
    (fun sym hs acc => classifyStep_skip_c2 _ _ _ _ _ (hadd sym hs) (hrt sym hs)) []

/-- C2 amended witness: changing `as A` to `as B` on an indexed variable
statement is recognized as type-only and produces no affected symbols. -/
theorem C2_amended_witness :
    findAffectedSymbolsByASTDiff (some C2wOld) C2wNew C2wOld.text false = [] :=
  C2_type_only_isolation_amended C2wOld C2wNew C2wOld.text (by decide) (by decide)

/-- C2 counterexample: the claim fails as stated.  The concrete pair
`C2old`/`C2new` differs only in a parameter type annotation of an
anonymous `export default function` (a type-only difference), yet with
types disabled the differ reports the symbol `"default"` as affected,
because `buildStmtMap` does not index the anonymous statement and the
missing runtime projection makes the change count as a runtime change. -/
theorem C2_counterexample :
    TypeOnlyDiff C2old C2new ∧
    findAffectedSymbolsByASTDiff (some C2old) C2new C2old.text false = ["default"] :=
  ⟨⟨by decide, by decide⟩, by decide⟩

end GoodChanges

namespace GoodChanges

/-! ## Lemmas about the map and set models, taint growth, and the
package analyzer (claims C1 and C10) -/

theorem mem_nsInsert (x n : String) (s : NameSet) :
    x ∈ nsInsert n s ↔ x = n ∨ x ∈ s := by
  induction s with
  | nil => simp [nsInsert]
  | cons m rest ih =>
    unfold nsInsert
    cases h1 : strLt n m with
    | true => simp
    | false =>
      by_cases h2 : n = m
      · subst h2
        simp only [if_pos rfl]
        simp [List.mem_cons]
      · simp only [if_neg h2, Bool.false_eq_true, if_false, List.mem_cons, ih]
        tauto

theorem mem_nsInsertMany (x : String) (ns : List String) :
    ∀ s : NameSet, x ∈ nsInsertMany ns s ↔ x ∈ ns ∨ x ∈ s := by
  induction ns with
  | nil => intro s; simp [nsInsertMany]
  | cons n rest ih =>
    intro s
    show x ∈ nsInsertMany rest (nsInsert n s) ↔ _
    rw [ih, mem_nsInsert]
    simp [or_comm, or_assoc, or_left_comm]

theorem contains_iff (s : NameSet) (x : String) : s.contains x = true ↔ x ∈ s := by
  simp [List.contains]

theorem cmGet_cmUpd_self {β : Type} (key : String) (f : Option β → β) (m : CMap β) :
    cmGet (cmUpd key f m) key = some (f (cmGet m key)) := by
  induction m with
  | nil => simp [cmUpd, cmGet]
  | cons kv rest ih =>
    obtain ⟨k, v⟩ := kv
    by_cases h : key = k
    · subst h; simp [cmUpd, cmGet]
    · simp [cmUpd, cmGet, h, Ne.symm h, ih]

theorem cmGet_cmUpd_ne {β : Type} (key k2 : String) (f : Option β → β) (m : CMap β)
    (h : k2 ≠ key) : cmGet (cmUpd key f m) k2 = cmGet m k2 := by
  induction m with
  | nil => simp [cmUpd, cmGet, h]
  | cons kv rest ih =>
    obtain ⟨k, v⟩ := kv
    by_cases h2 : key = k
    · subst h2
      simp [cmUpd, cmGet, h]
    · by_cases h3 : k2 = k
      · subst h3
        simp [cmUpd, cmGet, h2, Ne.symm h2]
      · simp [cmUpd, cmGet, h2, h3, ih]

theorem cmGet_mem {β : Type} (m : CMap β) (k : String) (v : β)
    (h : cmGet m k = some v) : (k, v) ∈ m := by
  induction m with
  | nil => simp [cmGet] at h
  | cons kv rest ih =>
    obtain ⟨k2, v2⟩ := kv
    by_cases h2 : k = k2
    · subst h2
      simp [cmGet] at h
      simp [h]
    · simp [cmGet, h2] at h
      exact List.mem_cons_of_mem _ (ih h)

/-! ### Taint order lemmas -/

theorem tLE_refl (t : Taint) : tLE t t := fun _ _ h => h

theorem tLE_trans {t1 t2 t3 : Taint} (h1 : tLE t1 t2) (h2 : tLE t2 t3) : tLE t1 t3 :=
  fun s n h => h2 s n (h1 s n h)

theorem tHas_tAdd_of_mem (t : Taint) (stem : String) (ns : List String) (n : String)
    (h : n ∈ ns) : tHas (tAdd t stem ns) stem n = true := by
  unfold tHas tAdd
  rw [cmGet_cmUpd_self]
  rw [contains_iff, mem_nsInsertMany]
  exact Or.inl h

theorem tLE_tAdd (t : Taint) (stem : String) (ns : List String) : tLE t (tAdd t stem ns) := by
  intro s n h
  unfold tHas tAdd
  by_cases hs : s = stem
  · subst hs
    rw [cmGet_cmUpd_self]
    unfold tHas at h
    cases hget : cmGet t s with
    | none => rw [hget] at h; simp at h
    | some os =>
      rw [hget] at h
      rw [contains_iff] at h ⊢
      rw [mem_nsInsertMany]
      right
      simpa [hget] using h
  · rw [cmGet_cmUpd_ne _ _ _ _ hs]
    exact h

theorem tLE_tEnsure (t : Taint) (stem : String) : tLE t (tEnsure t stem) := by
  intro s n h
  unfold tHas tEnsure
  by_cases hs : s = stem
  · subst hs
    rw [cmGet_cmUpd_self]
    unfold tHas at h
    cases hget : cmGet t s with
    | none => rw [hget] at h; simp at h
    | some os => rw [hget] at h; simpa [hget] using h
  · rw [cmGet_cmUpd_ne _ _ _ _ hs]
    exact h

/-! ### Generic fold lemmas -/

theorem foldl_tLE {α : Type} (step : Taint → α → Taint) (l : List α)
    (h : ∀ t x, x ∈ l → tLE t (step t x)) : ∀ t, tLE t (l.foldl step t) := by
  induction l with
  | nil => intro t; exact tLE_refl t
  | cons x rest ih =>
    intro t
    rw [List.foldl_cons]
    exact tLE_trans (h t x (by simp)) (ih (fun t y hy => h t y (by simp [hy])) _)

theorem foldl_estab {α : Type} (step : Taint → α → Taint) (l : List α) (x : α)
    (stem n : String)
    (hgrow : ∀ t y, y ∈ l → tLE t (step t y))
    (hx : x ∈ l) (hest : ∀ t, tHas (step t x) stem n = true) :
    ∀ t, tHas (l.foldl step t) stem n = true := by
  induction l with
  | nil => cases hx
  | cons y rest ih =>
    intro t
    rw [List.foldl_cons]
    rcases List.mem_cons.mp hx with heq | hmem
    · subst heq
      exact foldl_tLE step rest (fun t z hz => hgrow t z (by simp [hz])) _ stem n (hest t)
    · exact ih (fun t z hz => hgrow t z (by simp [hz])) hmem _

theorem listFoldl_grow {α : Type} (step : List String → α → List String) (l : List α)
    (h : ∀ acc x, x ∈ l → ∀ n, n ∈ acc → n ∈ step acc x) :
    ∀ acc n, n ∈ acc → n ∈ l.foldl step acc := by
  induction l with
  | nil => intro acc n hn; exact hn
  | cons x rest ih =>
    intro acc n hn
    rw [List.foldl_cons]
    exact ih (fun a y hy m hm => h a y (by simp [hy]) m hm) _ n (h acc x (by simp) n hn)

theorem listFoldl_estab {α : Type} (step : List String → α → List String) (l : List α)
    (x : α) (n : String)
    (hgrow : ∀ acc y, y ∈ l → ∀ m, m ∈ acc → m ∈ step acc y)
    (hx : x ∈ l) (hest : ∀ acc, n ∈ step acc x) :
    ∀ acc, n ∈ l.foldl step acc := by
  induction l with
  | nil => cases hx
  | cons y rest ih =>
    intro acc
    rw [List.foldl_cons]
    rcases List.mem_cons.mp hx with heq | hmem
    · subst heq
      exact listFoldl_grow step rest (fun a z hz => hgrow a z (by simp [hz])) _ n (hest acc)
    · exact ih (fun a z hz => hgrow a z (by simp [hz])) hmem _

theorem tHas_ne_nil {t : Taint} {s n : String} (h : tHas t s n = true) : t ≠ [] := by
  intro he
  subst he
  simp [tHas, cmGet] at h

theorem tLE_tAdd_tEnsure (t : Taint) (stem : String) (ns : List String) :
    tLE t (tAdd (tEnsure t stem) stem ns) :=
  tLE_trans (tLE_tEnsure t stem) (tLE_tAdd _ _ _)

theorem styleStep_tLE (csf : NameSet) (stem : String) (analysis : FileAnalysis)
    (t : Taint) (imp : TsImport) : tLE t (styleStep csf stem analysis t imp) := by
  unfold styleStep
  split
  · exact tLE_refl _
  split
  · exact tLE_refl _
  dsimp only
  split
  · exact tLE_refl _
  split
  · exact tLE_tAdd_tEnsure _ _ _
  · exact tLE_tAdd_tEnsure _ _ _

theorem upStep_tLE (ics : Bool) (ut : CMap NameSet) (stem : String)
    (analysis : FileAnalysis) (t : Taint) (imp : TsImport) :
    tLE t (upStep ics ut stem analysis t imp) := by
  unfold upStep
  split
  · exact tLE_refl _
  split
  · split
    · exact tLE_tAdd_tEnsure _ _ _
    · exact tLE_refl _
  · split
    · split
      · exact tLE_tAdd_tEnsure _ _ _
      · exact tLE_refl _
    split
    · exact tLE_tAdd_tEnsure _ _ _
    dsimp only
    split
    · exact tLE_refl _
    split
    · exact tLE_refl _
    · exact tLE_tAdd_tEnsure _ _ _

theorem extImpStep_tLE (deps : NameSet) (stem : String) (analysis : FileAnalysis)
    (t : Taint) (imp : TsImport) : tLE t (extImpStep deps stem analysis t imp) := by
  unfold extImpStep
  split
  · exact tLE_refl _
  split
  · exact tLE_refl _
  dsimp only
  split
  · exact tLE_tAdd_tEnsure _ _ _
  · apply tLE_trans (tLE_tAdd_tEnsure _ _ _)
    apply foldl_tLE
    intro t2 exp _
    split
    · apply foldl_tLE
      intro t3 name _
      dsimp only
      split
      · split
        · exact tLE_tAdd _ _ _
        · exact tLE_refl _
      · split
        · exact tLE_tAdd _ _ _
        · exact tLE_refl _
    · exact tLE_refl _

theorem extExpStep_tLE (deps : NameSet) (stem : String) (t : Taint) (exp : TsExport) :
    tLE t (extExpStep deps stem t exp) := by
  unfold extExpStep
  split
  · exact tLE_refl _
  split
  · exact tLE_refl _
  dsimp only
  split
  · exact tLE_tAdd_tEnsure _ _ _
  · exact tLE_tAdd_tEnsure _ _ _

theorem diffStep_tLE (env : FsEnv) (pf mb : String) (fa : CMap FileAnalysis) (it : Bool)
    (t : Taint) (f : String) :
    tLE t ((fun t changedFile =>
      let relToProject := goTrimPrefix changedFile (pf ++ "/")
      let ext := goExt relToProject
      if !(ext == ".ts" || ext == ".tsx" || ext == ".js" || ext == ".jsx") then t
      else
        let stem := stripTSExtension relToProject
        match cmGet fa stem with
        | none => t
        | some newAnalysis =>
          let oldContent := env.gitShow mb changedFile
          let oldAnalysis :=
            if oldContent = "" then none
            else some (env.parseContent oldContent changedFile)
          let affected := findAffectedSymbolsByASTDiff oldAnalysis newAnalysis oldContent it
          if affected.isEmpty then t else tAdd t stem affected : Taint → String → Taint) t f) := by
  dsimp only
  repeat' split
  all_goals first
    | exact tLE_refl _
    | exact tLE_tAdd _ _ _

theorem seedFromDiff_tLE (env : FsEnv) (pf mb : String) (fa : CMap FileAnalysis)
    (it : Bool) (pcf : List String) (t : Taint) :
    tLE t (seedFromDiff env pf mb fa it pcf t) := by
  unfold seedFromDiff
  apply foldl_tLE
  intro t2 f _
  exact diffStep_tLE env pf mb fa it t2 f

theorem seedFromStyles_tLE (fa : CMap FileAnalysis) (csf : NameSet) (t : Taint) :
    tLE t (seedFromStyles fa csf t) := by
  unfold seedFromStyles
  apply foldl_tLE
  intro t2 kv _
  apply foldl_tLE
  intro t3 imp _
  exact styleStep_tLE csf kv.1 kv.2 t3 imp

theorem seedFromUpstream_tLE (ics : Bool) (ut : CMap NameSet) (fa : CMap FileAnalysis)
    (t : Taint) : tLE t (seedFromUpstream ics ut fa t) := by
  unfold seedFromUpstream
  apply foldl_tLE
  intro t2 kv _
  apply foldl_tLE
  intro t3 imp _
  exact upStep_tLE ics ut kv.1 kv.2 t3 imp

theorem seedFromExternal_tLE (deps : NameSet) (fa : CMap FileAnalysis) (t : Taint) :
    tLE t (seedFromExternal deps fa t) := by
  unfold seedFromExternal
  apply foldl_tLE
  intro t2 kv _
  dsimp only
  apply tLE_trans
  · apply foldl_tLE (l := kv.2.imports)
    intro t3 imp _
    exact extImpStep_tLE deps kv.1 kv.2 t3 imp
  · apply foldl_tLE
    intro t3 exp _
    exact extExpStep_tLE deps kv.1 t3 exp

theorem bfsProcessImporter_tLE (env : FsEnv) (pf : String)
    (ig : CMap (List ImportEdge)) (fa : CMap FileAnalysis) (cs : String)
    (ct : NameSet) (acc : Taint × List String) (i : String) :
    tLE acc.1 (bfsProcessImporter env pf ig fa cs ct acc i).1 := by
  unfold bfsProcessImporter
  split
  · exact tLE_refl _
  · split
    · exact tLE_refl _
    · split
      · exact tLE_refl _
      · simp only
        exact tLE_tAdd _ _ _

theorem bfs_fold_tLE (env : FsEnv) (pf : String) (ig : CMap (List ImportEdge))
    (fa : CMap FileAnalysis) (cs : String) (ct : NameSet) :
    ∀ (importers : List String) (acc : Taint × List String),
      tLE acc.1 ((importers.foldl (bfsProcessImporter env pf ig fa cs ct) acc).1) := by
  intro importers
  induction importers with
  | nil => intro acc; exact tLE_refl _
  | cons i rest ih =>
    intro acc
    rw [List.foldl_cons]
    exact tLE_trans (bfsProcessImporter_tLE env pf ig fa cs ct acc i) (ih _)

theorem bfsLoop_tLE (env : FsEnv) (pf : String) (ig : CMap (List ImportEdge))
    (ri : CMap (List String)) (fa : CMap FileAnalysis) :
    ∀ (fuel : Nat) (q : List String) (t : Taint),
      tLE t (bfsLoop env pf ig ri fa fuel q t) := by
  intro fuel
  induction fuel with
  | zero => intro q t; exact tLE_refl t
  | succ fuel ih =>
    intro q t
    cases q with
    | nil => exact tLE_refl t
    | cons cs rest =>
      unfold bfsLoop
      exact tLE_trans (bfs_fold_tLE env pf ig fa cs (tGet t cs) _ (t, [])) (ih _ _)

theorem isEmpty_false_of_mem {α : Type} {l : List α} {x : α} (h : x ∈ l) :
    l.isEmpty = false := by
  cases l with
  | nil => cases h
  | cons a t => rfl

theorem cmGet_some_ne_nil {β : Type} {m : CMap β} {k : String} {v : β}
    (h : cmGet m k = some v) : m ≠ [] := by
  intro he
  subst he
  simp [cmGet] at h

/-- The upstream seeding taints the re-exported name `X` at `stem` when
the file imports `X` from the tainted specifier `U` and locally
re-exports it. -/
theorem upStep_estab (ics : Bool) (ut : CMap NameSet) (stem : String) (A : FileAnalysis)
    (U X : String) (names : NameSet) (ns : List String)
    (hrel : goHasPrefix U "." = false)
    (hU : cmGet ut U = some names)
    (hXns : X ∈ ns) (hXstar : goHasPrefix X "*:" = false) (hXaff : X ∈ names)
    (hXexp : ({ name := X, localName := X, source := "", isTypeOnly := false,
                isStar := false } : TsExport) ∈ A.exports) :
    ∀ t, tHas (upStep ics ut stem A t { names := ns, source := U }) stem X = true := by
  intro t
  unfold upStep
  simp only [hrel, Bool.false_eq_true, if_false, hU]
  rw [isEmpty_false_of_mem hXaff]
  simp only [Bool.false_eq_true, if_false]
  rw [isEmpty_false_of_mem hXns]
  simp only [Bool.false_eq_true, if_false]
  have hXfil : X ∈ ns.filter (fun n => goHasPrefix n "*:" || names.contains n) := by
    rw [List.mem_filter]
    refine ⟨hXns, ?_⟩
    rw [Bool.or_eq_true, contains_iff]
    exact Or.inr hXaff
  rw [isEmpty_false_of_mem hXfil]
  simp only [Bool.false_eq_true, if_false]
  have hXusage : X ∈ A.exports.foldl
      (fun u exp =>
        if exp.source = "" then
          u ++ (List.filter
            (fun tln => decide (exp.localName =
              if goHasPrefix tln "*:" = true then goTrimPrefix tln "*:" else tln))
            (ns.filter (fun n => goHasPrefix n "*:" || names.contains n))).map
            (fun _ => exp.name)
        else u)
      (findTaintedSymbolsByUsage A
        (ns.filter (fun n => goHasPrefix n "*:" || names.contains n))) := by
    apply listFoldl_estab _ _ (⟨X, X, "", false, false⟩ : TsExport) X
    · intro acc y _ m hm
      dsimp only
      split
      · exact List.mem_append_left _ hm
      · exact hm
    · exact hXexp
    · intro acc
      simp only [if_pos rfl]
      apply List.mem_append_right
      rw [List.mem_map]
      refine ⟨X, ?_, rfl⟩
      rw [List.mem_filter]
      refine ⟨hXfil, ?_⟩
      simp [hXstar]
  rw [isEmpty_false_of_mem hXusage]
  simp only [Bool.false_eq_true, if_false]
  exact tHas_tAdd_of_mem _ _ _ _ hXusage

theorem seedFromUpstream_estab (ics : Bool) (ut : CMap NameSet)
    (fa : CMap FileAnalysis) (stem : String) (A : FileAnalysis)
    (U X : String) (names : NameSet) (ns : List String)
    (hfa : (stem, A) ∈ fa)
    (himp : ({ names := ns, source := U } : TsImport) ∈ A.imports)
    (hrel : goHasPrefix U "." = false)
    (hU : cmGet ut U = some names)
    (hXns : X ∈ ns) (hXstar : goHasPrefix X "*:" = false) (hXaff : X ∈ names)
    (hXexp : ({ name := X, localName := X, source := "", isTypeOnly := false,
                isStar := false } : TsExport) ∈ A.exports) :
    ∀ t, tHas (seedFromUpstream ics ut fa t) stem X = true := by
  intro t
  unfold seedFromUpstream
  apply foldl_estab _ _ (stem, A) stem X
  · intro t2 kv _
    apply foldl_tLE
    intro t3 imp _
    exact upStep_tLE ics ut kv.1 kv.2 t3 imp
  · exact hfa
  · intro t2
    apply foldl_estab _ _ ({ names := ns, source := U } : TsImport) stem X
    · intro t3 imp _
      exact upStep_tLE ics ut stem A t3 imp
    · exact himp
    · intro t3
      exact upStep_estab ics ut stem A U X names ns hrel hU hXns hXstar hXaff hXexp t3

theorem projStep_grow (env : FsEnv) (pf : String) (it : Bool) (ted : NameSet)
    (tainted : Taint) (epStem epDir : String) (acc : List String) (exp : TsExport)
    (n : String) (hn : n ∈ acc) :
    n ∈ projStep env pf it ted tainted epStem epDir acc exp := by
  unfold projStep
  split
  · exact hn
  split
  · split
    · exact List.mem_append_left _ hn
    · exact hn
  split
  · split
    · exact List.mem_append_left _ hn
    · exact hn
  · dsimp only
    split
    · exact hn
    · split
      · exact hn
      · split
        · exact List.mem_append_left _ hn
        · split
          · exact List.mem_append_left _ hn
          · exact hn

theorem projStep_estab_local (env : FsEnv) (pf : String) (it : Bool) (ted : NameSet)
    (tainted : Taint) (epStem epDir : String) (X : String)
    (hT : tHas tainted epStem X = true) (acc : List String) :
    X ∈ projStep env pf it ted tainted epStem epDir acc
      { name := X, localName := X, source := "", isTypeOnly := false, isStar := false } := by
  unfold projStep
  simp [hT]

theorem dedup_fold_spec (l : List String) :
    ∀ (seen : NameSet) (out : List String),
      (∀ m, seen.contains m = true ↔ m ∈ out) →
      "*" ∉ out → out.Nodup →
      (∀ x, x ∈ out → x ∈ (l.foldl dedupStep (seen, out)).2) ∧
      (∀ x, x ∈ l → x ≠ "*" → x ∈ (l.foldl dedupStep (seen, out)).2) ∧
      "*" ∉ (l.foldl dedupStep (seen, out)).2 ∧
      (l.foldl dedupStep (seen, out)).2.Nodup := by
  induction l with
  | nil =>
    intro seen out hiff hstar hnd
    exact ⟨fun x hx => hx, fun x hx => absurd hx (List.not_mem_nil x), hstar, hnd⟩
  | cons n rest ih =>
    intro seen out hiff hstar hnd
    rw [List.foldl_cons]
    by_cases hs : n = "*"
    · subst hs
      rw [show dedupStep (seen, out) "*" = (seen, out) from by unfold dedupStep; simp]
      obtain ⟨g1, g2, g3, g4⟩ := ih seen out hiff hstar hnd
      refine ⟨g1, ?_, g3, g4⟩
      intro x hx hxs
      rcases List.mem_cons.mp hx with h | h
      · exact absurd h hxs
      · exact g2 x h hxs
    · by_cases hc : seen.contains n = true
      · rw [show dedupStep (seen, out) n = (seen, out) from by
          unfold dedupStep; rw [if_neg hs, if_pos hc]]
        obtain ⟨g1, g2, g3, g4⟩ := ih seen out hiff hstar hnd
        refine ⟨g1, ?_, g3, g4⟩
        intro x hx hxs
        rcases List.mem_cons.mp hx with h | h
        · subst h
          exact g1 x (hiff x |>.mp hc)
        · exact g2 x h hxs
      · rw [show dedupStep (seen, out) n = (nsInsert n seen, out ++ [n]) from by
          unfold dedupStep; rw [if_neg hs, if_neg hc]]
        have hnmem : n ∉ out := fun h => hc ((hiff n).mpr h)
        have hiff2 : ∀ m, (nsInsert n seen).contains m = true ↔ m ∈ out ++ [n] := by
          intro m
          rw [contains_iff, mem_nsInsert, List.mem_append, List.mem_singleton]
          rw [← contains_iff, hiff m]
          tauto
        have hstar2 : "*" ∉ out ++ [n] := by
          rw [List.mem_append, List.mem_singleton]
          rintro (h | h)
          · exact hstar h
          · exact hs h.symm
        have hnd2 : (out ++ [n]).Nodup := by
          rw [List.nodup_append]
          exact ⟨hnd, List.nodup_singleton n, by simpa using hnmem⟩
        obtain ⟨g1, g2, g3, g4⟩ := ih (nsInsert n seen) (out ++ [n]) hiff2 hstar2 hnd2
        refine ⟨?_, ?_, g3, g4⟩
        · intro x hx
          exact g1 x (List.mem_append_left _ hx)
        · intro x hx hxs
          rcases List.mem_cons.mp hx with h | h
          · subst h
            exact g1 x (List.mem_append_right _ (List.mem_singleton.mpr rfl))
          · exact g2 x h hxs

theorem mem_dedupNames (names : List String) (n : String) (h : n ∈ names)
    (hne : n ≠ "*") : n ∈ dedupNames names := by
  unfold dedupNames
  exact (dedup_fold_spec names [] [] (by simp [List.contains]) (by simp) List.nodup_nil).2.1
    n h hne

theorem star_not_mem_dedupNames (names : List String) : "*" ∉ dedupNames names := by
  unfold dedupNames
  exact (dedup_fold_spec names [] [] (by simp [List.contains]) (by simp) List.nodup_nil).2.2.1

theorem nodup_dedupNames (names : List String) : (dedupNames names).Nodup := by
  unfold dedupNames
  exact (dedup_fold_spec names [] [] (by simp [List.contains]) (by simp) List.nodup_nil).2.2.2

theorem projectEntrypoint_estab (env : FsEnv) (pf : String) (it : Bool)
    (ted : NameSet) (fa : CMap FileAnalysis) (tainted : Taint) (ep : Entrypoint)
    (A : FileAnalysis) (X Y : String)
    (hfile : cmGet fa (stripTSExtension ep.sourceFile) = some A)
    (hXexp : ({ name := X, localName := X, source := "", isTypeOnly := false,
                isStar := false } : TsExport) ∈ A.exports)
    (hYexp : ({ name := Y, localName := Y, source := "", isTypeOnly := false,
                isStar := false } : TsExport) ∈ A.exports)
    (hTX : tHas tainted (stripTSExtension ep.sourceFile) X = true)
    (hTY : tHas tainted (stripTSExtension ep.sourceFile) Y = true)
    (hXs : X ≠ "*") (hYs : Y ≠ "*") :
    ∃ ae, projectEntrypoint env pf it ted fa tainted ep = some ae ∧
      ae.entrypointPath = ep.exportPath ∧ X ∈ ae.exportNames ∧ Y ∈ ae.exportNames := by
  unfold projectEntrypoint
  simp only [hfile]
  have hXmem : X ∈ A.exports.foldl
      (projStep env pf it ted tainted (stripTSExtension ep.sourceFile)
        (goDir ep.sourceFile)) [] := by
    apply listFoldl_estab _ _ (⟨X, X, "", false, false⟩ : TsExport) X
    · intro acc y _ m hm
      exact projStep_grow env pf it ted tainted _ _ acc y m hm
    · exact hXexp
    · intro acc
      exact projStep_estab_local env pf it ted tainted _ _ X hTX acc
  have hYmem : Y ∈ A.exports.foldl
      (projStep env pf it ted tainted (stripTSExtension ep.sourceFile)
        (goDir ep.sourceFile)) [] := by
    apply listFoldl_estab _ _ (⟨Y, Y, "", false, false⟩ : TsExport) Y
    · intro acc y _ m hm
      exact projStep_grow env pf it ted tainted _ _ acc y m hm
    · exact hYexp
    · intro acc
      exact projStep_estab_local env pf it ted tainted _ _ Y hTY acc
  rw [isEmpty_false_of_mem hXmem]
  simp only [Bool.false_eq_true, if_false]
  refine ⟨_, rfl, rfl, ?_, ?_⟩
  · exact mem_dedupNames _ X hXmem hXs
  · exact mem_dedupNames _ Y hYmem hYs

theorem epFold_grow (f : Entrypoint → Option AffectedExport) (l : List Entrypoint) :
    ∀ (acc : List AffectedExport) (ae : AffectedExport), ae ∈ acc →
      ae ∈ l.foldl (fun res e => match f e with | some a => res ++ [a] | none => res) acc := by
  induction l with
  | nil => intro acc ae h; exact h
  | cons e rest ih =>
    intro acc ae h
    rw [List.foldl_cons]
    cases hf : f e with
    | none => simpa [hf] using ih acc ae h
    | some a =>
      simp only [hf]
      exact ih _ ae (List.mem_append_left _ h)

theorem epFold_mem (f : Entrypoint → Option AffectedExport) (l : List Entrypoint)
    (ep : Entrypoint) (ae : AffectedExport) (hep : ep ∈ l) (hf : f ep = some ae) :
    ∀ acc, ae ∈ l.foldl (fun res e => match f e with | some a => res ++ [a] | none => res) acc := by
  induction l with
  | nil => cases hep
  | cons e rest ih =>
    intro acc
    rw [List.foldl_cons]
    rcases List.mem_cons.mp hep with heq | hmem
    · subst heq
      rw [hf]
      exact epFold_grow f rest _ ae (List.mem_append_right _ (List.mem_singleton.mpr rfl))
    · exact ih hmem _

/-- The combined seeding establishes the upstream-seeded names. -/
theorem alpSeeds_estab_upstream (env : FsEnv) (pf mb : String)
    (changedFiles : List String) (it ics : Bool) (ut : CMap NameSet) (ted : NameSet)
    (stem : String) (A : FileAnalysis) (U X : String) (names : NameSet) (ns : List String)
    (hfa : (stem, A) ∈ fileAnalysesOf env pf)
    (himp : ({ names := ns, source := U } : TsImport) ∈ A.imports)
    (hrel : goHasPrefix U "." = false)
    (hU : cmGet ut U = some names)
    (hXns : X ∈ ns) (hXstar : goHasPrefix X "*:" = false) (hXaff : X ∈ names)
    (hXexp : ({ name := X, localName := X, source := "", isTypeOnly := false,
                isStar := false } : TsExport) ∈ A.exports) :
    tHas (alpSeeds env pf mb changedFiles it ics ut ted) stem X = true := by
  unfold alpSeeds
  dsimp only
  rw [show ut.isEmpty = false from isEmpty_false_of_mem (cmGet_mem ut U names hU)]
  simp only [Bool.false_eq_true, if_false]
  have h3 := seedFromUpstream_estab ics ut (fileAnalysesOf env pf) stem A U X names ns
    hfa himp hrel hU hXns hXstar hXaff hXexp
  split
  · exact h3 _
  · exact seedFromExternal_tLE ted (fileAnalysesOf env pf) _ stem X (h3 _)

theorem isEmpty_false_of_tHas {t : Taint} {s n : String} (h : tHas t s n = true) :
    t.isEmpty = false := by
  cases t with
  | nil => simp [tHas, cmGet] at h
  | cons kv rest => rfl

theorem C1_import_reexport_transparency (env : FsEnv) (projectFolder mergeBase : String)
    (entrypoints : List Entrypoint) (changedFiles : List String)
    (includeTypes includeCSS : Bool) (upstreamTaint : CMap NameSet)
    (taintedExternalDeps : NameSet) (ep : Entrypoint) (A : FileAnalysis)
    (U X Y : String) (names : NameSet) (ns : List String)
    (hep : ep ∈ entrypoints)
    (hfile : cmGet (fileAnalysesOf env projectFolder)
      (stripTSExtension ep.sourceFile) = some A)
    (himp : ({ names := ns, source := U } : TsImport) ∈ A.imports)
    (hrel : goHasPrefix U "." = false)
    (hU : cmGet upstreamTaint U = some names)
    (hXns : X ∈ ns) (hYns : Y ∈ ns)
    (hXpre : goHasPrefix X "*:" = false) (hYpre : goHasPrefix Y "*:" = false)
    (hXaff : X ∈ names) (hYaff : Y ∈ names)
    (hXexp : ({ name := X, localName := X, source := "", isTypeOnly := false,
                isStar := false } : TsExport) ∈ A.exports)
    (hYexp : ({ name := Y, localName := Y, source := "", isTypeOnly := false,
                isStar := false } : TsExport) ∈ A.exports)
    (hXs : X ≠ "*") (hYs : Y ≠ "*") :
    ∃ ae ∈ AnalyzeLibraryPackage env projectFolder entrypoints mergeBase changedFiles
        includeTypes includeCSS upstreamTaint taintedExternalDeps,
      ae.entrypointPath = ep.exportPath ∧ X ∈ ae.exportNames ∧ Y ∈ ae.exportNames := by
  have hfamem : (stripTSExtension ep.sourceFile, A) ∈ fileAnalysesOf env projectFolder :=
    cmGet_mem _ _ _ hfile
  have hseedX : tHas (alpSeeds env projectFolder mergeBase changedFiles includeTypes
      includeCSS upstreamTaint taintedExternalDeps) (stripTSExtension ep.sourceFile) X
      = true :=
    alpSeeds_estab_upstream env projectFolder mergeBase changedFiles includeTypes
      includeCSS upstreamTaint taintedExternalDeps _ A U X names ns hfamem himp hrel hU
      hXns hXpre hXaff hXexp
  have hseedY : tHas (alpSeeds env projectFolder mergeBase changedFiles includeTypes
      includeCSS upstreamTaint taintedExternalDeps) (stripTSExtension ep.sourceFile) Y
      = true :=
    alpSeeds_estab_upstream env projectFolder mergeBase changedFiles includeTypes
      includeCSS upstreamTaint taintedExternalDeps _ A U Y names ns hfamem himp hrel hU
      hYns hYpre hYaff hYexp
  have hTX : tHas (alpTaint env projectFolder (alpSeeds env projectFolder mergeBase
      changedFiles includeTypes includeCSS upstreamTaint taintedExternalDeps))
      (stripTSExtension ep.sourceFile) X = true := by
    unfold alpTaint
    exact bfsLoop_tLE env projectFolder _ _ _ _ _ _ _ _ hseedX
  have hTY : tHas (alpTaint env projectFolder (alpSeeds env projectFolder mergeBase
      changedFiles includeTypes includeCSS upstreamTaint taintedExternalDeps))
      (stripTSExtension ep.sourceFile) Y = true := by
    unfold alpTaint
    exact bfsLoop_tLE env projectFolder _ _ _ _ _ _ _ _ hseedY
  obtain ⟨ae, hae, hpath, hX, hY⟩ := projectEntrypoint_estab env projectFolder
    includeTypes taintedExternalDeps (fileAnalysesOf env projectFolder)
    (alpTaint env projectFolder (alpSeeds env projectFolder mergeBase changedFiles
      includeTypes includeCSS upstreamTaint taintedExternalDeps)) ep A X Y hfile
    hXexp hYexp hTX hTY hXs hYs
  unfold AnalyzeLibraryPackage
  dsimp only
  rw [isEmpty_false_of_tHas hseedX]
  simp only [Bool.false_eq_true, if_false]
  refine ⟨ae, ?_, hpath, hX, hY⟩
  exact epFold_mem (projectEntrypoint env projectFolder includeTypes taintedExternalDeps
    (fileAnalysesOf env projectFolder)
    (alpTaint env projectFolder (alpSeeds env projectFolder mergeBase changedFiles
      includeTypes includeCSS upstreamTaint taintedExternalDeps))) entrypoints ep ae
    hep hae []

theorem epFold_inv (f : Entrypoint → Option AffectedExport) (l : List Entrypoint) :
    ∀ (acc : List AffectedExport) (ae : AffectedExport),
      ae ∈ l.foldl (fun res e => match f e with | some a => res ++ [a] | none => res) acc →
      ae ∈ acc ∨ ∃ e ∈ l, f e = some ae := by
  induction l with
  | nil => intro acc ae h; exact Or.inl h
  | cons e rest ih =>
    intro acc ae h
    rw [List.foldl_cons] at h
    cases hf : f e with
    | none =>
      rw [hf] at h
      rcases ih acc ae h with h2 | ⟨e2, he2, hfe2⟩
      · exact Or.inl h2
      · exact Or.inr ⟨e2, by simp [he2], hfe2⟩
    | some a =>
      rw [hf] at h
      rcases ih _ ae h with h2 | ⟨e2, he2, hfe2⟩
      · rcases List.mem_append.mp h2 with h3 | h3
        · exact Or.inl h3
        · rw [List.mem_singleton] at h3
          subst h3
          exact Or.inr ⟨e, by simp, hf⟩
      · exact Or.inr ⟨e2, by simp [he2], hfe2⟩

theorem projectEntrypoint_shape (env : FsEnv) (pf : String) (it : Bool) (ted : NameSet)
    (fa : CMap FileAnalysis) (tainted : Taint) (ep : Entrypoint) (ae : AffectedExport)
    (h : projectEntrypoint env pf it ted fa tainted ep = some ae) :
    ∃ ns, ae.exportNames = dedupNames ns := by
  unfold projectEntrypoint at h
  cases hget : cmGet fa (stripTSExtension ep.sourceFile) with
  | none => simp [hget] at h
  | some epAnalysis =>
    simp only [hget] at h
    split at h
    · cases h
    · exact ⟨_, congrArg AffectedExport.exportNames (Option.some_inj.mp h).symm⟩

theorem alp_exportNames_shape (env : FsEnv) (pf : String)
    (entrypoints : List Entrypoint) (mb : String) (changedFiles : List String)
    (it ics : Bool) (ut : CMap NameSet) (ted : NameSet) (ae : AffectedExport)
    (h : ae ∈ AnalyzeLibraryPackage env pf entrypoints mb changedFiles it ics ut ted) :
    "*" ∉ ae.exportNames ∧ ae.exportNames.Nodup := by
  unfold AnalyzeLibraryPackage at h
  dsimp only at h
  split at h
  · cases h
  · rcases epFold_inv _ entrypoints [] ae h with h2 | ⟨e, _, hfe⟩
    · cases h2
    · obtain ⟨ns, hns⟩ := projectEntrypoint_shape env pf it ted _ _ e ae hfe
      rw [hns]
      exact ⟨star_not_mem_dedupNames ns, nodup_dedupNames ns⟩

theorem alp_empty_of_no_seed (env : FsEnv) (pf : String)
    (entrypoints : List Entrypoint) (mb : String) (changedFiles : List String)
    (it ics : Bool)
    (hch : ∀ f ∈ changedFiles, goHasPrefix f (pf ++ "/") = false) :
    AnalyzeLibraryPackage env pf entrypoints mb changedFiles it ics [] [] = [] := by
  have hpcf : projectChangedFilesOf pf changedFiles = [] := by
    unfold projectChangedFilesOf
    rw [List.filter_eq_nil_iff]
    intro f hf
    simp [hch f hf]
  have hseeds : alpSeeds env pf mb changedFiles it ics [] [] = [] := by
    unfold alpSeeds
    rw [hpcf]
    rfl
  unfold AnalyzeLibraryPackage
  rw [hseeds]
  rfl



/-- C1 counterexample: the claim fails as stated.  The upstream-taint map
records affected exports `X`, `Y` for the workspace library `U`; the
downstream entrypoint consists solely of `export * from "U"`; yet
`AnalyzeLibraryPackage` returns the empty list — the upstream seeding
scans only imports, and for non-relative re-export sources the
entrypoint projection consults only `taintedExternalDeps`, never the
upstream-taint map, so `X` and `Y` are not included. -/
theorem C1_counterexample :
    ({ name := "*", localName := "*", source := "U", isTypeOnly := false,
       isStar := true } : TsExport) ∈ C1entry.exports ∧
    cmGet C1upstream "U" = some ["X", "Y"] ∧
    AnalyzeLibraryPackage C1env "libs/d" [⟨".", "src/index.ts"⟩] "base" []
      false false C1upstream [] = [] :=
  ⟨by decide, by decide, by decide⟩

/-- C1 amended witness: a package whose entrypoint imports `X`, `Y` from
the tainted upstream `U` and locally re-exports them reports both names
affected. -/
theorem C1_amended_witness :
    ∃ ae ∈ AnalyzeLibraryPackage C1wEnv "libs/d" [⟨".", "src/index.ts"⟩] "base" []
        false false [("U", ["X", "Y"])] [],
      ae.entrypointPath = (⟨".", "src/index.ts"⟩ : Entrypoint).exportPath ∧
      "X" ∈ ae.exportNames ∧ "Y" ∈ ae.exportNames :=
  C1_import_reexport_transparency C1wEnv "libs/d" "base" [⟨".", "src/index.ts"⟩] []
    false false [("U", ["X", "Y"])] [] ⟨".", "src/index.ts"⟩ C1wEntry "U" "X" "Y"
    ["X", "Y"] ["X", "Y"] (by decide) (by decide) (by decide) (by decide) (by decide)
    (by decide) (by decide) (by decide) (by decide) (by decide) (by decide) (by decide)
    (by decide) (by decide) (by decide)

/-- C10 counterexample: the claim fails as stated.  In the concrete
package whose entrypoint star re-exports `./a`, and where `src/a.ts`
star re-exports the tainted external dependency `dep`, only the `"*"`
sentinel reaches the entrypoint, and `AnalyzeLibraryPackage` returns an
`AffectedExport` whose `ExportNames` list is empty. -/
theorem C10_counterexample :
    AnalyzeLibraryPackage C10env "libs/d" [⟨".", "src/index.ts"⟩] "base" []
      false false [] ["dep"] =
    [{ entrypointPath := ".", exportNames := [] }] := by decide

/-- C10 (amended): every `AffectedExport` returned by
`AnalyzeLibraryPackage` has an `ExportNames` list that contains no
duplicates and never contains the internal `"*"` sentinel (but the list
can be empty, when only the sentinel reached the entrypoint); and when no
taint at all is seeded — no changed file lies in the project, the
upstream-taint map is empty and no external dep is tainted — the
returned list is empty. -/
theorem C10_output_shape_amended (env : FsEnv) (pf : String)
    (entrypoints : List Entrypoint) (mb : String) (changedFiles : List String)
    (it ics : Bool) (ut : CMap NameSet) (ted : NameSet) :
    (∀ ae ∈ AnalyzeLibraryPackage env pf entrypoints mb changedFiles it ics ut ted,
      "*" ∉ ae.exportNames ∧ ae.exportNames.Nodup) ∧
    ((∀ f ∈ changedFiles, goHasPrefix f (pf ++ "/") = false) →
      AnalyzeLibraryPackage env pf entrypoints mb changedFiles it ics [] [] = []) :=
  ⟨fun ae hae => alp_exportNames_shape env pf entrypoints mb changedFiles it ics ut ted
      ae hae,
   fun hch => alp_empty_of_no_seed env pf entrypoints mb changedFiles it ics hch⟩

/-- C10 amended witness: at the C10 counterexample package the returned
entry has no `"*"` and no duplicates, and with no seeds the result is
empty. -/
theorem C10_amended_witness :
    ("*" ∉ ({ entrypointPath := ".", exportNames := [] } : AffectedExport).exportNames ∧
      ({ entrypointPath := ".", exportNames := [] } : AffectedExport).exportNames.Nodup) ∧
    AnalyzeLibraryPackage C10env "libs/d" [⟨".", "src/index.ts"⟩] "base" ["other/x.ts"]
      false false [] [] = [] :=
  ⟨(C10_output_shape_amended C10env "libs/d" [⟨".", "src/index.ts"⟩] "base" []
      false false [] ["dep"]).1 _ (by decide),
   (C10_output_shape_amended C10env "libs/d" [⟨".", "src/index.ts"⟩] "base"
      ["other/x.ts"] false false [] []).2 (by decide)⟩

end GoodChanges

namespace GoodChanges

lemma cmGetD_cmAddInt_self (k : String) (v : Int) (d : CMap Int) :
    cmGetD (cmAddInt k v d) k 0 = cmGetD d k 0 + v := by
  simp [cmAddInt, cmGetD, cmGet_cmUpd_self]

lemma cmGetD_cmAddInt_ne (k p : String) (v : Int) (d : CMap Int) (h : p ≠ k) :
    cmGetD (cmAddInt k v d) p 0 = cmGetD d p 0 := by
  simp [cmAddInt, cmGetD, cmGet_cmUpd_ne k p _ d h]

/-- The decrement fold over `revDepsOf` subtracts, at an entry `p` still
remaining, one per occurrence of `p` in the list. -/
lemma decFold_spec (rem : List String) :
    ∀ (l : List String) (d : CMap Int) (p : String), p ∈ rem →
      cmGetD (l.foldl
        (fun d dependent =>
          if rem.contains dependent then cmAddInt dependent (-1) d else d) d) p 0
        = cmGetD d p 0 - (l.count p : Int) := by
  intro l
  induction l with
  | nil => intro d p _; simp
  | cons q rest ih =>
    intro d p hp
    by_cases hqp : q = p
    · subst hqp
      rw [List.foldl_cons, if_pos ((contains_iff rem q).mpr hp)]
      rw [ih _ q hp, cmGetD_cmAddInt_self]
      rw [List.count_cons_self]
      push_cast
      ring
    · have hcnt : (q :: rest).count p = rest.count p := by
        rw [List.count_cons_of_ne (fun h => hqp h.symm)]
      rw [List.foldl_cons, hcnt]
      by_cases hq : rem.contains q
      · rw [if_pos hq, ih _ p hp, cmGetD_cmAddInt_ne q p _ d (fun h => hqp h.symm)]
      · rw [if_neg hq, ih _ p hp]

end GoodChanges

namespace GoodChanges

/-- Every entry of the zero-initialisation is zero (also absent keys:
Go map access yields the zero value). -/
lemma zeroFold_spec : ∀ (l : List String) (d : CMap Int) (p : String),
    cmGetD (l.foldl (fun d p => cmUpd p (fun _ => 0) d) d) p 0
      = if p ∈ l then 0 else cmGetD d p 0 := by
  intro l
  induction l with
  | nil => intro d p; simp
  | cons q rest ih =>
    intro d p
    rw [List.foldl_cons, ih]
    by_cases hp : p ∈ rest
    · simp [hp]
    · by_cases hpq : p = q
      · subst hpq
        simp [hp, cmGetD, cmGet_cmUpd_self]
      · simp [hp, hpq, cmGetD, cmGet_cmUpd_ne q p _ d hpq]

/-- The increment fold for one package `r` adds, at entry `r`, the number
of its dependencies inside the set. -/
lemma incrFold_self (packages : List String) (r : String) :
    ∀ (l : List String) (d : CMap Int),
      cmGetD (l.foldl (fun d dep =>
          if packages.contains dep then cmAddInt r 1 d else d) d) r 0
        = cmGetD d r 0 + ((l.filter (fun dep => packages.contains dep)).length : Int) := by
  intro l
  induction l with
  | nil => intro d; simp
  | cons q rest ih =>
    intro d
    rw [List.foldl_cons]
    by_cases hq : packages.contains q
    · rw [if_pos hq, ih, cmGetD_cmAddInt_self, List.filter_cons_of_pos hq]
      simp only [List.length_cons]
      push_cast
      ring
    · rw [if_neg hq, ih, List.filter_cons_of_neg hq]

lemma incrFold_ne (packages : List String) (r p : String) (hne : p ≠ r) :
    ∀ (l : List String) (d : CMap Int),
      cmGetD (l.foldl (fun d dep =>
          if packages.contains dep then cmAddInt r 1 d else d) d) p 0
        = cmGetD d p 0 := by
  intro l
  induction l with
  | nil => intro d; rfl
  | cons q rest ih =>
    intro d
    rw [List.foldl_cons]
    by_cases hq : packages.contains q
    · rw [if_pos hq, ih, cmGetD_cmAddInt_ne r p _ d hne]
    · rw [if_neg hq, ih]

lemma incrOuterFold_ne (pm : CMap ProjInfo) (packages : List String) (p : String) :
    ∀ (l : List String) (d : CMap Int), p ∉ l →
      cmGetD (l.foldl (fun d r =>
          (depsOf pm r).foldl (fun d dep =>
            if packages.contains dep then cmAddInt r 1 d else d) d) d) p 0
        = cmGetD d p 0 := by
  intro l
  induction l with
  | nil => intro d _; rfl
  | cons r rest ih =>
    intro d hp
    rw [List.foldl_cons, ih _ (fun h => hp (List.mem_cons_of_mem r h))]
    exact incrFold_ne packages r p (fun h => hp (h ▸ List.mem_cons_self r rest)) _ d

/-- Initial in-degrees: the number of in-set dependencies (with
multiplicity). -/
lemma initInDegree_spec (pm : CMap ProjInfo) (packages : List String)
    (hnd : packages.Nodup) (p : String) (hp : p ∈ packages) :
    cmGetD (initInDegree pm packages) p 0 = countIn pm p packages := by
  obtain ⟨l1, l2, rfl⟩ := List.append_of_mem hp
  have hnotl1 : p ∉ l1 := by
    intro h
    exact (List.disjoint_of_nodup_append hnd h) (List.mem_cons_self p l2)
  have hnotl2 : p ∉ l2 := by
    have := (List.nodup_append.mp hnd).2.1
    exact (List.nodup_cons.mp this).1
  unfold initInDegree countIn
  rw [List.foldl_append, List.foldl_cons]
  rw [incrOuterFold_ne _ _ _ _ _ hnotl2]
  rw [incrFold_self]
  rw [incrOuterFold_ne _ _ _ _ _ hnotl1]
  rw [zeroFold_spec]
  simp [hp]

end GoodChanges

namespace GoodChanges

/-- Removing `q` from the remaining set drops exactly the occurrences of
`q` from the in-set dependency count. -/
lemma countIn_erase (pm : CMap ProjInfo) (p q : String) (rem : List String)
    (hq : q ∈ rem) :
    countIn pm p (rem.filter (fun x => x ≠ q))
      = countIn pm p rem - ((depsOf pm p).count q : Int) := by
  unfold countIn
  induction depsOf pm p with
  | nil => simp
  | cons d rest ih =>
    by_cases hdq : d = q
    · subst hdq
      have h1 : (rem.filter (fun x => x ≠ d)).contains d = false := by
        by_contra h
        have := (contains_iff _ _).mp (Bool.of_not_eq_false h)
        simp [List.mem_filter] at this
      have h2 : rem.contains d = true := (contains_iff rem d).mpr hq
      rw [List.filter_cons_of_neg (by simp [h1]), List.filter_cons_of_pos (by exact h2)]
      rw [List.count_cons_self]
      simp only [List.length_cons]
      push_cast at ih ⊢
      omega
    · have hmem : (rem.filter (fun x => x ≠ q)).contains d = rem.contains d := by
        by_cases hd : d ∈ rem
        · have : d ∈ rem.filter (fun x => x ≠ q) := by
            simp [List.mem_filter, hd, hdq]
          rw [(contains_iff _ _).mpr this, (contains_iff _ _).mpr hd]
        · have h2 : d ∉ rem.filter (fun x => x ≠ q) := by
            simp [List.mem_filter, hd]
          rw [Bool.eq_false_iff.mpr (fun h => h2 ((contains_iff _ _).mp h)),
              Bool.eq_false_iff.mpr (fun h => hd ((contains_iff _ _).mp h))]
      rw [List.count_cons_of_ne (fun h => hdq h.symm)]
      by_cases hd : rem.contains d = true
      · rw [List.filter_cons_of_pos (by rw [hmem]; exact hd),
            List.filter_cons_of_pos (by exact hd)]
        simp only [List.length_cons]
        push_cast at ih ⊢
        omega
      · rw [List.filter_cons_of_neg (by rw [hmem]; exact hd),
            List.filter_cons_of_neg hd]
        exact ih

end GoodChanges

namespace GoodChanges

/-- One `topoRemove` step: the removed package leaves the remaining set
and, under `DependsOn`/`DependedOnBy` count-consistency, every still
remaining package's stored in-degree again equals its in-set dependency
count. -/
lemma topoRemove_inv (pm : CMap ProjInfo) (packages : List String)
    (cons : ∀ p ∈ packages, ∀ q ∈ packages,
      List.count q (depsOf pm p) = List.count p (revDepsOf pm q))
    (st : List String × CMap Int) (q : String)
    (hq : q ∈ st.1) (hsub : ∀ x ∈ st.1, x ∈ packages)
    (hinv : ∀ p ∈ st.1, cmGetD st.2 p 0 = countIn pm p st.1) :
    (topoRemove pm st q).1 = st.1.filter (fun x => x ≠ q) ∧
    ∀ p ∈ (topoRemove pm st q).1,
      cmGetD (topoRemove pm st q).2 p 0 = countIn pm p (topoRemove pm st q).1 := by
  refine ⟨rfl, ?_⟩
  intro p hp
  have hprem : p ∈ st.1 ∧ p ≠ q := by
    simpa [topoRemove, List.mem_filter] using hp
  have hp' : p ∈ st.1.filter (fun x => x ≠ q) := by
    simpa [topoRemove] using hp
  show cmGetD ((revDepsOf pm q).foldl _ st.2) p 0 = _
  rw [decFold_spec (st.1.filter (fun x => x ≠ q)) (revDepsOf pm q) st.2 p hp']
  rw [hinv p hprem.1]
  have hc := cons p (hsub p hprem.1) q (hsub q hq)
  have he := countIn_erase pm p q st.1 hq
  show _ = countIn pm p (st.1.filter (fun x => x ≠ q))
  rw [he, hc]

end GoodChanges

namespace GoodChanges

/-- Processing a level removes exactly its members from the remaining
set. -/
lemma topoRemoveFold_fst (pm : CMap ProjInfo) :
    ∀ (lvl : List String) (st : List String × CMap Int),
      (lvl.foldl (topoRemove pm) st).1
        = st.1.filter (fun x => !(lvl.contains x)) := by
  intro lvl
  induction lvl with
  | nil =>
    intro st
    simp
  | cons q rest ih =>
    intro st
    rw [List.foldl_cons, ih]
    have hfst : (topoRemove pm st q).1 = st.1.filter (fun x => x ≠ q) := rfl
    rw [hfst, List.filter_filter]
    apply List.filter_congr
    intro x _
    by_cases hxq : x = q
    · simp [hxq]
    · simp [hxq]

/-- Processing a level preserves the in-degree bookkeeping invariant. -/
lemma topoRemoveFold_inv (pm : CMap ProjInfo) (packages : List String)
    (cons : ∀ p ∈ packages, ∀ q ∈ packages,
      List.count q (depsOf pm p) = List.count p (revDepsOf pm q)) :
    ∀ (lvl : List String) (st : List String × CMap Int),
      st.1.Nodup → (∀ x ∈ st.1, x ∈ packages) → (∀ x ∈ lvl, x ∈ st.1) →
      lvl.Nodup →
      (∀ p ∈ st.1, cmGetD st.2 p 0 = countIn pm p st.1) →
      ∀ p ∈ (lvl.foldl (topoRemove pm) st).1,
        cmGetD (lvl.foldl (topoRemove pm) st).2 p 0
          = countIn pm p (lvl.foldl (topoRemove pm) st).1 := by
  intro lvl
  induction lvl with
  | nil =>
    intro st _ _ _ _ hinv
    exact hinv
  | cons q rest ih =>
    intro st hnd hsub hlv hlnd hinv
    rw [List.foldl_cons]
    obtain ⟨hfst, hinv'⟩ :=
      topoRemove_inv pm packages cons st q (hlv q (List.mem_cons_self q rest)) hsub hinv
    have hqrest : q ∉ rest := (List.nodup_cons.mp hlnd).1
    apply ih (topoRemove pm st q)
    · rw [hfst]; exact hnd.filter _
    · intro x hx
      rw [hfst] at hx
      exact hsub x (List.mem_of_mem_filter hx)
    · intro x hx
      rw [hfst]
      refine List.mem_filter.mpr ⟨hlv x (List.mem_cons_of_mem q hx), ?_⟩
      simp only [decide_eq_true_eq]
      intro hxq
      exact hqrest (hxq ▸ hx)
    · exact (List.nodup_cons.mp hlnd).2
    · exact hinv'

end GoodChanges

namespace GoodChanges

lemma length_filter_lt (p : String → Bool) :
    ∀ (l : List String) (x : String), x ∈ l → p x = false →
      (l.filter p).length < l.length := by
  intro l
  induction l with
  | nil => intro x hx; cases hx
  | cons a as ih =>
    intro x hx hpx
    rcases List.mem_cons.mp hx with rfl | hx'
    · rw [List.filter_cons_of_neg (by simp [hpx])]
      simp only [List.length_cons]
      exact Nat.lt_succ_of_le (List.length_filter_le p as)
    · by_cases hpa : p a = true
      · rw [List.filter_cons_of_pos hpa]
        simpa using ih x hx' hpx
      · rw [List.filter_cons_of_neg hpa]
        exact Nat.lt_succ_of_lt (ih x hx' hpx)

lemma topoLevel_sub (remaining : List String) (inDegree : CMap Int) :
    ∀ x ∈ topoLevel remaining inDegree, x ∈ remaining := by
  intro x hx
  unfold topoLevel at hx
  dsimp only at hx
  split at hx
  · exact hx
  · exact List.mem_of_mem_filter hx

lemma topoLevel_nodup (remaining : List String) (inDegree : CMap Int)
    (h : remaining.Nodup) : (topoLevel remaining inDegree).Nodup := by
  unfold topoLevel
  dsimp only
  split
  · exact h
  · exact h.filter _

lemma topoLevel_ne_nil (remaining : List String) (inDegree : CMap Int)
    (h : remaining ≠ []) : topoLevel remaining inDegree ≠ [] := by
  unfold topoLevel
  dsimp only
  split
  · exact h
  · intro hc
    simp_all [List.isEmpty_iff]

/-- A level is permutation-equivalent to the part of the remaining set it
filters out. -/
lemma level_append_perm (level remaining : List String)
    (hnd : remaining.Nodup) (hlnd : level.Nodup)
    (hsub : ∀ x ∈ level, x ∈ remaining) :
    (level ++ remaining.filter (fun x => !(level.contains x))).Perm remaining := by
  have h1 : (remaining.filter (fun x => level.contains x)).Perm level := by
    apply List.perm_of_nodup_nodup_toFinset_eq (hnd.filter _) hlnd
    ext a
    simp only [List.mem_toFinset, List.mem_filter]
    constructor
    · intro ⟨_, h⟩
      exact (contains_iff _ _).mp h
    · intro h
      exact ⟨hsub a h, (contains_iff _ _).mpr h⟩
  have h2 := List.filter_append_perm (fun x => level.contains x) remaining
  exact (h1.symm.append_right _).trans h2

end GoodChanges

namespace GoodChanges

/-- A nonempty finite set in which every element has a successor inside
the set contains an element lying on a cycle. -/
lemma exists_cycle_of_forall_succ {R : String → String → Prop} :
    ∀ (n : Nat) (l : List String), l.length ≤ n →
      (∀ x ∈ l, ∃ y ∈ l, R x y) → l ≠ [] →
      ∃ x ∈ l, Relation.TransGen R x x := by
  intro n
  induction n with
  | zero =>
    intro l hl _ hne
    cases l with
    | nil => exact absurd rfl hne
    | cons a as => simp at hl
  | succ n ih =>
    intro l hl hsucc hne
    obtain ⟨x0, hx0⟩ : ∃ x, x ∈ l := by
      cases l with
      | nil => exact absurd rfl hne
      | cons a as => exact ⟨a, List.mem_cons_self a as⟩
    obtain ⟨y0, hy0l, hy0R⟩ := hsucc x0 hx0
    by_cases hx0r : Relation.TransGen R x0 x0
    · exact ⟨x0, hx0, hx0r⟩
    · classical
      have hmem : ∀ z, z ∈ l.filter (fun z => decide (Relation.TransGen R x0 z))
          ↔ z ∈ l ∧ Relation.TransGen R x0 z := by
        intro z
        simp [List.mem_filter]
      have hy0' : y0 ∈ l.filter (fun z => decide (Relation.TransGen R x0 z)) :=
        (hmem y0).mpr ⟨hy0l, Relation.TransGen.single hy0R⟩
      have hx0' : decide (Relation.TransGen R x0 x0) = false := by
        simp [hx0r]
      have hlen : (l.filter (fun z => decide (Relation.TransGen R x0 z))).length ≤ n := by
        have := length_filter_lt (fun z => decide (Relation.TransGen R x0 z)) l x0 hx0 hx0'
        omega
      have hsucc' : ∀ x ∈ l.filter (fun z => decide (Relation.TransGen R x0 z)),
          ∃ y ∈ l.filter (fun z => decide (Relation.TransGen R x0 z)), R x y := by
        intro x hx
        obtain ⟨hxl, hxr⟩ := (hmem x).mp hx
        obtain ⟨y, hyl, hyR⟩ := hsucc x hxl
        exact ⟨y, (hmem y).mpr ⟨hyl, hxr.tail hyR⟩, hyR⟩
      obtain ⟨x, hx, hcyc⟩ := ih _ hlen hsucc'
        (by intro h; rw [h] at hy0'; cases hy0')
      exact ⟨x, ((hmem x).mp hx).1, hcyc⟩

end GoodChanges

namespace GoodChanges

/-- The level loop always terminates within `|remaining|` rounds and emits
nonempty levels that together are a permutation of the remaining set. -/
lemma topoLoop_perm (pm : CMap ProjInfo) :
    ∀ (fuel : Nat) (remaining : List String) (inDegree : CMap Int)
      (levels : List (List String)),
      remaining.Nodup → remaining.length ≤ fuel →
      ∃ extra, topoLoop pm fuel remaining inDegree levels = levels ++ extra ∧
        extra.flatten.Perm remaining ∧ ∀ lvl ∈ extra, lvl ≠ [] := by
  intro fuel
  induction fuel with
  | zero =>
    intro remaining inDegree levels hnd hlen
    have hnil : remaining = [] := List.eq_nil_of_length_eq_zero (Nat.le_zero.mp hlen)
    subst hnil
    exact ⟨[], by simp [topoLoop], by simp, by simp⟩
  | succ fuel ih =>
    intro remaining inDegree levels hnd hlen
    by_cases hemp : remaining.isEmpty = true
    · have hnil : remaining = [] := List.isEmpty_iff.mp hemp
      subst hnil
      exact ⟨[], by simp [topoLoop], by simp, by simp⟩
    · have hne : remaining ≠ [] := fun h => hemp (by simp [h])
      have hstep : topoLoop pm (fuel + 1) remaining inDegree levels
          = topoLoop pm fuel
              ((topoLevel remaining inDegree).foldl (topoRemove pm)
                (remaining, inDegree)).1
              ((topoLevel remaining inDegree).foldl (topoRemove pm)
                (remaining, inDegree)).2
              (levels ++ [topoLevel remaining inDegree]) := by
        rw [topoLoop]
        rw [if_neg hemp]
      have hfst : ((topoLevel remaining inDegree).foldl (topoRemove pm)
            (remaining, inDegree)).1
          = remaining.filter
              (fun x => !((topoLevel remaining inDegree).contains x)) :=
        topoRemoveFold_fst pm _ _
      have hnd' : (((topoLevel remaining inDegree).foldl (topoRemove pm)
            (remaining, inDegree)).1).Nodup := by
        rw [hfst]; exact hnd.filter _
      have hlt : (((topoLevel remaining inDegree).foldl (topoRemove pm)
            (remaining, inDegree)).1).length < remaining.length := by
        rw [hfst]
        obtain ⟨x, hx⟩ : ∃ x, x ∈ topoLevel remaining inDegree := by
          cases hl : topoLevel remaining inDegree with
          | nil => exact absurd hl (topoLevel_ne_nil remaining inDegree hne)
          | cons a as => exact ⟨a, hl ▸ List.mem_cons_self a as⟩
        apply length_filter_lt _ _ x (topoLevel_sub remaining inDegree x hx)
        simpa using hx
      obtain ⟨extra, heq, hperm, hnonnil⟩ := ih _
        (((topoLevel remaining inDegree).foldl (topoRemove pm)
          (remaining, inDegree)).2)
        (levels ++ [topoLevel remaining inDegree]) hnd' (by omega)
      refine ⟨topoLevel remaining inDegree :: extra, ?_, ?_, ?_⟩
      · rw [hstep, heq, List.append_assoc]
        rfl
      · rw [List.flatten_cons]
        have h1 : (topoLevel remaining inDegree ++ extra.flatten).Perm
            (topoLevel remaining inDegree
              ++ remaining.filter
                  (fun x => !((topoLevel remaining inDegree).contains x))) :=
          (hperm.trans (hfst ▸ List.Perm.refl _)).append_left _
        exact h1.trans (level_append_perm _ _ hnd
          (topoLevel_nodup remaining inDegree hnd)
          (topoLevel_sub remaining inDegree))
      · intro lvl hlvl
        rcases List.mem_cons.mp hlvl with rfl | h
        · exact topoLevel_ne_nil remaining inDegree hne
        · exact hnonnil lvl h

end GoodChanges

namespace GoodChanges

lemma levelsOk_append (pm : CMap ProjInfo) (packages : List String)
    (levels : List (List String)) (lvl : List String)
    (h : levelsOk pm packages levels)
    (hl : ∀ p ∈ lvl, ∀ dep ∈ depsOf pm p, dep ∈ packages → dep ∈ levels.flatten) :
    levelsOk pm packages (levels ++ [lvl]) := by
  intro pre l post heq
  rcases List.eq_nil_or_concat post with rfl | ⟨post', x, rfl⟩
  · have hlen : levels.length = pre.length := by
      have hcl := congrArg List.length heq
      simp at hcl
      omega
    obtain ⟨h1, h2⟩ := List.append_inj heq hlen
    have hls : lvl = l := by simpa using h2
    intro p hp dep hdep hdepk
    rw [← h1]
    exact hl p (hls ▸ hp) dep hdep hdepk
  · have heq2 : levels ++ [lvl] = (pre ++ l :: post') ++ [x] := by
      simpa using heq
    have hlen : levels.length = (pre ++ l :: post').length := by
      have hcl := congrArg List.length heq2
      simp at hcl
      simp
      omega
    obtain ⟨h1, _⟩ := List.append_inj heq2 hlen
    exact h pre l post' h1

end GoodChanges

namespace GoodChanges

/-- Under count-consistent dependency bookkeeping and an acyclic in-set
dependency relation, every emitted level's in-set dependencies lie in
strictly earlier levels. -/
lemma topoLoop_sorted (pm : CMap ProjInfo) (packages : List String)
    (cons : ∀ p ∈ packages, ∀ q ∈ packages,
      List.count q (depsOf pm p) = List.count p (revDepsOf pm q))
    (acyc : ∀ p ∈ packages, ¬ Relation.TransGen (depRel pm packages) p p) :
    ∀ (fuel : Nat) (remaining : List String) (inDegree : CMap Int)
      (levels : List (List String)),
      remaining.Nodup → (∀ x ∈ remaining, x ∈ packages) →
      remaining.length ≤ fuel →
      (∀ p ∈ remaining, cmGetD inDegree p 0 = countIn pm p remaining) →
      (∀ dep ∈ packages, dep ∉ remaining → dep ∈ levels.flatten) →
      levelsOk pm packages levels →
      levelsOk pm packages (topoLoop pm fuel remaining inDegree levels) := by
  intro fuel
  induction fuel with
  | zero =>
    intro remaining inDegree levels hnd hsub hlen hinv hcov hok
    have hnil : remaining = [] := List.eq_nil_of_length_eq_zero (Nat.le_zero.mp hlen)
    subst hnil
    simpa [topoLoop] using hok
  | succ fuel ih =>
    intro remaining inDegree levels hnd hsub hlen hinv hcov hok
    by_cases hemp : remaining.isEmpty = true
    · have hnil : remaining = [] := List.isEmpty_iff.mp hemp
      subst hnil
      have hstep : topoLoop pm (fuel + 1) [] inDegree levels = levels := by
        simp [topoLoop]
      rw [hstep]
      exact hok
    · have hne : remaining ≠ [] := fun h => hemp (by simp [h])
      have hflush : (remaining.filter (fun p => cmGetD inDegree p 0 == 0)).isEmpty ≠ true := by
        intro h
        have hEmpty : remaining.filter (fun p => cmGetD inDegree p 0 == 0) = [] :=
          List.isEmpty_iff.mp h
        have hall : ∀ p ∈ remaining, ¬ (cmGetD inDegree p 0 = 0) := by
          intro p hp hdeg
          have hmem : p ∈ remaining.filter (fun p => cmGetD inDegree p 0 == 0) :=
            List.mem_filter.mpr ⟨hp, by simp [hdeg]⟩
          rw [hEmpty] at hmem
          cases hmem
        have hsuccs : ∀ x ∈ remaining, ∃ y ∈ remaining, depRel pm packages x y := by
          intro x hx
          have hcnt : countIn pm x remaining ≠ 0 :=
            fun h0 => hall x hx (by rw [hinv x hx, h0])
          have hfne : (depsOf pm x).filter (fun dep => remaining.contains dep) ≠ [] := by
            intro hnil
            apply hcnt
            unfold countIn
            rw [hnil]
            rfl
          obtain ⟨y, hy⟩ := List.exists_mem_of_ne_nil _ hfne
          have hy' := List.mem_filter.mp hy
          have hyrem : y ∈ remaining := (contains_iff _ _).mp hy'.2
          exact ⟨y, hyrem, hsub x hx, hsub y hyrem, hy'.1⟩
        obtain ⟨x, hx, hcyc⟩ :=
          exists_cycle_of_forall_succ remaining.length remaining le_rfl hsuccs hne
        exact acyc x (hsub x hx) hcyc
      have hlev : topoLevel remaining inDegree
          = remaining.filter (fun p => cmGetD inDegree p 0 == 0) := by
        unfold topoLevel
        dsimp only
        rw [if_neg hflush]
      have hstep : topoLoop pm (fuel + 1) remaining inDegree levels
          = topoLoop pm fuel
              ((topoLevel remaining inDegree).foldl (topoRemove pm)
                (remaining, inDegree)).1
              ((topoLevel remaining inDegree).foldl (topoRemove pm)
                (remaining, inDegree)).2
              (levels ++ [topoLevel remaining inDegree]) := by
        rw [topoLoop]
        rw [if_neg hemp]
      rw [hstep]
      have hlsub : ∀ x ∈ topoLevel remaining inDegree, x ∈ remaining :=
        topoLevel_sub _ _
      have hlnd := topoLevel_nodup remaining inDegree hnd
      have hfst := topoRemoveFold_fst pm (topoLevel remaining inDegree)
        (remaining, inDegree)
      have hinv' := topoRemoveFold_inv pm packages cons
        (topoLevel remaining inDegree) (remaining, inDegree) hnd hsub hlsub hlnd hinv
      apply ih
      · rw [hfst]
        exact hnd.filter _
      · intro x hx
        rw [hfst] at hx
        exact hsub x (List.mem_of_mem_filter hx)
      · rw [hfst]
        dsimp only
        obtain ⟨x, hx⟩ : ∃ x, x ∈ topoLevel remaining inDegree := by
          cases hl : topoLevel remaining inDegree with
          | nil => exact absurd hl (topoLevel_ne_nil remaining inDegree hne)
          | cons a as => exact ⟨a, hl ▸ List.mem_cons_self a as⟩
        have hstrict := length_filter_lt
          (fun x => !((topoLevel remaining inDegree).contains x)) remaining x
          (hlsub x hx) (by simpa using hx)
        omega
      · exact hinv'
      · intro dep hdepk hdep
        rw [hfst] at hdep
        rw [List.flatten_append]
        by_cases hdrem : dep ∈ remaining
        · have hdlvl : dep ∈ topoLevel remaining inDegree := by
            by_contra hno
            apply hdep
            refine List.mem_filter.mpr ⟨hdrem, ?_⟩
            simp only [Bool.not_eq_true']
            exact Bool.eq_false_iff.mpr (fun h => hno ((contains_iff _ _).mp h))
          simp [hdlvl]
        · have hjoin := hcov dep hdepk hdrem
          simp [hjoin]
      · apply levelsOk_append pm packages levels _ hok
        intro p hp dep hdep hdepk
        rw [hlev] at hp
        have hp' := List.mem_filter.mp hp
        have hdeg : cmGetD inDegree p 0 = 0 := by simpa using hp'.2
        have hcnt : countIn pm p remaining = 0 := by
          rw [← hinv p hp'.1, hdeg]
        have hdepnot : dep ∉ remaining := by
          intro hmem
          have hmf : dep ∈ (depsOf pm p).filter (fun d => remaining.contains d) :=
            List.mem_filter.mpr ⟨hdep, (contains_iff _ _).mpr hmem⟩
          have hlen0 : ((depsOf pm p).filter (fun d => remaining.contains d)).length = 0 := by
            unfold countIn at hcnt
            exact_mod_cast hcnt
          rw [List.eq_nil_of_length_eq_zero hlen0] at hmf
          cases hmf
        exact hcov dep hdepk hdepnot

end GoodChanges

namespace GoodChanges

/-- C7: `TopologicalSort` partitions the affected package set into
levels.  Unconditionally (for any project map and duplicate-free package
list) the emitted levels are nonempty and their concatenation is a
permutation of the package set, so every package appears in exactly one
level and the loop always terminates — when no zero in-degree package
remains, the whole remainder is flushed as one level.  When
`DependsOn`/`DependedOnBy` are count-consistent (as `BuildProjectMap`
guarantees) and the dependency relation restricted to the set is
acyclic, every package's in-set dependencies lie in strictly earlier
levels. -/
theorem C7_topological_levels (pm : CMap ProjInfo) (packages : List String)
    (hnd : packages.Nodup) :
    (TopologicalSort pm packages).flatten.Perm packages ∧
    (∀ lvl ∈ TopologicalSort pm packages, lvl ≠ []) ∧
    ((∀ p ∈ packages, ∀ q ∈ packages,
        List.count q (depsOf pm p) = List.count p (revDepsOf pm q)) →
      (∀ p ∈ packages, ¬ Relation.TransGen (depRel pm packages) p p) →
      ∀ pre lvl post, TopologicalSort pm packages = pre ++ lvl :: post →
        ∀ p ∈ lvl, ∀ dep ∈ depsOf pm p, dep ∈ packages → dep ∈ pre.flatten) := by
  obtain ⟨extra, heq, hp, hnn⟩ := topoLoop_perm pm packages.length packages
    (initInDegree pm packages) [] hnd le_rfl
  refine ⟨?_, ?_, ?_⟩
  · unfold TopologicalSort
    rw [heq]
    simpa using hp
  · unfold TopologicalSort
    rw [heq]
    intro lvl hl
    exact hnn lvl (by simpa using hl)
  · intro cons acyc
    have := topoLoop_sorted pm packages cons acyc packages.length packages
      (initInDegree pm packages) [] hnd (fun x hx => hx) le_rfl
      (fun p hp => initInDegree_spec pm packages hnd p hp)
      (fun dep hdep hnin => absurd hdep hnin)
      (by intro pre lvl post h; simp at h)
    exact this

/-- Witness for C7 on a concrete two-package workspace where `b`
depends on `a`: the result is `[["a"], ["b"]]`, a permutation partition,
and the dependency `a` of the level-1 package `b` sits in level 0. -/
theorem C7_witness :
    ([["a"], ["b"]] : List (List String)).flatten.Perm C7pkgs ∧
    ("a" : String) ∈ ([["a"]] : List (List String)).flatten := by
  have hacyc : ∀ p ∈ C7pkgs, ¬ Relation.TransGen (depRel C7pm C7pkgs) p p := by
    intro p _ hcyc
    obtain ⟨c, hfirst, -⟩ := (Relation.TransGen.head'_iff).mp hcyc
    obtain ⟨c', -, hlast⟩ := (Relation.TransGen.tail'_iff).mp hcyc
    obtain ⟨hp1, -, hdep1⟩ := hfirst
    obtain ⟨hc1, hp2, hdep2⟩ := hlast
    have hpb : p = "b" := by
      rcases List.mem_cons.mp hp1 with rfl | hmm
      · have hda : depsOf C7pm "a" = [] := by decide
        rw [hda] at hdep1
        cases hdep1
      · rcases List.mem_cons.mp hmm with rfl | hmm2
        · rfl
        · cases hmm2
    have hpa : p = "a" := by
      rcases List.mem_cons.mp hc1 with rfl | hmm
      · have hda : depsOf C7pm "a" = [] := by decide
        rw [hda] at hdep2
        cases hdep2
      · rcases List.mem_cons.mp hmm with rfl | hmm2
        · have hdb : depsOf C7pm "b" = ["a"] := by decide
          rw [hdb] at hdep2
          rcases List.mem_cons.mp hdep2 with rfl | hmm3
          · rfl
          · cases hmm3
        · cases hmm2
    rw [hpa] at hpb
    exact absurd hpb (by decide)
  have h := C7_topological_levels C7pm C7pkgs (by decide)
  constructor
  · have hts : TopologicalSort C7pm C7pkgs = [["a"], ["b"]] := by decide
    rw [← hts]
    exact h.1
  · exact h.2.2 (by decide) hacyc [["a"]] ["b"] [] (by decide) "b" (by decide)
      "a" (by decide) (by decide)

end GoodChanges


namespace GoodChanges

/-- C8: already-merged merge-base.  With COMPARE_COMMIT unset, the
comparison commit is `MergeBase` of HEAD and the comparison branch; and
when that plain merge-base equals HEAD (HEAD an ancestor of the branch)
and the first-parent ancestry walk succeeds, the result is the
merge-base of HEAD with the first parent of the first merge commit on
that path; when the plain merge-base differs from HEAD it is used
as-is. -/
theorem C8_already_merged_merge_base (env : GitEnv) (cb base head : String)
    (hmb : env.mergeBase "HEAD" (if cb = "" then "origin/master" else cb)
      = some base)
    (hhead : env.revParseHEAD = some head) :
    (resolveCompareCommit "" cb env
      = MergeBase env (if cb = "" then "origin/master" else cb)) ∧
    (base ≠ head → resolveCompareCommit "" cb env = some base) ∧
    (∀ mlist fp rb, base = head →
      env.ancestryMergeLog head (if cb = "" then "origin/master" else cb)
        = some mlist →
      mlist ≠ "" →
      env.revParseFirstParent (firstLine mlist) = some fp →
      env.mergeBase head fp = some rb →
      resolveCompareCommit "" cb env = some rb) := by
  refine ⟨by simp [resolveCompareCommit], ?_, ?_⟩
  · intro hne
    unfold resolveCompareCommit MergeBase
    rw [hmb, hhead]
    simp [hne]
  · intro mlist fp rb heq hlog hne hfp hrb
    subst heq
    unfold resolveCompareCommit MergeBase
    rw [hmb, hhead]
    simp [hlog, hne, hfp, hrb]

/-- Witness for C8: in the concrete history `C8env` the resolved
comparison commit is the merge-base `rb` of HEAD with the first merge's
first parent, not HEAD itself. -/
theorem C8_witness : resolveCompareCommit "" "" C8env = some "rb" :=
  (C8_already_merged_merge_base C8env "" "h" "h" (by decide)
    (by decide)).2.2 "m1\nm2" "p" "rb" rfl (by decide) (by decide)
    (by decide) (by decide)

end GoodChanges


namespace GoodChanges

/-- C4: lockfile-version wildcard taint.  When the scalar
`lockfileVersion` extracted by `ParseLockfileVersion` differs between
the merge base and HEAD, every library of the subspace gets every
(non-star) export name of its entrypoint wildcard-tainted under its
package specifier; when the scalar is unchanged the mechanism adds
nothing. -/
theorem C4_lockfile_version_wildcard (baseDoc headDoc : Option YamlNode)
    (libs : List (String × Option FileAnalysis)) :
    (ParseLockfileVersion baseDoc = ParseLockfileVersion headDoc →
      lockfileVersionTaint baseDoc headDoc libs = []) ∧
    (ParseLockfileVersion baseDoc ≠ ParseLockfileVersion headDoc →
      ∀ lib ∈ libs, ∀ A, lib.2 = some A →
        ∀ e ∈ A.exports, e.name ≠ "*" →
          tHas (lockfileVersionTaint baseDoc headDoc libs) lib.1 e.name = true) := by
  constructor
  · intro heq
    unfold lockfileVersionTaint
    rw [if_pos heq]
  · intro hver lib hlib A hA e he hne
    unfold lockfileVersionTaint
    rw [if_neg hver]
    apply foldl_estab (fun t lib => tAdd t lib.1 (CollectEntrypointExports lib.2))
      libs lib lib.1 e.name
      (fun t y _ => tLE_tAdd t y.1 (CollectEntrypointExports y.2)) hlib
    intro t
    apply tHas_tAdd_of_mem
    rw [hA]
    unfold CollectEntrypointExports
    exact mem_dedupNames _ _ (List.mem_map_of_mem _ he) hne

/-- Witness for C4: the lockfile version flips from 6.0 to 9.0, so the
subspace library `libA` gets its entrypoint export `X` tainted. -/
theorem C4_witness :
    tHas (lockfileVersionTaint C4base C4head [("libA", some C4A)]) "libA" "X"
      = true :=
  (C4_lockfile_version_wildcard C4base C4head [("libA", some C4A)]).2
    (by decide) ("libA", some C4A) (by decide) C4A rfl
    ⟨"X", "X", "", false, false⟩ (by decide) (by decide)

end GoodChanges


namespace GoodChanges

/-- C5: fine-grained output filter.  For every fine-grained changeDir
entry carrying an output-filter glob, the detections list emitted for
the entry is exactly the affected-file list `FindAffectedFiles` returns
for the entry's glob, intersected with the files matching the filter
glob. -/
theorem C5_fine_grained_filter (env : FsEnv) (cd : ChangeDir) (fl : String)
    (upstreamTaint : CMap NameSet) (changedFiles : List String)
    (projectFolder : String) (isIgnored : String → Bool)
    (taintedExternalDeps : NameSet) (mergeBase : String)
    (includeTypes includeCSS : Bool)
    (hfg : cd.IsFineGrained = true) (hfl : cd.filter = some fl) :
    changeDirDetections env cd upstreamTaint changedFiles projectFolder
        isIgnored taintedExternalDeps mergeBase includeTypes includeCSS
      = some ((FindAffectedFiles env cd.glob upstreamTaint changedFiles
          projectFolder isIgnored taintedExternalDeps mergeBase includeTypes
          includeCSS).filter (fun f => env.globMatch fl f)) ∧
    ∀ out, changeDirDetections env cd upstreamTaint changedFiles projectFolder
        isIgnored taintedExternalDeps mergeBase includeTypes includeCSS
        = some out →
      ∀ f, f ∈ out ↔
        (f ∈ FindAffectedFiles env cd.glob upstreamTaint changedFiles
            projectFolder isIgnored taintedExternalDeps mergeBase includeTypes
            includeCSS ∧
          env.globMatch fl f = true) := by
  have hdet : changeDirDetections env cd upstreamTaint changedFiles
      projectFolder isIgnored taintedExternalDeps mergeBase includeTypes
      includeCSS
      = some ((FindAffectedFiles env cd.glob upstreamTaint changedFiles
          projectFolder isIgnored taintedExternalDeps mergeBase includeTypes
          includeCSS).filter (fun f => env.globMatch fl f)) := by
    unfold changeDirDetections
    rw [if_pos hfg, hfl]
  refine ⟨hdet, ?_⟩
  intro out hout f
  rw [hdet] at hout
  rw [← Option.some_inj.mp hout]
  simp [List.mem_filter]

/-- Witness for C5 (spec example 6): a newly added helper affects both
of its importers, but the `*.test.ts` output filter keeps only the test
file. -/
theorem C5_witness :
    C5cd.IsFineGrained = true ∧
    (∀ out, changeDirDetections C5env C5cd [] ["proj/scenarios/helper.ts"]
        "proj" (fun _ => false) [] "base" false false = some out →
      ("scenarios/a.test.ts" ∈ out ∧ "scenarios/b.ts" ∉ out)) := by
  refine ⟨by decide, ?_⟩
  intro out hout
  have h := (C5_fine_grained_filter C5env C5cd "scenarios/**/*.test.ts" []
    ["proj/scenarios/helper.ts"] "proj" (fun _ => false) [] "base" false false
    (by decide) rfl).2 out hout
  constructor
  · exact (h "scenarios/a.test.ts").mpr ⟨by decide, by decide⟩
  · intro hb
    have := (h "scenarios/b.ts").mp hb
    exact absurd this.2 (by decide)

end GoodChanges


namespace GoodChanges

lemma charLt_irrefl (a : Char) : charLt a a = false := by
  simp [charLt]

lemma charLt_asymm {a b : Char} (h : charLt a b = true) : charLt b a = false := by
  unfold charLt at *
  simp only [decide_eq_true_eq] at h
  simp only [decide_eq_false_iff_not]
  omega

lemma charLt_conn {a b : Char} (h1 : charLt a b = false)
    (h2 : charLt b a = false) : a = b := by
  unfold charLt at *
  simp only [decide_eq_false_iff_not] at h1 h2
  have hn : a.toNat = b.toNat := by omega
  have h2 := Char.ofNat_toNat a
  rw [hn, Char.ofNat_toNat] at h2
  exact h2.symm

lemma strLtB_irrefl : ∀ l : List Char, strLtB l l = false := by
  intro l
  induction l with
  | nil => rfl
  | cons a as ih => simp [strLtB, charLt_irrefl, ih]

lemma strLtB_asymm : ∀ {l₁ l₂ : List Char}, strLtB l₁ l₂ = true →
    strLtB l₂ l₁ = false := by
  intro l₁
  induction l₁ with
  | nil =>
    intro l₂ h
    cases l₂ with
    | nil => simp [strLtB] at h
    | cons b bs => simp [strLtB]
  | cons a as ih =>
    intro l₂ h
    cases l₂ with
    | nil => simp [strLtB] at h
    | cons b bs =>
      simp [strLtB] at h ⊢
      rcases h with h | ⟨hab, h⟩
      · constructor
        · exact charLt_asymm h
        · intro hba
          subst hba
          rw [charLt_irrefl] at h
          cases h
      · subst hab
        constructor
        · exact charLt_irrefl a
        · intro _
          exact ih h

lemma strLtB_conn : ∀ {l₁ l₂ : List Char}, strLtB l₁ l₂ = false →
    strLtB l₂ l₁ = false → l₁ = l₂ := by
  intro l₁
  induction l₁ with
  | nil =>
    intro l₂ h1 _
    cases l₂ with
    | nil => rfl
    | cons b bs => simp [strLtB] at h1
  | cons a as ih =>
    intro l₂ h1 h2
    cases l₂ with
    | nil => simp [strLtB] at h2
    | cons b bs =>
      simp [strLtB] at h1 h2
      have hab : a = b := charLt_conn h1.1 h2.1
      subst hab
      rw [ih (h1.2 rfl) (h2.2 rfl)]

lemma strLt_irrefl (a : String) : strLt a a = false := strLtB_irrefl a.data

lemma strLt_asymm {a b : String} (h : strLt a b = true) : strLt b a = false :=
  strLtB_asymm h

lemma strLt_conn {a b : String} (h1 : strLt a b = false)
    (h2 : strLt b a = false) : a = b := by
  have := strLtB_conn h1 h2
  exact String.ext this

lemma charLt_trans {a b c : Char} (h1 : charLt a b = true)
    (h2 : charLt b c = true) : charLt a c = true := by
  unfold charLt at *
  simp only [decide_eq_true_eq] at *
  omega

lemma strLtB_trans : ∀ {l₁ l₂ l₃ : List Char}, strLtB l₁ l₂ = true →
    strLtB l₂ l₃ = true → strLtB l₁ l₃ = true := by
  intro l₁
  induction l₁ with
  | nil =>
    intro l₂ l₃ h1 h2
    cases l₂ with
    | nil => exact h2
    | cons b bs =>
      cases l₃ with
      | nil => simp [strLtB] at h2
      | cons c cs => simp [strLtB]
  | cons a as ih =>
    intro l₂ l₃ h1 h2
    cases l₂ with
    | nil => simp [strLtB] at h1
    | cons b bs =>
      cases l₃ with
      | nil => simp [strLtB] at h2
      | cons c cs =>
        simp [strLtB] at h1 h2 ⊢
        rcases h1 with h1 | ⟨hab, h1⟩
        · rcases h2 with h2 | ⟨hbc, h2⟩
          · exact Or.inl (charLt_trans h1 h2)
          · subst hbc
            exact Or.inl h1
        · subst hab
          rcases h2 with h2 | ⟨hbc, h2⟩
          · exact Or.inl h2
          · subst hbc
            exact Or.inr ⟨rfl, ih h1 h2⟩

lemma strLt_trans {a b c : String} (h1 : strLt a b = true)
    (h2 : strLt b c = true) : strLt a c = true :=
  strLtB_trans h1 h2

lemma nsSorted_nsInsert (n : String) (s : NameSet) (h : nsSorted s) :
    nsSorted (nsInsert n s) := by
  induction s with
  | nil => exact List.pairwise_singleton _ n
  | cons m rest ih =>
    unfold nsInsert
    rcases List.pairwise_cons.mp h with ⟨hm, hrest⟩
    by_cases h1 : strLt n m = true
    · rw [if_pos h1]
      refine List.pairwise_cons.mpr ⟨?_, h⟩
      intro x hx
      rcases List.mem_cons.mp hx with rfl | hx'
      · exact h1
      · exact strLt_trans h1 (hm x hx')
    · rw [if_neg h1]
      by_cases h2 : n = m
      · rw [if_pos h2]
        exact h
      · rw [if_neg h2]
        refine List.pairwise_cons.mpr ⟨?_, ih hrest⟩
        intro x hx
        rcases (mem_nsInsert x n rest).mp hx with rfl | hx'
        · by_contra h4
          exact h2 (strLt_conn (Bool.eq_false_iff.mpr h1)
            (Bool.eq_false_iff.mpr h4))
        · exact hm x hx'

lemma nsSorted_nsInsertMany (ns : List String) :
    ∀ s : NameSet, nsSorted s → nsSorted (nsInsertMany ns s) := by
  induction ns with
  | nil => intro s h; exact h
  | cons n rest ih =>
    intro s h
    exact ih _ (nsSorted_nsInsert n s h)

lemma eq_of_nsSorted_mem : ∀ {s₁ s₂ : NameSet}, nsSorted s₁ → nsSorted s₂ →
    (∀ x, x ∈ s₁ ↔ x ∈ s₂) → s₁ = s₂ := by
  intro s₁
  induction s₁ with
  | nil =>
    intro s₂ _ _ hmem
    cases s₂ with
    | nil => rfl
    | cons b bs =>
      have := (hmem b).mpr (List.mem_cons_self b bs)
      cases this
  | cons a as ih =>
    intro s₂ h1 h2 hmem
    cases s₂ with
    | nil =>
      have := (hmem a).mp (List.mem_cons_self a as)
      cases this
    | cons b bs =>
      rcases List.pairwise_cons.mp h1 with ⟨ha, has⟩
      rcases List.pairwise_cons.mp h2 with ⟨hb, hbs⟩
      have hab : a = b := by
        rcases List.mem_cons.mp ((hmem a).mp (List.mem_cons_self a as)) with
          h | h
        · exact h
        · rcases List.mem_cons.mp ((hmem b).mpr (List.mem_cons_self b bs)) with
            h' | h'
          · exact h'.symm
          · have h3 := hb a h
            have h4 := ha b h'
            rw [strLt_asymm h3] at h4
            cases h4
      subst hab
      have htails : ∀ x, x ∈ as ↔ x ∈ bs := by
        intro x
        constructor
        · intro hx
          rcases List.mem_cons.mp ((hmem x).mp (List.mem_cons_of_mem a hx)) with
            h | h
          · subst h
            have hxx := ha x hx
            rw [strLt_irrefl] at hxx
            cases hxx
          · exact h
        · intro hx
          rcases List.mem_cons.mp ((hmem x).mpr (List.mem_cons_of_mem a hx)) with
            h | h
          · subst h
            have hxx := hb x hx
            rw [strLt_irrefl] at hxx
            cases hxx
          · exact h
      rw [ih has hbs htails]

lemma nsInsertMany_swap (ns₁ ns₂ : List String) (v : NameSet)
    (hv : nsSorted v) :
    nsInsertMany ns₂ (nsInsertMany ns₁ v)
      = nsInsertMany ns₁ (nsInsertMany ns₂ v) := by
  apply eq_of_nsSorted_mem
  · exact nsSorted_nsInsertMany _ _ (nsSorted_nsInsertMany _ _ hv)
  · exact nsSorted_nsInsertMany _ _ (nsSorted_nsInsertMany _ _ hv)
  · intro x
    simp only [mem_nsInsertMany]
    tauto

lemma cmEq_refl {β : Type} (t : CMap β) : cmEq t t := fun _ => rfl

lemma cmEq_symm {β : Type} {t₁ t₂ : CMap β} (h : cmEq t₁ t₂) : cmEq t₂ t₁ :=
  fun k => (h k).symm

lemma cmEq_trans {β : Type} {t₁ t₂ t₃ : CMap β} (h1 : cmEq t₁ t₂)
    (h2 : cmEq t₂ t₃) : cmEq t₁ t₃ :=
  fun k => (h1 k).trans (h2 k)

lemma isEmpty_eq_of_cmEq {β : Type} {t₁ t₂ : CMap β} (h : cmEq t₁ t₂) :
    t₁.isEmpty = t₂.isEmpty := by
  cases ht1 : t₁ with
  | nil =>
    cases ht2 : t₂ with
    | nil => rfl
    | cons kv rest =>
      have := h kv.1
      rw [ht1, ht2] at this
      simp [cmGet] at this
  | cons kv rest =>
    cases ht2 : t₂ with
    | nil =>
      have := h kv.1
      rw [ht1, ht2] at this
      simp [cmGet] at this
    | cons kv2 rest2 => rfl

lemma cmEq_cmUpd_congr {β : Type} {t₁ t₂ : CMap β} (k : String)
    (f : Option β → β) (h : cmEq t₁ t₂) : cmEq (cmUpd k f t₁) (cmUpd k f t₂) := by
  intro k'
  by_cases hk : k' = k
  · subst hk
    rw [cmGet_cmUpd_self, cmGet_cmUpd_self, h k']
  · rw [cmGet_cmUpd_ne _ _ _ _ hk, cmGet_cmUpd_ne _ _ _ _ hk]
    exact h k'

lemma cmEq_cmUpd_swap_ne {β : Type} (t : CMap β) (k₁ k₂ : String)
    (f g : Option β → β) (hne : k₁ ≠ k₂) :
    cmEq (cmUpd k₂ g (cmUpd k₁ f t)) (cmUpd k₁ f (cmUpd k₂ g t)) := by
  have hne' : k₂ ≠ k₁ := fun h => hne h.symm
  intro k'
  by_cases h1 : k' = k₁
  · subst h1
    rw [cmGet_cmUpd_ne k₂ k' g _ hne, cmGet_cmUpd_self, cmGet_cmUpd_self,
        cmGet_cmUpd_ne k₂ k' g t hne]
  · by_cases h2 : k' = k₂
    · subst h2
      rw [cmGet_cmUpd_self, cmGet_cmUpd_ne k₁ k' f t hne',
          cmGet_cmUpd_ne k₁ k' f (cmUpd k' g t) hne', cmGet_cmUpd_self]
    · rw [cmGet_cmUpd_ne k₂ k' g _ h2, cmGet_cmUpd_ne k₁ k' f t h1,
          cmGet_cmUpd_ne k₁ k' f _ h1, cmGet_cmUpd_ne k₂ k' g t h2]

lemma keys_cmUpd {β : Type} (k : String) (f : Option β → β) :
    ∀ t : CMap β, (cmUpd k f t).map Prod.fst
      = if (t.map Prod.fst).contains k then t.map Prod.fst
        else t.map Prod.fst ++ [k] := by
  intro t
  induction t with
  | nil => simp [cmUpd]
  | cons kv rest ih =>
    unfold cmUpd
    by_cases hk : k = kv.1
    · subst hk
      simp
    · rw [if_neg hk]
      simp only [List.map_cons, List.contains_cons]
      have hbe : (k == kv.1) = false := beq_eq_false_iff_ne.mpr hk
      rw [hbe]
      simp only [Bool.false_or]
      rw [ih]
      by_cases hc : (rest.map Prod.fst).contains k
      · rw [if_pos hc, if_pos hc]
      · rw [if_neg hc, if_neg hc]
        simp

lemma keysNodup_cmUpd {β : Type} (k : String) (f : Option β → β)
    (t : CMap β) (h : (t.map Prod.fst).Nodup) :
    ((cmUpd k f t).map Prod.fst).Nodup := by
  rw [keys_cmUpd]
  by_cases hc : (t.map Prod.fst).contains k
  · rw [if_pos hc]
    exact h
  · rw [if_neg hc]
    rw [List.nodup_append]
    refine ⟨h, List.nodup_singleton k, ?_⟩
    intro x hx
    simp only [List.mem_singleton]
    intro hxk
    subst hxk
    exact hc ((contains_iff _ _).mpr hx)

lemma mem_cmUpd_cases {β : Type} (k : String) (f : Option β → β) :
    ∀ (t : CMap β) (kv : String × β), kv ∈ cmUpd k f t →
      kv ∈ t ∨ kv = (k, f (cmGet t k)) := by
  intro t
  induction t with
  | nil =>
    intro kv h
    simp [cmUpd] at h
    exact Or.inr (by simp [cmGet, h])
  | cons kv0 rest ih =>
    intro kv h
    unfold cmUpd at h
    by_cases hk : k = kv0.1
    · rw [if_pos hk] at h
      rcases List.mem_cons.mp h with rfl | h'
      · subst hk
        right
        unfold cmGet
        rw [if_pos rfl]
      · exact Or.inl (List.mem_cons_of_mem kv0 h')
    · rw [if_neg hk] at h
      rcases List.mem_cons.mp h with rfl | h'
      · exact Or.inl (List.mem_cons_self _ _)
      · rcases ih kv h' with h'' | h''
        · exact Or.inl (List.mem_cons_of_mem kv0 h'')
        · right
          have hg : cmGet (kv0 :: rest) k = cmGet rest k := by
            cases kv0 with
            | mk k0 v0 =>
              simp only [cmGet]
              rw [if_neg hk]
          rw [hg]
          exact h''

lemma taintWF_tAdd (t : Taint) (stem : String) (ns : List String)
    (h : taintWF t) : taintWF (tAdd t stem ns) := by
  obtain ⟨hnd, hv⟩ := h
  constructor
  · exact keysNodup_cmUpd stem _ t hnd
  · intro kv hkv
    rcases mem_cmUpd_cases stem _ t kv hkv with h' | h'
    · exact hv kv h'
    · rw [h']
      apply nsSorted_nsInsertMany
      cases hg : cmGet t stem with
      | none => simp [List.Pairwise.nil, nsSorted]
      | some v =>
        simp only [Option.getD_some]
        exact hv (stem, v) (cmGet_mem t stem v hg)

lemma cmEq_tAdd_congr {t₁ t₂ : Taint} (stem : String) (ns : List String)
    (h : cmEq t₁ t₂) : cmEq (tAdd t₁ stem ns) (tAdd t₂ stem ns) :=
  cmEq_cmUpd_congr stem _ h

lemma cmEq_tAdd_swap (t : Taint) (s₁ s₂ : String) (ns₁ ns₂ : List String)
    (hwf : taintWF t) :
    cmEq (tAdd (tAdd t s₁ ns₁) s₂ ns₂) (tAdd (tAdd t s₂ ns₂) s₁ ns₁) := by
  by_cases hs : s₁ = s₂
  · subst hs
    intro k
    by_cases hk : k = s₁
    · subst hk
      unfold tAdd
      rw [cmGet_cmUpd_self, cmGet_cmUpd_self, cmGet_cmUpd_self,
          cmGet_cmUpd_self]
      simp only [Option.getD_some]
      congr 1
      cases hg : cmGet t k with
      | none =>
        simp only [Option.getD_none]
        exact nsInsertMany_swap ns₁ ns₂ [] (by simp [nsSorted])
      | some v =>
        simp only [Option.getD_some]
        exact nsInsertMany_swap ns₁ ns₂ v (hwf.2 (k, v) (cmGet_mem t k v hg))
    · unfold tAdd
      rw [cmGet_cmUpd_ne _ _ _ _ hk, cmGet_cmUpd_ne _ _ _ _ hk,
          cmGet_cmUpd_ne _ _ _ _ hk, cmGet_cmUpd_ne _ _ _ _ hk]
  · exact cmEq_cmUpd_swap_ne t s₁ s₂ _ _ hs

lemma foldtAdd_wf {α : Type} (g : α → String) (h : α → List String) :
    ∀ (l : List α) (t : Taint), taintWF t →
      taintWF (l.foldl (fun t a => tAdd t (g a) (h a)) t) := by
  intro l
  induction l with
  | nil => intro t ht; exact ht
  | cons a rest ih =>
    intro t ht
    exact ih _ (taintWF_tAdd t (g a) (h a) ht)

lemma foldtAdd_congr {α : Type} (g : α → String) (h : α → List String) :
    ∀ (l : List α) {t₁ t₂ : Taint}, cmEq t₁ t₂ →
      cmEq (l.foldl (fun t a => tAdd t (g a) (h a)) t₁)
        (l.foldl (fun t a => tAdd t (g a) (h a)) t₂) := by
  intro l
  induction l with
  | nil => intro t₁ t₂ ht; exact ht
  | cons a rest ih =>
    intro t₁ t₂ ht
    exact ih (cmEq_tAdd_congr (g a) (h a) ht)

lemma tAdd_foldtAdd_swap {α : Type} (g : α → String) (h : α → List String) :
    ∀ (l : List α) (t : Taint) (s : String) (ns : List String), taintWF t →
      cmEq (l.foldl (fun t a => tAdd t (g a) (h a)) (tAdd t s ns))
        (tAdd (l.foldl (fun t a => tAdd t (g a) (h a)) t) s ns) := by
  intro l
  induction l with
  | nil => intro t s ns _; exact cmEq_refl _
  | cons a rest ih =>
    intro t s ns hwf
    rw [List.foldl_cons, List.foldl_cons]
    have step1 : cmEq (tAdd (tAdd t s ns) (g a) (h a))
        (tAdd (tAdd t (g a) (h a)) s ns) := cmEq_tAdd_swap t s (g a) ns (h a) hwf
    have step2 := foldtAdd_congr g h rest step1
    exact cmEq_trans step2 (ih (tAdd t (g a) (h a)) s ns
      (taintWF_tAdd t (g a) (h a) hwf))

lemma foldl_taint_congr {α : Type} (f : Taint → α → Taint)
    (hcongr : ∀ t₁ t₂ a, cmEq t₁ t₂ → cmEq (f t₁ a) (f t₂ a)) :
    ∀ (l : List α) {t₁ t₂ : Taint}, cmEq t₁ t₂ →
      cmEq (l.foldl f t₁) (l.foldl f t₂) := by
  intro l
  induction l with
  | nil => intro t₁ t₂ ht; exact ht
  | cons a rest ih =>
    intro t₁ t₂ ht
    exact ih (hcongr t₁ t₂ a ht)

lemma foldl_taint_wf {α : Type} (f : Taint → α → Taint)
    (hpres : ∀ t a, taintWF t → taintWF (f t a)) :
    ∀ (l : List α) (t : Taint), taintWF t → taintWF (l.foldl f t) := by
  intro l
  induction l with
  | nil => intro t ht; exact ht
  | cons a rest ih =>
    intro t ht
    exact ih _ (hpres t a ht)

lemma foldl_taint_perm {α : Type} (f : Taint → α → Taint)
    (hpres : ∀ t a, taintWF t → taintWF (f t a))
    (hcongr : ∀ t₁ t₂ a, cmEq t₁ t₂ → cmEq (f t₁ a) (f t₂ a))
    (hcomm : ∀ t a b, taintWF t → cmEq (f (f t a) b) (f (f t b) a)) :
    ∀ {l₁ l₂ : List α}, l₁.Perm l₂ → ∀ t₁ t₂, taintWF t₁ → taintWF t₂ →
      cmEq t₁ t₂ → cmEq (l₁.foldl f t₁) (l₂.foldl f t₂) := by
  intro l₁ l₂ hperm
  induction hperm with
  | nil => intro t₁ t₂ _ _ ht; exact ht
  | cons a _ ih =>
    intro t₁ t₂ h1 h2 ht
    rw [List.foldl_cons, List.foldl_cons]
    exact ih _ _ (hpres t₁ a h1) (hpres t₂ a h2) (hcongr t₁ t₂ a ht)
  | swap a b l =>
    intro t₁ t₂ h1 h2 ht
    rw [List.foldl_cons, List.foldl_cons, List.foldl_cons, List.foldl_cons]
    have e1 : cmEq (f (f t₁ b) a) (f (f t₂ b) a) :=
      hcongr _ _ a (hcongr t₁ t₂ b ht)
    have e2 : cmEq (f (f t₂ b) a) (f (f t₂ a) b) := hcomm t₂ b a h2
    exact foldl_taint_congr f hcongr l (cmEq_trans e1 e2)
  | trans p1 p2 ih1 ih2 =>
    intro t₁ t₂ h1 h2 ht
    exact cmEq_trans (ih1 t₁ t₁ h1 h1 (cmEq_refl t₁)) (ih2 t₁ t₂ h1 h2 ht)

lemma mergeResult_wf (t : Taint) (res : String × List AffectedExport)
    (h : taintWF t) : taintWF (mergeResult t res) :=
  foldtAdd_wf (specOf res.1) (fun ae => ae.exportNames) res.2 t h

lemma mergeResult_congr (t₁ t₂ : Taint) (res : String × List AffectedExport)
    (h : cmEq t₁ t₂) : cmEq (mergeResult t₁ res) (mergeResult t₂ res) :=
  foldtAdd_congr (specOf res.1) (fun ae => ae.exportNames) res.2 h

lemma mergeResult_comm (t : Taint) (a b : String × List AffectedExport)
    (hwf : taintWF t) :
    cmEq (mergeResult (mergeResult t a) b) (mergeResult (mergeResult t b) a) := by
  unfold mergeResult
  induction a.2 generalizing t with
  | nil => exact cmEq_refl _
  | cons ae rest ih =>
    rw [List.foldl_cons, List.foldl_cons]
    have s1 := ih (tAdd t (specOf a.1 ae) ae.exportNames)
      (taintWF_tAdd t _ _ hwf)
    have s2 : cmEq
        (b.2.foldl (fun t x => tAdd t (specOf b.1 x) x.exportNames)
          (tAdd t (specOf a.1 ae) ae.exportNames))
        (tAdd (b.2.foldl (fun t x => tAdd t (specOf b.1 x) x.exportNames) t)
          (specOf a.1 ae) ae.exportNames) :=
      tAdd_foldtAdd_swap (specOf b.1) (fun x => x.exportNames) b.2 t
        (specOf a.1 ae) ae.exportNames hwf
    have s3 := foldtAdd_congr (specOf a.1) (fun x => x.exportNames) rest s2
    exact cmEq_trans s1 s3

lemma foldl_fun_ext {α β : Type} (f g : β → α → β) (l : List α)
    (h : ∀ b a, f b a = g b a) : ∀ b, l.foldl f b = l.foldl g b := by
  induction l with
  | nil => intro b; rfl
  | cons a rest ih =>
    intro b
    rw [List.foldl_cons, List.foldl_cons, h b a]
    exact ih _

lemma cmGet_some_iff_mem {β : Type} :
    ∀ (t : CMap β), (t.map Prod.fst).Nodup → ∀ (k : String) (v : β),
      cmGet t k = some v ↔ (k, v) ∈ t := by
  intro t
  induction t with
  | nil =>
    intro _ k v
    simp [cmGet]
  | cons kv rest ih =>
    intro hnd k v
    have hnd' : (rest.map Prod.fst).Nodup := (List.nodup_cons.mp hnd).2
    have hk0 : kv.1 ∉ rest.map Prod.fst := (List.nodup_cons.mp hnd).1
    constructor
    · intro h
      exact cmGet_mem _ k v h
    · intro h
      rcases List.mem_cons.mp h with rfl | h'
      · simp [cmGet]
      · simp only [cmGet]
        by_cases hk : k = kv.1
        · subst hk
          exact absurd (List.mem_map_of_mem Prod.fst h') hk0
        · rw [if_neg hk]
          exact (ih hnd' k v).mpr h'

lemma entries_perm_of_cmEq {β : Type} [DecidableEq β] {t₁ t₂ : CMap β}
    (h1 : (t₁.map Prod.fst).Nodup) (h2 : (t₂.map Prod.fst).Nodup)
    (he : cmEq t₁ t₂) : t₁.Perm t₂ := by
  apply List.perm_of_nodup_nodup_toFinset_eq (h1.of_map) (h2.of_map)
  ext kv
  simp only [List.mem_toFinset]
  cases kv with
  | mk k v =>
    rw [← cmGet_some_iff_mem t₁ h1 k v, ← cmGet_some_iff_mem t₂ h2 k v, he k]

lemma pkgUpstreamFor_equiv (pm : CMap ProjInfo) {t₁ t₂ : Taint}
    (pkg : String) (h1 : taintWF t₁) (h2 : taintWF t₂) (he : cmEq t₁ t₂) :
    cmEq (pkgUpstreamFor pm t₁ pkg) (pkgUpstreamFor pm t₂ pkg) := by
  unfold pkgUpstreamFor
  have hperm : t₁.Perm t₂ := entries_perm_of_cmEq h1.1 h2.1 he
  -- generic facts about the inner step
  have hpres : ∀ (dep : String) (t : Taint) (kv : String × NameSet),
      taintWF t → taintWF
        (if goHasPrefix kv.1 dep then tAdd t kv.1 kv.2 else t) := by
    intro dep t kv ht
    by_cases hc : goHasPrefix kv.1 dep
    · rw [if_pos hc]; exact taintWF_tAdd t kv.1 kv.2 ht
    · rw [if_neg hc]; exact ht
  have hcongr : ∀ (dep : String) (ta tb : Taint) (kv : String × NameSet),
      cmEq ta tb → cmEq
        (if goHasPrefix kv.1 dep then tAdd ta kv.1 kv.2 else ta)
        (if goHasPrefix kv.1 dep then tAdd tb kv.1 kv.2 else tb) := by
    intro dep ta tb kv hab
    by_cases hc : goHasPrefix kv.1 dep
    · rw [if_pos hc, if_pos hc]; exact cmEq_tAdd_congr kv.1 kv.2 hab
    · rw [if_neg hc, if_neg hc]; exact hab
  have hcomm : ∀ (dep : String) (t : Taint) (a b : String × NameSet),
      taintWF t → cmEq
        (if goHasPrefix b.1 dep then
          tAdd (if goHasPrefix a.1 dep then tAdd t a.1 a.2 else t) b.1 b.2
         else (if goHasPrefix a.1 dep then tAdd t a.1 a.2 else t))
        (if goHasPrefix a.1 dep then
          tAdd (if goHasPrefix b.1 dep then tAdd t b.1 b.2 else t) a.1 a.2
         else (if goHasPrefix b.1 dep then tAdd t b.1 b.2 else t)) := by
    intro dep t a b ht
    by_cases ha : goHasPrefix a.1 dep
    · by_cases hb : goHasPrefix b.1 dep
      · rw [if_pos ha, if_pos hb, if_pos ha, if_pos hb]
        exact cmEq_tAdd_swap t a.1 b.1 a.2 b.2 ht
      · rw [if_neg hb, if_pos ha, if_pos ha, if_neg hb]
        exact cmEq_refl _
    · by_cases hb : goHasPrefix b.1 dep
      · rw [if_pos hb, if_neg ha, if_neg ha, if_pos hb]
        exact cmEq_refl _
      · rw [if_neg hb, if_neg ha, if_neg ha, if_neg hb]
        exact cmEq_refl _
  -- outer induction over the dependency list
  have main : ∀ (deps : List String) (p₁ p₂ : Taint), taintWF p₁ → taintWF p₂ →
      cmEq p₁ p₂ →
      cmEq
        (deps.foldl (fun put dep =>
          t₁.foldl (fun put kv =>
            if goHasPrefix kv.1 dep then
              cmUpd kv.1 (fun old => nsInsertMany kv.2 (old.getD [])) put
            else put) put) p₁)
        (deps.foldl (fun put dep =>
          t₂.foldl (fun put kv =>
            if goHasPrefix kv.1 dep then
              cmUpd kv.1 (fun old => nsInsertMany kv.2 (old.getD [])) put
            else put) put) p₂) := by
    intro deps
    induction deps with
    | nil => intro p₁ p₂ _ _ hp; exact hp
    | cons dep rest ih =>
      intro p₁ p₂ hw1 hw2 hp
      rw [List.foldl_cons, List.foldl_cons]
      apply ih
      · exact foldl_taint_wf _ (hpres dep) t₁ p₁ hw1
      · exact foldl_taint_wf _ (hpres dep) t₂ p₂ hw2
      · exact foldl_taint_perm _ (hpres dep) (hcongr dep) (hcomm dep)
          hperm p₁ p₂ hw1 hw2 hp
  exact main (depsOf pm pkg) [] [] ⟨List.nodup_nil, by simp⟩
    ⟨List.nodup_nil, by simp⟩ (cmEq_refl [])

lemma any_ext {α : Type} (f g : α → Bool) :
    ∀ l : List α, (∀ a, a ∈ l → f a = g a) → l.any f = l.any g := by
  intro l
  induction l with
  | nil => intro _; rfl
  | cons a rest ih =>
    intro h
    simp only [List.any_cons]
    rw [h a (List.mem_cons_self a rest), ih (fun x hx => h x (List.mem_cons_of_mem a hx))]

lemma faImportTainted_congr {u₁ u₂ : Taint} (he : cmEq u₁ u₂)
    (imp : TsImport) :
    faImportTainted false u₁ imp = faImportTainted false u₂ imp := by
  unfold faImportTainted
  rw [he imp.source]
  simp only [Bool.false_and]

lemma upStep_congr {u₁ u₂ : Taint} (he : cmEq u₁ u₂) (stem : String)
    (a : FileAnalysis) (t : Taint) (imp : TsImport) :
    upStep false u₁ stem a t imp = upStep false u₂ stem a t imp := by
  unfold upStep
  rw [he imp.source]
  simp only [Bool.false_and]

lemma seedFromUpstream_congr {u₁ u₂ : Taint} (he : cmEq u₁ u₂)
    (fa : CMap FileAnalysis) (t : Taint) :
    seedFromUpstream false u₁ fa t = seedFromUpstream false u₂ fa t := by
  unfold seedFromUpstream
  exact foldl_fun_ext _ _ fa
    (fun b kv => foldl_fun_ext _ _ kv.2.imports
      (fun b' imp => upStep_congr he kv.1 kv.2 b' imp) b) t

lemma alpSeeds_congr (env : FsEnv) (pf mb : String) (cf : List String)
    (it : Bool) {u₁ u₂ : Taint} (he : cmEq u₁ u₂) (ted : NameSet) :
    alpSeeds env pf mb cf it false u₁ ted
      = alpSeeds env pf mb cf it false u₂ ted := by
  unfold alpSeeds
  dsimp only
  rw [isEmpty_eq_of_cmEq he, seedFromUpstream_congr he]

lemma ALP_congr (env : FsEnv) (pf : String) (eps : List Entrypoint)
    (mb : String) (cf : List String) (it : Bool) {u₁ u₂ : Taint}
    (he : cmEq u₁ u₂) (ted : NameSet) :
    AnalyzeLibraryPackage env pf eps mb cf it false u₁ ted
      = AnalyzeLibraryPackage env pf eps mb cf it false u₂ ted := by
  unfold AnalyzeLibraryPackage
  rw [alpSeeds_congr env pf mb cf it he ted]

lemma HasTaintedImports_congr (env : MainEnv) (folder : String)
    (ignoredB : String → Bool) {u₁ u₂ : Taint} (he : cmEq u₁ u₂) :
    HasTaintedImports env folder u₁ ignoredB false
      = HasTaintedImports env folder u₂ ignoredB false := by
  unfold HasTaintedImports
  rw [isEmpty_eq_of_cmEq he]
  simp only [Bool.false_and, Bool.or_false]
  congr 1
  apply any_ext
  intro pa _
  by_cases hig : ignoredB pa.1
  · rw [if_pos hig, if_pos hig]
  · rw [if_neg hig, if_neg hig]
    exact any_ext _ _ pa.2.imports (fun imp _ => faImportTainted_congr he imp)

lemma analyzePkgMain_congr (env : MainEnv) (mb : String) (cf : List String)
    (it : Bool) (dep : CMap NameSet) {t₁ t₂ : Taint} (p : String)
    (h1 : taintWF t₁) (h2 : taintWF t₂) (he : cmEq t₁ t₂) :
    analyzePkgMain env mb cf it dep t₁ p = analyzePkgMain env mb cf it dep t₂ p := by
  unfold analyzePkgMain
  cases cmGet env.pm p with
  | none => rfl
  | some info =>
    simp only
    rw [ALP_congr env.fs (env.folderOf p) (env.entrypoints p) mb cf it
      (pkgUpstreamFor_equiv env.pm p h1 h2 he) (cmGetD dep (env.folderOf p) [])]

lemma filterMap_fun_ext {α β : Type} (f g : α → Option β) (l : List α)
    (h : ∀ a, f a = g a) : l.filterMap f = l.filterMap g := by
  induction l with
  | nil => rfl
  | cons a rest ih =>
    simp only [List.filterMap_cons, h a, ih]

lemma processLevel_equiv (env : MainEnv) (mb : String) (cf : List String)
    (it : Bool) (dep : CMap NameSet)
    (σ₁ σ₂ : List String → List String)
    (τ₁ τ₂ : List (String × List AffectedExport) →
      List (String × List AffectedExport))
    (t₁ t₂ : Taint) (level : List String)
    (hσ₁ : (σ₁ level).Perm level) (hσ₂ : (σ₂ level).Perm level)
    (hτ₁ : ∀ l, (τ₁ l).Perm l) (hτ₂ : ∀ l, (τ₂ l).Perm l)
    (h1 : taintWF t₁) (h2 : taintWF t₂) (he : cmEq t₁ t₂) :
    taintWF (processLevel env mb cf it dep σ₁ τ₁ t₁ level).1 ∧
    taintWF (processLevel env mb cf it dep σ₂ τ₂ t₂ level).1 ∧
    cmEq (processLevel env mb cf it dep σ₁ τ₁ t₁ level).1
      (processLevel env mb cf it dep σ₂ τ₂ t₂ level).1 := by
  have hF : ∀ p : String,
      (let aff := analyzePkgMain env mb cf it dep t₁ p
       if aff.isEmpty then none else some (p, aff))
      = (let aff := analyzePkgMain env mb cf it dep t₂ p
         if aff.isEmpty then none else some (p, aff)) := by
    intro p
    simp only [analyzePkgMain_congr env mb cf it dep p h1 h2 he]
  have hres : ((σ₁ level).filterMap (fun p =>
      let aff := analyzePkgMain env mb cf it dep t₁ p
      if aff.isEmpty then none else some (p, aff))).Perm
      ((σ₂ level).filterMap (fun p =>
        let aff := analyzePkgMain env mb cf it dep t₂ p
        if aff.isEmpty then none else some (p, aff))) := by
    have p1 := hσ₁.filterMap (fun p =>
      let aff := analyzePkgMain env mb cf it dep t₁ p
      if aff.isEmpty then none else some (p, aff))
    have p2 := hσ₂.filterMap (fun p =>
      let aff := analyzePkgMain env mb cf it dep t₂ p
      if aff.isEmpty then none else some (p, aff))
    rw [filterMap_fun_ext _ _ level hF] at p1
    exact p1.trans p2.symm
  have hperm : (τ₁ ((σ₁ level).filterMap (fun p =>
      let aff := analyzePkgMain env mb cf it dep t₁ p
      if aff.isEmpty then none else some (p, aff)))).Perm
      (τ₂ ((σ₂ level).filterMap (fun p =>
        let aff := analyzePkgMain env mb cf it dep t₂ p
        if aff.isEmpty then none else some (p, aff)))) :=
    ((hτ₁ _).trans hres).trans (hτ₂ _).symm
  refine ⟨?_, ?_, ?_⟩
  · exact foldl_taint_wf mergeResult mergeResult_wf _ t₁ h1
  · exact foldl_taint_wf mergeResult mergeResult_wf _ t₂ h2
  · exact foldl_taint_perm mergeResult mergeResult_wf
      (fun ta tb a hab => mergeResult_congr ta tb a hab)
      (fun t a b ht => mergeResult_comm t a b ht)
      hperm t₁ t₂ h1 h2 he

lemma runLevels_equiv (env : MainEnv) (mb : String) (cf : List String)
    (it : Bool) (dep : CMap NameSet)
    (σ₁ σ₂ : Nat → List String → List String)
    (τ₁ τ₂ : Nat → List (String × List AffectedExport) →
      List (String × List AffectedExport))
    (hσ₁ : ∀ i l, (σ₁ i l).Perm l) (hσ₂ : ∀ i l, (σ₂ i l).Perm l)
    (hτ₁ : ∀ i l, (τ₁ i l).Perm l) (hτ₂ : ∀ i l, (τ₂ i l).Perm l) :
    ∀ (levels : List (List String)) (idx : Nat) (t₁ t₂ : Taint)
      (logs₁ logs₂ : List String),
      taintWF t₁ → taintWF t₂ → cmEq t₁ t₂ →
      taintWF (runLevels env mb cf it dep σ₁ τ₁ levels idx t₁ logs₁).1 ∧
      taintWF (runLevels env mb cf it dep σ₂ τ₂ levels idx t₂ logs₂).1 ∧
      cmEq (runLevels env mb cf it dep σ₁ τ₁ levels idx t₁ logs₁).1
        (runLevels env mb cf it dep σ₂ τ₂ levels idx t₂ logs₂).1 := by
  intro levels
  induction levels with
  | nil =>
    intro idx t₁ t₂ logs₁ logs₂ h1 h2 he
    exact ⟨h1, h2, he⟩
  | cons level rest ih =>
    intro idx t₁ t₂ logs₁ logs₂ h1 h2 he
    rw [runLevels, runLevels]
    obtain ⟨w1, w2, weq⟩ := processLevel_equiv env mb cf it dep
      (σ₁ idx) (σ₂ idx) (τ₁ idx) (τ₂ idx) t₁ t₂ level
      (hσ₁ idx level) (hσ₂ idx level) (hτ₁ idx) (hτ₂ idx) h1 h2 he
    exact ih (idx + 1) _ _ _ _ w1 w2 weq

lemma evalTarget_congr (env : MainEnv) (cf : List String) (cp : NameSet)
    (dep : CMap NameSet) (tp : List String) {t₁ t₂ : Taint}
    (he : cmEq t₁ t₂)
    (hfa : ∀ p ta tb cfl pf, cmEq ta tb →
      env.findAffectedOld p ta cfl pf = env.findAffectedOld p tb cfl pf)
    (rp : Project) :
    evalTarget env cf cp dep tp t₁ rp = evalTarget env cf cp dep tp t₂ rp := by
  unfold evalTarget
  cases env.targetCfg rp.projectFolder with
  | none => rfl
  | some cfg =>
    simp only
    rw [HasTaintedImports_congr env rp.projectFolder
      (env.isIgnored rp.projectFolder) he]
    cases cfg.app with
    | none =>
      have hfold : cfg.changeDirs.foldl
          (fun (st : Bool × List String) cd =>
            if st.1 then st
            else if cd.isFineGrained then
              let detected := env.findAffectedOld cd.path t₁ cf rp.projectFolder
              (false, if detected.isEmpty then st.2 else st.2 ++ detected)
            else
              let fullDir := goJoinClean rp.projectFolder cd.path
              let trig := cf.any (fun f => goHasPrefix f (fullDir ++ "/")) ||
                HasTaintedImports env fullDir t₁ isIgnoredNil false
              (trig, st.2)) (false, [])
          = cfg.changeDirs.foldl
          (fun (st : Bool × List String) cd =>
            if st.1 then st
            else if cd.isFineGrained then
              let detected := env.findAffectedOld cd.path t₂ cf rp.projectFolder
              (false, if detected.isEmpty then st.2 else st.2 ++ detected)
            else
              let fullDir := goJoinClean rp.projectFolder cd.path
              let trig := cf.any (fun f => goHasPrefix f (fullDir ++ "/")) ||
                HasTaintedImports env fullDir t₂ isIgnoredNil false
              (trig, st.2)) (false, []) := by
        apply foldl_fun_ext
        intro st cd
        by_cases hst : st.1
        · simp only [hst, if_true]
        · simp only [hst, Bool.false_eq_true, if_false]
          by_cases hfg : cd.isFineGrained
          · simp only [hfg, if_true,
              hfa cd.path t₁ t₂ cf rp.projectFolder he]
          · simp only [hfg, Bool.false_eq_true, if_false,
              HasTaintedImports_congr env (goJoinClean rp.projectFolder cd.path)
                isIgnoredNil he]
      rw [hfold]
    | some app =>
      dsimp only
      rw [HasTaintedImports_congr env (env.folderOf app) isIgnoredNil he]
      have hfold : cfg.changeDirs.foldl
          (fun (st : Bool × List String) cd =>
            if st.1 then st
            else if cd.isFineGrained then
              let detected := env.findAffectedOld cd.path t₁ cf rp.projectFolder
              (false, if detected.isEmpty then st.2 else st.2 ++ detected)
            else
              let fullDir := goJoinClean rp.projectFolder cd.path
              let trig := cf.any (fun f => goHasPrefix f (fullDir ++ "/")) ||
                HasTaintedImports env fullDir t₁ isIgnoredNil false
              (trig, st.2)) (false, [])
          = cfg.changeDirs.foldl
          (fun (st : Bool × List String) cd =>
            if st.1 then st
            else if cd.isFineGrained then
              let detected := env.findAffectedOld cd.path t₂ cf rp.projectFolder
              (false, if detected.isEmpty then st.2 else st.2 ++ detected)
            else
              let fullDir := goJoinClean rp.projectFolder cd.path
              let trig := cf.any (fun f => goHasPrefix f (fullDir ++ "/")) ||
                HasTaintedImports env fullDir t₂ isIgnoredNil false
              (trig, st.2)) (false, []) := by
        apply foldl_fun_ext
        intro st cd
        by_cases hst : st.1
        · simp only [hst, if_true]
        · simp only [hst, Bool.false_eq_true, if_false]
          by_cases hfg : cd.isFineGrained
          · simp only [hfg, if_true,
              hfa cd.path t₁ t₂ cf rp.projectFolder he]
          · simp only [hfg, Bool.false_eq_true, if_false,
              HasTaintedImports_congr env (goJoinClean rp.projectFolder cd.path)
                isIgnoredNil he]
      rw [hfold]

lemma runPipeline_json_equiv (env : MainEnv) (mb : String) (cf : List String)
    (it : Bool) (dep : CMap NameSet) (tp : List String)
    (σ₁ σ₂ : Nat → List String → List String)
    (τ₁ τ₂ : Nat → List (String × List AffectedExport) →
      List (String × List AffectedExport))
    (hσ₁ : ∀ i l, (σ₁ i l).Perm l) (hσ₂ : ∀ i l, (σ₂ i l).Perm l)
    (hτ₁ : ∀ i l, (τ₁ i l).Perm l) (hτ₂ : ∀ i l, (τ₂ i l).Perm l)
    (hfa : ∀ p ta tb cfl pf, cmEq ta tb →
      env.findAffectedOld p ta cfl pf = env.findAffectedOld p tb cfl pf) :
    (runPipeline env mb cf it dep tp σ₁ τ₁).1
      = (runPipeline env mb cf it dep tp σ₂ τ₂).1 := by
  unfold runPipeline
  dsimp only
  obtain ⟨-, -, heq⟩ := runLevels_equiv env mb cf it dep σ₁ σ₂ τ₁ τ₂
    hσ₁ hσ₂ hτ₁ hτ₂ (TopologicalSort env.pm (FindTransitiveDependents env.pm
      (dep.foldl (fun cp kv =>
        match env.projects.find? (fun rp => rp.projectFolder = kv.1) with
        | none => cp
        | some rp =>
          if cp.contains rp.packageName then cp
          else nsInsert rp.packageName cp)
        (FindChangedProjects env.projects cf))))
    0 [] [] [] [] ⟨List.nodup_nil, by simp⟩ ⟨List.nodup_nil, by simp⟩
    (cmEq_refl [])
  have hev : env.projects.foldl
      (fun m rp =>
        match evalTarget env cf
            (dep.foldl (fun cp kv =>
              match env.projects.find? (fun rp => rp.projectFolder = kv.1) with
              | none => cp
              | some rp =>
                if cp.contains rp.packageName then cp
                else nsInsert rp.packageName cp)
              (FindChangedProjects env.projects cf))
            dep tp
            (runLevels env mb cf it dep σ₁ τ₁ (TopologicalSort env.pm
              (FindTransitiveDependents env.pm
                (dep.foldl (fun cp kv =>
                  match env.projects.find?
                      (fun rp => rp.projectFolder = kv.1) with
                  | none => cp
                  | some rp =>
                    if cp.contains rp.packageName then cp
                    else nsInsert rp.packageName cp)
                  (FindChangedProjects env.projects cf)))) 0 [] []).1 rp with
        | none => m
        | some tr => cmUpd tr.name (fun _ => tr) m)
      ([] : CMap TargetResult)
      = env.projects.foldl
      (fun m rp =>
        match evalTarget env cf
            (dep.foldl (fun cp kv =>
              match env.projects.find? (fun rp => rp.projectFolder = kv.1) with
              | none => cp
              | some rp =>
                if cp.contains rp.packageName then cp
                else nsInsert rp.packageName cp)
              (FindChangedProjects env.projects cf))
            dep tp
            (runLevels env mb cf it dep σ₂ τ₂ (TopologicalSort env.pm
              (FindTransitiveDependents env.pm
                (dep.foldl (fun cp kv =>
                  match env.projects.find?
                      (fun rp => rp.projectFolder = kv.1) with
                  | none => cp
                  | some rp =>
                    if cp.contains rp.packageName then cp
                    else nsInsert rp.packageName cp)
                  (FindChangedProjects env.projects cf)))) 0 [] []).1 rp with
        | none => m
        | some tr => cmUpd tr.name (fun _ => tr) m)
      ([] : CMap TargetResult) := by
    apply foldl_fun_ext
    intro m rp
    rw [evalTarget_congr env cf _ dep tp heq hfa rp]
  rw [hev]

/-- C3: monotonicity of taint fails.  In the five-package workspace
`C3env` (workspace-dependency cycle U and V, A depending on U, library
L depending on A and re-exporting a symbol built from A's export,
target T importing that symbol from L), changing only a file of A makes
the output contain target T; additionally changing a file of V pulls
the whole affected set into one topological level via the cycle flush,
so L is analyzed before A's taint is merged, receives no upstream
taint, and T disappears from the output. -/
theorem C3_add_file_removes_target :
    (runPipeline C3env "base" ["a/src/index.ts"] false [] [] idSched
      idMSched).1 = [⟨"T", []⟩] ∧
    (runPipeline C3env "base" ["a/src/index.ts", "v/src/index.ts"] false [] []
      idSched idMSched).1 = [] := by
  constructor
  · decide
  · decide

/-- C9 counterexample: with BASIC logging, two schedules of the same
run — identity order versus reversed within-level order — emit
different progress-line sequences while producing the same final
output, so the full standard output is not byte-identical across
runs. -/
theorem C9_counterexample :
    (runPipeline C9env "base" C9cf false [] [] idSched idMSched).2
      ≠ (runPipeline C9env "base" C9cf false [] [] revSched idMSched).2 ∧
    (runPipeline C9env "base" C9cf false [] [] idSched idMSched).1
      = (runPipeline C9env "base" C9cf false [] [] revSched idMSched).1 := by
  constructor
  · decide
  · decide

/-- C9 (amended): the final sorted target list — the one stdout line of
a silent run, and the last line of every run — is identical for every
pair of schedules (within-level processing orders and result-merge
orders that permute their lists), provided the environment's
fine-grained selector reads its taint argument only through lookups (as
`FindAffectedFiles` does).  The progress lines logged under BASIC are
not schedule-invariant, as the counterexample shows. -/
theorem C9_final_output_deterministic (env : MainEnv) (mb : String)
    (cf : List String) (it : Bool) (dep : CMap NameSet) (tp : List String)
    (σ₁ σ₂ : Nat → List String → List String)
    (τ₁ τ₂ : Nat → List (String × List AffectedExport) →
      List (String × List AffectedExport))
    (hσ₁ : ∀ i l, (σ₁ i l).Perm l) (hσ₂ : ∀ i l, (σ₂ i l).Perm l)
    (hτ₁ : ∀ i l, (τ₁ i l).Perm l) (hτ₂ : ∀ i l, (τ₂ i l).Perm l)
    (hfa : ∀ p ta tb cfl pf, cmEq ta tb →
      env.findAffectedOld p ta cfl pf = env.findAffectedOld p tb cfl pf) :
    (runPipeline env mb cf it dep tp σ₁ τ₁).1
      = (runPipeline env mb cf it dep tp σ₂ τ₂).1 :=
  runPipeline_json_equiv env mb cf it dep tp σ₁ σ₂ τ₁ τ₂ hσ₁ hσ₂ hτ₁ hτ₂ hfa

/-- Witness for the amended C9 statement: at the concrete two-library
run, the identity and the reversed schedules yield the same final
output list. -/
theorem C9_amended_witness :
    (runPipeline C9env "base" C9cf false [] [] idSched idMSched).1
      = (runPipeline C9env "base" C9cf false [] [] revSched idMSched).1 :=
  C9_final_output_deterministic C9env "base" C9cf false [] [] idSched revSched
    idMSched idMSched
    (fun _ l => List.Perm.refl l) (fun _ l => l.reverse_perm)
    (fun _ l => List.Perm.refl l) (fun _ l => List.Perm.refl l)
    (fun _ _ _ _ _ _ => rfl)

end GoodChanges
